import Mathlib

/-!
# csv2geojson, package `geo`: feature building and geometry parsing

A shallow embedding of `geo/geometry.go` and a verification of its
specification.

Modelling conventions.

* A Go `float64` is its IEEE 754 binary64 bit pattern; the Go operator `==`
  on floats is `Float64.eq` (a NaN equals nothing, the two zeros are equal).
* A Go slice that is only read is the `List` of its elements; a Go `int`
  used as an index is an `Int`.
* The rings passed to `ParsePolygon` are slices that the call appends to, and
  `append` writes into the backing array of a slice that has spare capacity.
  For them a `Slice` is a window on a backing array of a `Heap`, and
  `ParsePolygon.run` is the call on such slices; `ParsePolygon` is the call
  on the values of the rings, which `run_refines` shows to return the same
  rings whenever the rings passed share no storage.
* A run-time panic (index out of range) is the `Except.error` side of
  `Except Panic`; a Go `error` return value is an `Option GoError` next to
  the returned value, exactly as in the `(value, error)` pairs of the source.
* Library and collaborator functions (`strconv.ParseFloat`, `sha1`, the
  property extractor) are the fields of `Env`; `SHA1.sum` is SHA-1 itself,
  and `Env.HasSHA1` says that the digest function of an `Env` is SHA-1.
* Logging and progress ticks have no effect on the returned values and are
  left out.
-/

set_option autoImplicit false

namespace Geo

/-! ## Floating point values -/

/-- IEEE 754 binary64 value, given by its 64-bit pattern (Go `float64`). -/
structure Float64 where
  bits : Nat
deriving DecidableEq, Repr

/-- Exponent field all ones and a non-zero fraction: the value is a NaN. -/
def Float64.isNaN (x : Float64) : Bool :=
  (x.bits / 2 ^ 52) % 2 ^ 11 == 2047 && x.bits % 2 ^ 52 != 0

/-- Positive or negative zero: every bit below the sign bit is clear. -/
def Float64.isZero (x : Float64) : Bool :=
  x.bits % 2 ^ 63 == 0

/-- Go `x == y` on `float64`. -/
def Float64.eq (x y : Float64) : Bool :=
  !x.isNaN && !y.isNaN && (x.bits % 2 ^ 64 == y.bits % 2 ^ 64 || (x.isZero && y.isZero))

/-! ## Data model -/

/-- Go `type Point []float64`. -/
abbrev Point := List Float64

/-- Go `type LineString [][]float64`. -/
abbrev LineString := List (List Float64)

/-- Go `type Polygon [][][]float64`. -/
abbrev Polygon := List (List (List Float64))

/-- A Go `error` value. -/
inductive GoError where
  /-- The value of `errors.New(msg)`. -/
  | new (msg : String)
  /-- The `*strconv.NumError` of a failed `strconv.ParseFloat` on `num`. -/
  | numError (num : String)
deriving DecidableEq, Repr

/-- A run-time panic. -/
inductive Panic where
  /-- Index `i` used on a slice of length `len`. -/
  | indexOutOfRange (i : Int) (len : Nat)
deriving DecidableEq, Repr

/-- Results of runs can be compared. -/
instance instDecidableEqExcept {ε α : Type} [DecidableEq ε] [DecidableEq α] :
    DecidableEq (Except ε α)
  | .ok a, .ok b => if h : a = b then isTrue (by rw [h]) else isFalse (fun e => h (by cases e; rfl))
  | .error a, .error b =>
    if h : a = b then isTrue (by rw [h]) else isFalse (fun e => h (by cases e; rfl))
  | .ok _, .error _ => isFalse (fun e => by cases e)
  | .error _, .ok _ => isFalse (fun e => by cases e)

/-- Go `xs[i]`: panics when `i` is negative or not below `len(xs)`. -/
def index {α : Type} (xs : List α) (i : Int) : Except Panic α :=
  if i < 0 then .error (.indexOutOfRange i xs.length)
  else
    match xs.get? i.toNat with
    | some x => .ok x
    | none => .error (.indexOutOfRange i xs.length)

/-! ## `ParsePolygon` -/

/-- The body of the `for _, line := range lines` loop of `ParsePolygon`,
with the polygon built so far, on rings given by their points: every ring is
a value of its own, so that `append(line, line[0])` cannot reach another
ring. This is the call of a single ring, as `BuildPolygonCollection` makes
it, and the call of rings that share no storage (`run_refines`); the call on
slices, where rings may share storage, is `ParsePolygon.run`. -/
def ParsePolygon.loop : List LineString → Polygon → Except Panic (Polygon × Option GoError)
  | [], polygon => .ok (polygon, none)
  | line :: rest, polygon =>
    if line.length < 3 then
      .ok ([], some (.new "Coordinates format is invalid for polygon"))
    else
      match index line ((line.length : Int) - 1) with
      | .error p => .error p
      | .ok last =>
      match index last 0 with
      | .error p => .error p
      | .ok l0 =>
      match index line 0 with
      | .error p => .error p
      | .ok first =>
      match index first 0 with
      | .error p => .error p
      | .ok f0 =>
      if l0.eq f0 then
        match index last 1 with
        | .error p => .error p
        | .ok l1 =>
        match index first 1 with
        | .error p => .error p
        | .ok f1 =>
        if l1.eq f1 then
          ParsePolygon.loop rest (polygon ++ [line])
        else
          ParsePolygon.loop rest (polygon ++ [line ++ [first]])
      else
        ParsePolygon.loop rest (polygon ++ [line ++ [first]])

/-- Go `func ParsePolygon(lines ...LineString) (Polygon, error)`, on rings
given by their points (see `ParsePolygon.loop`). -/
def ParsePolygon (lines : List LineString) : Except Panic (Polygon × Option GoError) :=
  if lines.length > 2 then
    .ok ([], some (.new "Polygon parse arguments is too many"))
  else
    ParsePolygon.loop lines []

/-! ## Slices and their backing arrays -/

/-- A Go slice of points (a `LineString` as the program holds it): a window
of `len` slots, out of `cap` that may be used, from the slot `offset` of the
backing array number `array`. -/
structure Slice where
  array : Nat
  offset : Nat
  len : Nat
  cap : Nat
deriving DecidableEq, Repr

/-- The backing arrays of the slices of points: the point held by every slot
of every array, the length of every array and the number of arrays that
exist. A slot holds the value of its point: the program writes to no
component of a point once the point is made. -/
structure Heap where
  cells : Nat → Nat → List Float64
  lens : Nat → Nat
  count : Nat

/-- The heap that holds the given arrays and nothing else. -/
def Heap.ofArrays (arrays : List (List (List Float64))) : Heap where
  cells := fun a i => (arrays.getD a []).getD i []
  lens := fun a => (arrays.getD a []).length
  count := arrays.length

/-- The points that a slice shows. -/
def Heap.read (h : Heap) (s : Slice) : LineString :=
  (List.range s.len).map fun i => h.cells s.array (s.offset + i)

/-- The slice lies inside an array that exists. -/
def Heap.Valid (h : Heap) (s : Slice) : Prop :=
  s.array < h.count ∧ s.len ≤ s.cap ∧ s.offset + s.cap ≤ h.lens s.array

instance instDecidableHeapValid (h : Heap) (s : Slice) : Decidable (h.Valid s) :=
  inferInstanceAs (Decidable (s.array < h.count ∧ s.len ≤ s.cap ∧
    s.offset + s.cap ≤ h.lens s.array))

/-- Two slices share no storage: they lie in different arrays, or on slots
of one array that do not overlap, spare capacity included. -/
def Slice.Separate (s t : Slice) : Prop :=
  s.array ≠ t.array ∨ s.offset + s.cap ≤ t.offset ∨ t.offset + t.cap ≤ s.offset

instance instDecidableSeparate (s t : Slice) : Decidable (s.Separate t) :=
  inferInstanceAs (Decidable (s.array ≠ t.array ∨ s.offset + s.cap ≤ t.offset ∨
    t.offset + t.cap ≤ s.offset))

/-- Go `append(s, x)`. With spare capacity the point is written into the
backing array, in the slot after the last one of the slice, and the result
is the slice one longer on the same array. Without spare capacity a new
array is made with the points of the slice and `x`, and the result is a
slice on it; `growth n` is the number of spare slots that the runtime gives
an array made for `n` points. -/
def Heap.append (growth : Nat → Nat) (h : Heap) (s : Slice) (x : List Float64) :
    Heap × Slice :=
  if s.len < s.cap then
    ({ h with cells := fun a i =>
        if a = s.array ∧ i = s.offset + s.len then x else h.cells a i },
      { s with len := s.len + 1 })
  else
    ({ cells := fun a i =>
        if a = h.count then
          if i < s.len then h.cells s.array (s.offset + i) else if i = s.len then x else []
        else h.cells a i
       lens := fun a => if a = h.count then s.len + 1 + growth (s.len + 1) else h.lens a
       count := h.count + 1 },
      { array := h.count, offset := 0, len := s.len + 1, cap := s.len + 1 + growth (s.len + 1) })

/-- The loop of `ParsePolygon` on slices: `ParsePolygon.loop` with the rings
read from their backing arrays when the loop comes to them, and with
`append(line, line[0])` as Go runs it. -/
def ParsePolygon.runLoop (growth : Nat → Nat) :
    Heap → List Slice → List Slice → Except Panic (Heap × List Slice × Option GoError)
  | h, [], polygon => .ok (h, polygon, none)
  | h, line :: rest, polygon =>
    if line.len < 3 then
      .ok (h, [], some (.new "Coordinates format is invalid for polygon"))
    else
      match index (h.read line) ((line.len : Int) - 1) with
      | .error p => .error p
      | .ok last =>
      match index last 0 with
      | .error p => .error p
      | .ok l0 =>
      match index (h.read line) 0 with
      | .error p => .error p
      | .ok first =>
      match index first 0 with
      | .error p => .error p
      | .ok f0 =>
      if l0.eq f0 then
        match index last 1 with
        | .error p => .error p
        | .ok l1 =>
        match index first 1 with
        | .error p => .error p
        | .ok f1 =>
        if l1.eq f1 then
          ParsePolygon.runLoop growth h rest (polygon ++ [line])
        else
          ParsePolygon.runLoop growth (h.append growth line first).1 rest
            (polygon ++ [(h.append growth line first).2])
      else
        ParsePolygon.runLoop growth (h.append growth line first).1 rest
          (polygon ++ [(h.append growth line first).2])

/-- Go `func ParsePolygon(lines ...LineString) (Polygon, error)` on slices:
the rings are slices on the backing arrays of the heap, and the call returns
the heap as it leaves it, the slices of the polygon and the error. -/
def ParsePolygon.run (growth : Nat → Nat) (h : Heap) (lines : List Slice) :
    Except Panic (Heap × List Slice × Option GoError) :=
  if lines.length > 2 then
    .ok (h, [], some (.new "Polygon parse arguments is too many"))
  else
    ParsePolygon.runLoop growth h lines []

/-- The rings of a polygon of slices, read from the heap. -/
def Heap.readAll (h : Heap) (polygon : List Slice) : Polygon :=
  polygon.map h.read

/-! ## Collaborators -/

/-- A scalar property value of a row, as the property extractor produces it. -/
inductive Scalar where
  | str (s : String)
  | int (i : Int)
  | float (x : Float64)
deriving DecidableEq, Repr

/-- A Go `map[string]V`, as an association list with distinct keys kept in
first-insertion order. The order is only a representation: where the source
ranges over a map whose order can be observed, the visiting order is an
explicit argument. -/
abbrev GoMap (V : Type) := List (String × V)

/-- Go `m[k]` with the `ok` flag: the value stored under `k`, if any. -/
def GoMap.lookup {V : Type} : GoMap V → String → Option V
  | [], _ => none
  | (k', v) :: rest, k => if k' = k then some v else GoMap.lookup rest k

/-- Go `m[k] = v`. -/
def GoMap.insert {V : Type} : GoMap V → String → V → GoMap V
  | [], k, v => [(k, v)]
  | (k', v') :: rest, k, v =>
    if k' = k then (k, v) :: rest else (k', v') :: GoMap.insert rest k v

/-- The keys of a map. -/
def GoMap.keys {V : Type} (m : GoMap V) : List String := m.map Prod.fst

/-- The functions of other packages and files that `geometry.go` calls. -/
structure Env where
  /-- Go `strconv.ParseFloat(s, 64)`: the value, or the error returned. -/
  parseFloat : String → Except GoError Float64
  /-- The SHA-1 digest of the bytes of a string (`crypto/sha1`). -/
  sha1Sum : String → List Nat
  /-- The property extractor `ParseProperties(headers, record, longitude,
  latitude)`: the property map of a row. -/
  ParseProperties : List String → List String → String → String → GoMap Scalar

/-- Modelled from the spec: the type `PropertyCollections`, declared in a
file of the package that is not part of the sources at hand. It carries the
per-row attributes of a group into the aggregated feature: under every
property name, the values of the contributing rows in row order. -/
abbrev PropertyCollections := GoMap (List Scalar)

/-- Modelled from the spec: the method `AppendProperties`, declared with
`PropertyCollections`: append the properties of one row to the collections
of its group. -/
def PropertyCollections.AppendProperties (pc : PropertyCollections)
    (properties : GoMap Scalar) : PropertyCollections :=
  properties.foldl
    (fun acc kv => GoMap.insert acc kv.1 ((GoMap.lookup acc kv.1).getD [] ++ [kv.2])) pc

/-! ## GeoJSON values (`github.com/paulmach/go.geojson`) -/

/-- The geometry of a feature. -/
inductive Geometry where
  | point (coordinate : List Float64)
  | lineString (coordinates : List (List Float64))
  | polygon (rings : List (List (List Float64)))
deriving DecidableEq, Repr

/-- A value stored in the property map of a feature (Go `interface{}`):
what the builders store there. -/
inductive PropertyValue where
  /-- A value of the property map of a row. -/
  | scalar (v : Scalar)
  /-- A `[]byte`, the digest of a group key. -/
  | bytes (b : List Nat)
  /-- An entry of the `PropertyCollections` of a group. -/
  | collection (vs : List Scalar)
deriving DecidableEq, Repr

/-- A GeoJSON feature: a geometry and a property map. -/
structure Feature where
  geometry : Geometry
  properties : GoMap PropertyValue
deriving DecidableEq, Repr

/-- Go `geojson.NewPointFeature(coordinate)`. -/
def NewPointFeature (coordinate : List Float64) : Feature :=
  { geometry := .point coordinate, properties := [] }

/-- Go `geojson.NewLineStringFeature(coordinates)`. -/
def NewLineStringFeature (coordinates : List (List Float64)) : Feature :=
  { geometry := .lineString coordinates, properties := [] }

/-- Go `geojson.NewPolygonFeature(rings)`. -/
def NewPolygonFeature (rings : List (List (List Float64))) : Feature :=
  { geometry := .polygon rings, properties := [] }

/-- Go `feature.SetProperty(key, value)`. -/
def Feature.SetProperty (f : Feature) (key : String) (value : PropertyValue) : Feature :=
  { f with properties := GoMap.insert f.properties key value }

/-- A GeoJSON feature collection: its features, in the order of the
`AddFeature` calls. -/
structure FeatureCollection where
  features : List Feature
deriving DecidableEq, Repr

/-! ## `ParseCoordinate` and `ParseHash` -/

/-- Go `func ParseCoordinate(columns []int, record []string) (Point, error)`. -/
def ParseCoordinate (env : Env) (columns : List Int) (record : List String) :
    Except Panic (Point × Option GoError) :=
  if columns.length == 1 then
    .ok ([], some (.new "Coordinate format is invalid"))
  else
    match index columns 0 with
    | .error p => .error p
    | .ok c0 =>
    match index record c0 with
    | .error p => .error p
    | .ok cell0 =>
    match env.parseFloat cell0 with
    | .error err => .ok ([], some err)
    | .ok lon =>
    match index columns 1 with
    | .error p => .error p
    | .ok c1 =>
    match index record c1 with
    | .error p => .error p
    | .ok cell1 =>
    match env.parseFloat cell1 with
    | .error err => .ok ([], some err)
    | .ok lat => .ok ([lon, lat], none)

/-- Go `func ParseHash(key string) []byte`. -/
def ParseHash (env : Env) (key : String) : List Nat :=
  env.sha1Sum key

/-! ## The builders -/

/-- The `for key, property := range properties` loop of the point builder:
every property of the row is set on the feature. -/
def setProperties (feature : Feature) (properties : GoMap Scalar) : Feature :=
  properties.foldl (fun f kv => f.SetProperty kv.1 (.scalar kv.2)) feature

/-- The `for i, record := range records` loop of `BuildPointCollection`, at
row index `i` with the features added so far. -/
def BuildPointCollection.loop (env : Env) (longitude latitude : String)
    (columns : List Int) (headers : List String) (limit : Int) :
    List (List String) → Int → List Feature → Except Panic (List Feature)
  | [], _, fc => .ok fc
  | record :: rest, i, fc =>
    match ParseCoordinate env columns record with
    | .error p => .error p
    | .ok (_, some _) =>
      BuildPointCollection.loop env longitude latitude columns headers limit rest (i + 1) fc
    | .ok (coord, none) =>
      let feature := NewPointFeature coord
      let properties := env.ParseProperties headers record longitude latitude
      let feature := setProperties feature properties
      if limit != 0 && limit == i then
        .ok fc
      else
        BuildPointCollection.loop env longitude latitude columns headers limit rest (i + 1)
          (fc ++ [feature])

/-- Go `func BuildPointCollection(longitude, latitude, columns, headers,
records, limit) *geojson.FeatureCollection`. -/
def BuildPointCollection (env : Env) (longitude latitude : String) (columns : List Int)
    (headers : List String) (records : List (List String)) (limit : Int) :
    Except Panic FeatureCollection :=
  match BuildPointCollection.loop env longitude latitude columns headers limit records 0 [] with
  | .error p => .error p
  | .ok fc => .ok { features := fc }

/-- The first loop of `BuildLineStringCollection`, which
`BuildPolygonCollection` repeats word for word: the rows are grouped by the
cell at `index`, into the maps `tmp` (coordinates) and `tmps` (properties). -/
def groupRecords (env : Env) (longitude latitude : String) (idx : Int)
    (columns : List Int) (headers : List String) :
    List (List String) → GoMap LineString → GoMap PropertyCollections →
      Except Panic (GoMap LineString × GoMap PropertyCollections)
  | [], tmp, tmps => .ok (tmp, tmps)
  | record :: rest, tmp, tmps =>
    match ParseCoordinate env columns record with
    | .error p => .error p
    | .ok (_, some _) =>
      groupRecords env longitude latitude idx columns headers rest tmp tmps
    | .ok (coord, none) =>
      match index record idx with
      | .error p => .error p
      | .ok key =>
        let properties := env.ParseProperties headers record longitude latitude
        let tmp := GoMap.insert tmp key ((GoMap.lookup tmp key).getD [] ++ [coord])
        let tmps := if (GoMap.lookup tmps key).isSome then tmps else GoMap.insert tmps key []
        let tmps := GoMap.insert tmps key
          (PropertyCollections.AppendProperties ((GoMap.lookup tmps key).getD []) properties)
        groupRecords env longitude latitude idx columns headers rest tmp tmps

/-- The `for key, pc := range tmps[id]` loop of the grouped builders. -/
def setCollections (feature : Feature) (pcs : PropertyCollections) : Feature :=
  pcs.foldl (fun f kv => f.SetProperty kv.1 (.collection kv.2)) feature

/-- The `for id, coords := range tmp` loop of `BuildLineStringCollection`:
`order` lists the keys of `tmp` in the order in which the loop visits them,
`cnt` is the counter and `fc` the features added so far. -/
def BuildLineStringCollection.loop (env : Env) (tmp : GoMap LineString)
    (tmps : GoMap PropertyCollections) (limit : Int) :
    List String → Int → List Feature → List Feature
  | [], _, fc => fc
  | id :: rest, cnt, fc =>
    let coords := (GoMap.lookup tmp id).getD []
    let feature := NewLineStringFeature coords
    let feature := feature.SetProperty "hash_" (.bytes (ParseHash env id))
    let feature := setCollections feature ((GoMap.lookup tmps id).getD [])
    if limit != 0 && limit == cnt then
      fc
    else
      BuildLineStringCollection.loop env tmp tmps limit rest (cnt + 1) (fc ++ [feature])

/-- Go `func BuildLineStringCollection(longitude, latitude, index, columns,
headers, records, limit) *geojson.FeatureCollection`. The extra argument
`order` is the order in which the second loop visits the keys of the map
`tmp`, which Go leaves unspecified. -/
def BuildLineStringCollection (env : Env) (longitude latitude : String) (idx : Int)
    (columns : List Int) (headers : List String) (records : List (List String))
    (limit : Int) (order : List String) : Except Panic FeatureCollection :=
  match groupRecords env longitude latitude idx columns headers records [] [] with
  | .error p => .error p
  | .ok (tmp, tmps) =>
    .ok { features := BuildLineStringCollection.loop env tmp tmps limit order 0 [] }

/-- The `for id, coords := range tmp` loop of `BuildPolygonCollection`. -/
def BuildPolygonCollection.loop (env : Env) (tmp : GoMap LineString)
    (tmps : GoMap PropertyCollections) (limit : Int) :
    List String → Int → List Feature → Except Panic (List Feature)
  | [], _, fc => .ok fc
  | id :: rest, cnt, fc =>
    let coords := (GoMap.lookup tmp id).getD []
    match ParsePolygon [coords] with
    | .error p => .error p
    | .ok (_, some _) => BuildPolygonCollection.loop env tmp tmps limit rest cnt fc
    | .ok (polygon, none) =>
      let feature := NewPolygonFeature polygon
      let feature := feature.SetProperty "hash_" (.bytes (ParseHash env id))
      let feature := setCollections feature ((GoMap.lookup tmps id).getD [])
      if limit != 0 && limit == cnt then
        .ok fc
      else
        BuildPolygonCollection.loop env tmp tmps limit rest (cnt + 1) (fc ++ [feature])

/-- Go `func BuildPolygonCollection(longitude, latitude, index, columns,
headers, records, limit) *geojson.FeatureCollection`, with the visiting
order of the map `tmp` as for `BuildLineStringCollection`. -/
def BuildPolygonCollection (env : Env) (longitude latitude : String) (idx : Int)
    (columns : List Int) (headers : List String) (records : List (List String))
    (limit : Int) (order : List String) : Except Panic FeatureCollection :=
  match groupRecords env longitude latitude idx columns headers records [] [] with
  | .error p => .error p
  | .ok (tmp, tmps) =>
    match BuildPolygonCollection.loop env tmp tmps limit order 0 [] with
    | .error p => .error p
    | .ok fc => .ok { features := fc }

/-- An order in which a `range` loop may visit the keys of a map: every key
once. -/
def IsRangeOrder {V : Type} (m : GoMap V) (order : List String) : Prop :=
  order.Perm (GoMap.keys m)

/-! ## SHA-1 (`crypto/sha1`) -/

/-- The bytes of a character in UTF-8. -/
def utf8EncodeChar (c : Char) : List Nat :=
  let n := c.toNat
  if n < 0x80 then [n]
  else if n < 0x800 then [0xC0 + n / 64, 0x80 + n % 64]
  else if n < 0x10000 then [0xE0 + n / 4096, 0x80 + (n / 64) % 64, 0x80 + n % 64]
  else [0xF0 + n / 262144, 0x80 + (n / 4096) % 64, 0x80 + (n / 64) % 64, 0x80 + n % 64]

/-- The bytes of a string. -/
def utf8 (s : String) : List Nat :=
  (s.toList.map utf8EncodeChar).flatten

/-- The four bytes of a 32-bit word, the most significant first. -/
def SHA1.be32 (x : Nat) : List Nat :=
  [(x / 2 ^ 24) % 256, (x / 2 ^ 16) % 256, (x / 2 ^ 8) % 256, x % 256]

/-- Rotation of a 32-bit word to the left by `n` bits. -/
def SHA1.rotl (n x : Nat) : Nat :=
  ((x * 2 ^ n) % 2 ^ 32) ||| (x / 2 ^ (32 - n))

/-- The message with its padding: the byte `0x80`, zero bytes up to 56
modulo 64, and the length of the message in bits on eight bytes. -/
def SHA1.pad (msg : List Nat) : List Nat :=
  msg ++ [0x80] ++ List.replicate ((119 - msg.length % 64) % 64) 0
    ++ SHA1.be32 ((8 * msg.length) / 2 ^ 32) ++ SHA1.be32 (8 * msg.length)

/-- The big-endian 32-bit words of a sequence of bytes. -/
def SHA1.words : List Nat → List Nat
  | b0 :: b1 :: b2 :: b3 :: rest => (((b0 * 256 + b1) * 256 + b2) * 256 + b3) :: SHA1.words rest
  | _ => []

/-- The message schedule, latest word first, extended by `n` words. -/
def SHA1.extend : Nat → List Nat → List Nat
  | 0, ws => ws
  | n + 1, ws =>
    SHA1.extend n
      (SHA1.rotl 1 (ws.getD 2 0 ^^^ ws.getD 7 0 ^^^ ws.getD 13 0 ^^^ ws.getD 15 0) :: ws)

/-- The eighty words of the schedule of a block of 64 bytes. -/
def SHA1.schedule (block : List Nat) : List Nat :=
  (SHA1.extend 64 (SHA1.words block).reverse).reverse

/-- The five working words. -/
structure SHA1.State where
  a : Nat
  b : Nat
  c : Nat
  d : Nat
  e : Nat

/-- The function of round `t`. -/
def SHA1.f (t b c d : Nat) : Nat :=
  if t < 20 then (b &&& c) ||| ((b ^^^ 0xFFFFFFFF) &&& d)
  else if t < 40 then b ^^^ c ^^^ d
  else if t < 60 then (b &&& c) ||| (b &&& d) ||| (c &&& d)
  else b ^^^ c ^^^ d

/-- The constant of round `t`. -/
def SHA1.k (t : Nat) : Nat :=
  if t < 20 then 0x5A827999
  else if t < 40 then 0x6ED9EBA1
  else if t < 60 then 0x8F1BBCDC
  else 0xCA62C1D6

/-- The rounds over the words of the schedule, from round `t` on. -/
def SHA1.rounds : List Nat → Nat → SHA1.State → SHA1.State
  | [], _, s => s
  | w :: ws, t, ⟨a, b, c, d, e⟩ =>
    SHA1.rounds ws (t + 1)
      ⟨(SHA1.rotl 5 a + SHA1.f t b c d + e + SHA1.k t + w) % 2 ^ 32, a, SHA1.rotl 30 b, c, d⟩

/-- The compression of one block into the chaining value. -/
def SHA1.compress (h : SHA1.State) (block : List Nat) : SHA1.State :=
  match h, SHA1.rounds (SHA1.schedule block) 0 h with
  | ⟨a0, b0, c0, d0, e0⟩, ⟨a, b, c, d, e⟩ =>
    ⟨(a0 + a) % 2 ^ 32, (b0 + b) % 2 ^ 32, (c0 + c) % 2 ^ 32, (d0 + d) % 2 ^ 32,
      (e0 + e) % 2 ^ 32⟩

/-- The compression of `n` blocks of 64 bytes one after the other. -/
def SHA1.process : Nat → List Nat → SHA1.State → SHA1.State
  | 0, _, h => h
  | n + 1, bytes, h => SHA1.process n (bytes.drop 64) (SHA1.compress h (bytes.take 64))

/-- The SHA-1 digest of a sequence of bytes (FIPS 180-4), as its twenty
bytes. -/
def SHA1.sum (msg : List Nat) : List Nat :=
  match SHA1.process ((SHA1.pad msg).length / 64) (SHA1.pad msg)
      ⟨0x67452301, 0xEFCDAB89, 0x98BADCFE, 0x10325476, 0xC3D2E1F0⟩ with
  | ⟨a, b, c, d, e⟩ =>
    SHA1.be32 a ++ SHA1.be32 b ++ SHA1.be32 c ++ SHA1.be32 d ++ SHA1.be32 e

/-- The library functions are the ones of Go as far as the digest goes:
`sha1Sum` is the SHA-1 digest of the bytes of the key. -/
def Env.HasSHA1 (env : Env) : Prop :=
  ∀ key, env.sha1Sum key = SHA1.sum (utf8 key)

/-! ## Notions used by the statements -/

/-- The comparison that `ParsePolygon` makes between two coordinate pairs,
`p[0] == q[0] && p[1] == q[1]` with the Go `==` of floats; `false` when a
component is missing. -/
def pairEq (p q : List Float64) : Bool :=
  match p, q with
  | a :: b :: _, c :: d :: _ => a.eq c && b.eq d
  | _, _ => false

/-- A ring is closed: its last pair compares equal to its first pair,
component by component, with the Go `==` of floats. -/
def RingClosed (ring : LineString) : Prop :=
  ∃ first last, ring.head? = some first ∧ ring.getLast? = some last ∧
    pairEq last first = true

/-- What one iteration of the loop of `ParsePolygon` appends to the polygon
for a ring: the ring itself when its last pair compares equal to its first
one, and otherwise `append(line, line[0])`. -/
def closeRing (line : LineString) : LineString :=
  match line.head?, line.getLast? with
  | some first, some last => if pairEq last first then line else line ++ [first]
  | _, _ => line

/-- Every point of every ring has exactly two components. -/
def AllPairs (lines : List LineString) : Prop :=
  ∀ line ∈ lines, ∀ p ∈ line, p.length = 2

instance instDecidableAllPairs (lines : List LineString) : Decidable (AllPairs lines) :=
  inferInstanceAs (Decidable (∀ line ∈ lines, ∀ p ∈ line, p.length = 2))

/-- Position `i` lies inside the row. -/
def InRow (record : List String) (i : Int) : Prop :=
  0 ≤ i ∧ i < record.length

instance instDecidableInRow (record : List String) (i : Int) : Decidable (InRow record i) :=
  inferInstanceAs (Decidable (0 ≤ i ∧ i < record.length))

/-- The cell of the row at a position that lies inside it. -/
def cellAt (record : List String) (i : Int) : String :=
  record.getD i.toNat ""

/-- The cell parses as a 64-bit float. -/
def Parses (env : Env) (cell : String) : Prop :=
  ∃ x, env.parseFloat cell = .ok x

/-- The parsed longitude and latitude of a row: the values of the cells at
the two column positions, when both parse. -/
def parsedPoint (env : Env) (c0 c1 : Int) (record : List String) : Option Point :=
  match env.parseFloat (cellAt record c0), env.parseFloat (cellAt record c1) with
  | .ok lon, .ok lat => some [lon, lat]
  | _, _ => none

/-- The point feature that the point builder makes of a row whose
coordinate parses: the parsed point with the properties of the row. -/
def pointFeature (env : Env) (longitude latitude : String) (c0 c1 : Int)
    (headers : List String) (record : List String) : Option Feature :=
  (parsedPoint env c0 c1 record).map fun p =>
    setProperties (NewPointFeature p) (env.ParseProperties headers record longitude latitude)

/-- The rows whose coordinate parses, each as the pair of its grouping key
and its parsed point, in the order of the rows. -/
def parsedRows (env : Env) (c0 c1 idx : Int) (records : List (List String)) :
    List (String × Point) :=
  records.filterMap fun record =>
    (parsedPoint env c0 c1 record).map fun p => (cellAt record idx, p)

/-- The parsed points of the rows with grouping key `k` whose coordinate
parses, in the order of the rows. -/
def groupCoordinates (env : Env) (c0 c1 idx : Int) (records : List (List String))
    (k : String) : LineString :=
  ((parsedRows env c0 c1 idx records).filter (fun kp => decide (kp.1 = k))).map Prod.snd

/-- The cell parses as a 64-bit float, as a test. -/
def parsesCell (env : Env) (cell : String) : Bool :=
  match env.parseFloat cell with
  | .ok _ => true
  | .error _ => false

/-- The row has the cells that `ParseCoordinate` reads of it: the cell at
the first column position, and the cell at the second one when the first
cell parses (when it does not, the second cell is not read). -/
def PointReadable (env : Env) (c0 c1 : Int) (record : List String) : Prop :=
  InRow record c0 ∧ (parsesCell env (cellAt record c0) = true → InRow record c1)

instance instDecidablePointReadable (env : Env) (c0 c1 : Int) (record : List String) :
    Decidable (PointReadable env c0 c1 record) :=
  inferInstanceAs (Decidable (InRow record c0 ∧
    (parsesCell env (cellAt record c0) = true → InRow record c1)))

/-- The row has the cells that the grouped builders read of it: those that
`ParseCoordinate` reads, and the cell at the grouping index when the
coordinate parses (when it does not, the grouping cell is not read). -/
def GroupReadable (env : Env) (c0 c1 idx : Int) (record : List String) : Prop :=
  PointReadable env c0 c1 record ∧
    ((parsedPoint env c0 c1 record).isSome = true → InRow record idx)

instance instDecidableGroupReadable (env : Env) (c0 c1 idx : Int) (record : List String) :
    Decidable (GroupReadable env c0 c1 idx record) :=
  inferInstanceAs (Decidable (PointReadable env c0 c1 record ∧
    ((parsedPoint env c0 c1 record).isSome = true → InRow record idx)))

/-- The grouping keys of the rows whose coordinate parses, each once: the
groups of the records. -/
def groupKeys (env : Env) (c0 c1 idx : Int) (records : List (List String)) : List String :=
  ((parsedRows env c0 c1 idx records).map Prod.fst).dedup

/-- The feature that the second loop of `BuildLineStringCollection` makes of
the group with key `id`. -/
def lineStringFeature (env : Env) (tmp : GoMap LineString) (tmps : GoMap PropertyCollections)
    (id : String) : Feature :=
  setCollections
    ((NewLineStringFeature ((GoMap.lookup tmp id).getD [])).SetProperty "hash_"
      (.bytes (ParseHash env id)))
    ((GoMap.lookup tmps id).getD [])

/-- The feature that the second loop of `BuildPolygonCollection` makes of
the group with key `id`, from the polygon that `ParsePolygon` returned for
the coordinates of the group. -/
def polygonFeature (env : Env) (tmps : GoMap PropertyCollections) (id : String)
    (polygon : Polygon) : Feature :=
  setCollections
    ((NewPolygonFeature polygon).SetProperty "hash_" (.bytes (ParseHash env id)))
    ((GoMap.lookup tmps id).getD [])

/-- What an iteration of the second loop of `BuildPolygonCollection` makes
of the group with key `id`: the feature of the group, or nothing when
`ParsePolygon` does not return a polygon for its coordinates. -/
def polygonStep (env : Env) (tmp : GoMap LineString) (tmps : GoMap PropertyCollections)
    (id : String) : Option Feature :=
  match ParsePolygon [(GoMap.lookup tmp id).getD []] with
  | .ok (polygon, none) => some (polygonFeature env tmps id polygon)
  | _ => none

/-- The group with key `k` accumulated at least three coordinates that
parse. -/
def validGroup (env : Env) (c0 c1 idx : Int) (records : List (List String)) (k : String) :
    Bool :=
  decide (3 ≤ (groupCoordinates env c0 c1 idx records k).length)

/-- Following the words of the specification, "the line-string builder
followed by ring closure": the polygon feature of a line-string feature. The
coordinates of the feature are passed to `ParsePolygon` as a single ring and
the polygon returned becomes the geometry, the properties staying as they
are; there is no feature when `ParsePolygon` returns no polygon. -/
def closeLineStringFeature (f : Feature) : Option Feature :=
  match f.geometry with
  | .lineString coords =>
    match ParsePolygon [coords] with
    | .ok (polygon, none) => some { f with geometry := .polygon polygon }
    | _ => none
  | _ => none

/-! ## Sample values -/

/-- The float `+0`. -/
def Float64.zero : Float64 := ⟨0⟩

/-- The float `-0`: only the sign bit is set. -/
def Float64.negZero : Float64 := ⟨0x8000000000000000⟩

/-- The float `1`. -/
def Float64.one : Float64 := ⟨0x3FF0000000000000⟩

/-- The float `2`. -/
def Float64.two : Float64 := ⟨0x4000000000000000⟩

/-- The float `5`. -/
def Float64.five : Float64 := ⟨0x4014000000000000⟩

/-- The NaN that `math.NaN()` and `strconv.ParseFloat("NaN", 64)` return. -/
def Float64.nan : Float64 := ⟨0x7FF8000000000001⟩

/-- An open ring of three pairs: `(0,0)`, `(1,0)`, `(1,1)`. -/
def openRing : LineString :=
  [[Float64.zero, Float64.zero], [Float64.one, Float64.zero], [Float64.one, Float64.one]]

/-- A closed ring of four pairs, from `(0,0)` back to `(0,0)`. -/
def closedRing : LineString :=
  [[Float64.zero, Float64.zero], [Float64.one, Float64.zero], [Float64.one, Float64.one],
    [Float64.zero, Float64.zero]]

/-- A ring of two pairs only. -/
def shortRing : LineString :=
  [[Float64.zero, Float64.zero], [Float64.one, Float64.one]]

/-- An open ring of three pairs whose first pair holds a NaN. -/
def nanRing : LineString :=
  [[Float64.nan, Float64.zero], [Float64.one, Float64.zero], [Float64.one, Float64.one]]

/-- A stand-in for the library functions: `parseFloat` knows the numerals
used below and `NaN` and rejects every other cell, `sha1Sum` gives twenty
bytes computed from the key, and the property extractor pairs the headers
with the cells, the longitude and latitude columns left out. -/
def sampleEnv : Env where
  parseFloat := fun s =>
    if s = "0" then .ok Float64.zero
    else if s = "1.0" then .ok Float64.one
    else if s = "2.0" then .ok Float64.two
    else if s = "5.0" then .ok Float64.five
    else if s = "1.1" then .ok ⟨0x3FF199999999999A⟩
    else if s = "2.1" then .ok ⟨0x4000CCCCCCCCCCCD⟩
    else if s = "NaN" then .ok Float64.nan
    else .error (.numError s)
  sha1Sum := fun s => ((s.toList.map Char.toNat) ++ List.replicate 20 0).take 20
  ParseProperties := fun headers record longitude latitude =>
    ((headers.zip record).filter (fun kv => kv.1 != longitude && kv.1 != latitude)).map
      (fun kv => (kv.1, Scalar.str kv.2))

/-- Three rows with longitude and latitude in the columns 0 and 1; the
cell `x` of the second row does not parse. -/
def rowsWithBadSecond : List (List String) :=
  [["1.0", "2.0"], ["x", "2.0"], ["5.0", "5.0"]]

/-- The rows `A, 1.0, 2.0`, `A, 1.1, 2.1` and `B, 5.0, 5.0`: the grouping
key in column 0, longitude and latitude in the columns 1 and 2. -/
def rowsAB : List (List String) :=
  [["A", "1.0", "2.0"], ["A", "1.1", "2.1"], ["B", "5.0", "5.0"]]

/-- The row `A, 1.0, 2.0` followed by the row `B`, which has no cell at the
column positions 1 and 2. -/
def rowsWithShortRow : List (List String) :=
  [["A", "1.0", "2.0"], ["B"]]

/-- Five rows: three of the group `A`, which parse, and two of the group
`B`. -/
def rowsTriangleAndPair : List (List String) :=
  [["A", "0", "0"], ["B", "1.0", "2.0"], ["A", "1.0", "0"], ["B", "5.0", "5.0"],
    ["A", "1.0", "1.0"]]

/-- The stand-in `sampleEnv` with SHA-1 as its digest function. -/
def sha1Env : Env :=
  { sampleEnv with sha1Sum := fun key => SHA1.sum (utf8 key) }

/-- The runtime gives a new array no spare slot. -/
def noGrowth : Nat → Nat := fun _ => 0

/-- A heap with one array of five points, the closed ring `(0,0)`, `(1,0)`,
`(1,1)`, `(2,2)`, `(0,0)`. -/
def closedBase : Heap :=
  Heap.ofArrays [[[Float64.zero, Float64.zero], [Float64.one, Float64.zero],
    [Float64.one, Float64.one], [Float64.two, Float64.two], [Float64.zero, Float64.zero]]]

/-- A heap with one array of four points, the open ring `(0,0)`, `(1,0)`,
`(1,1)`, `(5,5)`. -/
def openBase : Heap :=
  Heap.ofArrays [[[Float64.zero, Float64.zero], [Float64.one, Float64.zero],
    [Float64.one, Float64.one], [Float64.five, Float64.five]]]

/-- A heap with the open ring of three points and the closed ring of four
points, each in an array of its own. -/
def twoRings : Heap :=
  Heap.ofArrays [openRing, closedRing]

/-- A heap with one array, the open ring whose first point holds a NaN. -/
def nanBase : Heap :=
  Heap.ofArrays [nanRing]

/-- A heap with one array of four points, the ring `(+0,0)`, `(1,0)`,
`(1,1)`, `(-0,0)`. -/
def zeroBase : Heap :=
  Heap.ofArrays [[[Float64.zero, Float64.zero], [Float64.one, Float64.zero],
    [Float64.one, Float64.one], [Float64.negZero, Float64.zero]]]

/-- Three rows with longitude and latitude in the columns 0 and 1; the
second row has one cell only, which does not parse. -/
def rowsWithShortSecond : List (List String) :=
  [["1.0", "2.0"], ["x"], ["5.0", "5.0"]]

/-! ## Indexing -/

theorem index_cons_zero {α : Type} (x : α) (xs : List α) : index (x :: xs) 0 = .ok x := by
  simp [index]

theorem index_cons_one {α : Type} (x y : α) (xs : List α) :
    index (x :: y :: xs) 1 = .ok y := by
  simp [index]

theorem index_nil_zero {α : Type} :
    index ([] : List α) 0 = .error (.indexOutOfRange 0 0) := by
  simp [index]

theorem index_singleton_one {α : Type} (x : α) :
    index [x] 1 = .error (.indexOutOfRange 1 1) := by
  simp [index]

theorem index_last {α : Type} (xs : List α) (last : α) (h : xs.getLast? = some last) :
    index xs ((xs.length : Int) - 1) = .ok last := by
  have hne : xs ≠ [] := by
    intro h0; simp [h0] at h
  have hpos : 0 < xs.length := List.length_pos.mpr hne
  have h1 : ¬ ((xs.length : Int) - 1 < 0) := by omega
  have h2 : ((xs.length : Int) - 1).toNat = xs.length - 1 := by omega
  rw [List.getLast?_eq_getElem?] at h
  simp [index, h1, h2, h]

theorem index_of_get? {α : Type} (xs : List α) (n : Nat) (x : α) (h : xs.get? n = some x) :
    index xs (n : Int) = .ok x := by
  have h1 : ¬ ((n : Int) < 0) := by omega
  simp only [index, h1, if_false, Int.toNat_ofNat, h]

theorem head?_of_length {α : Type} (xs : List α) (h : 0 < xs.length) :
    ∃ first, xs.head? = some first := by
  cases xs with
  | nil => simp at h
  | cons a l => exact ⟨a, rfl⟩

theorem getLast?_of_length {α : Type} (xs : List α) (h : 0 < xs.length) :
    ∃ last, xs.getLast? = some last := by
  cases hl : xs.getLast? with
  | none => simp at hl; subst hl; simp at h
  | some l => exact ⟨l, rfl⟩

/-! ## One iteration of the loop of `ParsePolygon` -/

/-- On a ring of at least three pairs, an iteration of the loop appends the
ring as `closeRing` gives it, and goes on. -/
theorem loop_step (line : LineString) (rest : List LineString) (polygon : Polygon)
    (hlen : 3 ≤ line.length) (hp : ∀ p ∈ line, p.length = 2) :
    ParsePolygon.loop (line :: rest) polygon
      = ParsePolygon.loop rest (polygon ++ [closeRing line]) := by
  obtain ⟨first, hfirst⟩ := head?_of_length line (by omega)
  obtain ⟨last, hlast⟩ := getLast?_of_length line (by omega)
  have hf2 := hp first (List.mem_of_mem_head? hfirst)
  have hl2 := hp last (List.mem_of_mem_getLast? hlast)
  obtain ⟨f0, f1, rfl⟩ : ∃ f0 f1, first = [f0, f1] := by
    match first, hf2 with
    | [a, b], _ => exact ⟨a, b, rfl⟩
  obtain ⟨l0, l1, rfl⟩ : ∃ l0 l1, last = [l0, l1] := by
    match last, hl2 with
    | [a, b], _ => exact ⟨a, b, rfl⟩
  have hi0 : index line 0 = .ok [f0, f1] := by
    cases line with
    | nil => simp at hlen
    | cons a l => simp at hfirst; subst hfirst; exact index_cons_zero _ _
  have hil := index_last line _ hlast
  have hnlt : ¬ line.length < 3 := by omega
  rw [ParsePolygon.loop]
  simp only [hnlt, if_false, hil, hi0, index_cons_zero, index_cons_one, closeRing, hfirst,
    hlast, pairEq]
  by_cases h0 : l0.eq f0 = true <;> by_cases h1 : l1.eq f1 = true <;> simp [h0, h1]

/-- A ring that is too short ends the loop with the error and the empty
polygon. -/
theorem loop_short_head (line : LineString) (rest : List LineString) (polygon : Polygon)
    (hlen : line.length < 3) :
    ParsePolygon.loop (line :: rest) polygon
      = .ok ([], some (.new "Coordinates format is invalid for polygon")) := by
  rw [ParsePolygon.loop]
  simp [hlen]

/-- On rings of at least three pairs the loop returns the closed rings. -/
theorem loop_valid (lines : List LineString) (polygon : Polygon)
    (hlen : ∀ line ∈ lines, 3 ≤ line.length) (hp : AllPairs lines) :
    ParsePolygon.loop lines polygon = .ok (polygon ++ lines.map closeRing, none) := by
  induction lines generalizing polygon with
  | nil => simp [ParsePolygon.loop]
  | cons line rest ih =>
    rw [loop_step line rest polygon (hlen line (List.mem_cons_self _ _))
      (hp line (List.mem_cons_self _ _))]
    rw [ih _ (fun l hl => hlen l (List.mem_cons_of_mem _ hl))
      (fun l hl => hp l (List.mem_cons_of_mem _ hl))]
    simp

/-- On rings of pairs one of which is too short, the loop returns the error
and the empty polygon. -/
theorem loop_short (lines : List LineString) (polygon : Polygon) (hp : AllPairs lines)
    (hshort : ∃ line ∈ lines, line.length < 3) :
    ParsePolygon.loop lines polygon
      = .ok ([], some (.new "Coordinates format is invalid for polygon")) := by
  induction lines generalizing polygon with
  | nil => obtain ⟨l, hl, _⟩ := hshort; simp at hl
  | cons line rest ih =>
    by_cases h : line.length < 3
    · exact loop_short_head line rest polygon h
    · rw [loop_step line rest polygon (by omega) (hp line (List.mem_cons_self _ _))]
      apply ih _ (fun l hl => hp l (List.mem_cons_of_mem _ hl))
      obtain ⟨l, hl, hl3⟩ := hshort
      rcases List.mem_cons.mp hl with rfl | hl
      · exact absurd hl3 h
      · exact ⟨l, hl, hl3⟩

/-- The call on at most two rings of at least three pairs each. -/
theorem ParsePolygon_valid (lines : List LineString) (hn : lines.length ≤ 2)
    (hlen : ∀ line ∈ lines, 3 ≤ line.length) (hp : AllPairs lines) :
    ParsePolygon lines = .ok (lines.map closeRing, none) := by
  have h : ¬ lines.length > 2 := by omega
  simp [ParsePolygon, h, loop_valid lines [] hlen hp]

/-! ## Properties of `closeRing` -/

theorem closeRing_extends (line : LineString) : line <+: closeRing line := by
  unfold closeRing
  split
  · split
    · exact List.prefix_refl _
    · exact List.prefix_append _ _
  · exact List.prefix_refl _

theorem closeRing_length_le (line : LineString) :
    (closeRing line).length ≤ line.length + 1 := by
  unfold closeRing
  split
  · split <;> simp
  · simp

theorem closeRing_of_open (line : LineString) (first last : List Float64)
    (hfirst : line.head? = some first) (hlast : line.getLast? = some last)
    (he : pairEq last first = false) : closeRing line = line ++ [first] := by
  simp [closeRing, hfirst, hlast, he]

theorem closeRing_of_closed (line : LineString) (first last : List Float64)
    (hfirst : line.head? = some first) (hlast : line.getLast? = some last)
    (he : pairEq last first = true) : closeRing line = line := by
  simp [closeRing, hfirst, hlast, he]

/-! ## The loop of `ParsePolygon` on arbitrary rings -/

theorem pairEq_true_shape (p q : List Float64) (h : pairEq p q = true) :
    ∃ a b pt c d qt, p = a :: b :: pt ∧ q = c :: d :: qt ∧ a.eq c = true ∧ b.eq d = true := by
  match p, q with
  | [], _ => simp [pairEq] at h
  | [_], _ => simp [pairEq] at h
  | _ :: _ :: _, [] => simp [pairEq] at h
  | _ :: _ :: _, [_] => simp [pairEq] at h
  | a :: b :: pt, c :: d :: qt =>
    simp only [pairEq, Bool.and_eq_true] at h
    exact ⟨a, b, pt, c, d, qt, rfl, rfl, h.1, h.2⟩

/-- On a ring of at least three points whose last point compares equal to
the first one, an iteration of the loop appends the ring unchanged. -/
theorem loop_step_closed (line : LineString) (rest : List LineString) (polygon : Polygon)
    (first last : List Float64) (hlen : 3 ≤ line.length)
    (hfirst : line.head? = some first) (hlast : line.getLast? = some last)
    (he : pairEq last first = true) :
    ParsePolygon.loop (line :: rest) polygon = ParsePolygon.loop rest (polygon ++ [line]) := by
  obtain ⟨l0, l1, lt, f0, f1, ft, rfl, rfl, h0, h1⟩ := pairEq_true_shape last first he
  have hi0 : index line 0 = .ok (f0 :: f1 :: ft) := by
    cases line with
    | nil => simp at hlen
    | cons a l => simp at hfirst; subst hfirst; exact index_cons_zero _ _
  have hil := index_last line _ hlast
  have hnlt : ¬ line.length < 3 := by omega
  rw [ParsePolygon.loop]
  simp only [hnlt, if_false, hil, hi0, index_cons_zero, index_cons_one, h0, h1, if_true]

/-- An iteration of the loop either goes on with the ring as `closeRing`
gives it, or panics, or returns the error and the empty polygon. -/
theorem loop_step_cases (line : LineString) (rest : List LineString) (polygon : Polygon) :
    (3 ≤ line.length ∧ ParsePolygon.loop (line :: rest) polygon
        = ParsePolygon.loop rest (polygon ++ [closeRing line])) ∨
    (∃ p, ParsePolygon.loop (line :: rest) polygon = .error p) ∨
    (∃ e, ParsePolygon.loop (line :: rest) polygon = .ok ([], some e)) := by
  by_cases hlen : line.length < 3
  · exact Or.inr (Or.inr ⟨_, loop_short_head line rest polygon hlen⟩)
  obtain ⟨first, hfirst⟩ := head?_of_length line (by omega)
  obtain ⟨last, hlast⟩ := getLast?_of_length line (by omega)
  have hi0 : index line 0 = .ok first := by
    cases line with
    | nil => simp at hlen
    | cons a l => simp at hfirst; subst hfirst; exact index_cons_zero _ _
  have hil := index_last line _ hlast
  cases last with
  | nil =>
    refine Or.inr (Or.inl ⟨.indexOutOfRange 0 0, ?_⟩)
    rw [ParsePolygon.loop]
    simp only [hlen, if_false, hil, index_nil_zero]
  | cons l0 lt =>
  cases first with
  | nil =>
    refine Or.inr (Or.inl ⟨.indexOutOfRange 0 0, ?_⟩)
    rw [ParsePolygon.loop]
    simp only [hlen, if_false, hil, hi0, index_cons_zero, index_nil_zero]
  | cons f0 ft =>
  by_cases h0 : l0.eq f0 = true
  · cases lt with
    | nil =>
      refine Or.inr (Or.inl ⟨.indexOutOfRange 1 1, ?_⟩)
      rw [ParsePolygon.loop]
      simp only [hlen, if_false, hil, hi0, index_cons_zero, index_cons_one,
        index_singleton_one, h0, if_true]
    | cons l1 lt2 =>
    cases ft with
    | nil =>
      refine Or.inr (Or.inl ⟨.indexOutOfRange 1 1, ?_⟩)
      rw [ParsePolygon.loop]
      simp only [hlen, if_false, hil, hi0, index_cons_zero, index_cons_one,
        index_singleton_one, h0, if_true]
    | cons f1 ft2 =>
    refine Or.inl ⟨by omega, ?_⟩
    rw [ParsePolygon.loop]
    simp only [hlen, if_false, hil, hi0, index_cons_zero, index_cons_one, h0, if_true]
    by_cases h1 : l1.eq f1 = true <;> simp [closeRing, hfirst, hlast, pairEq, h0, h1]
  · refine Or.inl ⟨by omega, ?_⟩
    have he : pairEq (l0 :: lt) (f0 :: ft) = false := by
      cases lt with
      | nil => simp [pairEq]
      | cons l1 lt2 =>
      cases ft with
      | nil => simp [pairEq]
      | cons f1 ft2 => simp [pairEq, h0]
    rw [ParsePolygon.loop]
    simp only [hlen, if_false, hil, hi0, index_cons_zero, h0]
    simp [closeRing, hfirst, hlast, he]

/-- When the loop returns without an error, every ring had at least three
points and the polygon holds the rings as `closeRing` gives them. -/
theorem loop_ok_inv (lines : List LineString) (polygon result : Polygon)
    (h : ParsePolygon.loop lines polygon = .ok (result, none)) :
    result = polygon ++ lines.map closeRing ∧ ∀ line ∈ lines, 3 ≤ line.length := by
  induction lines generalizing polygon with
  | nil =>
    simp [ParsePolygon.loop] at h
    simp [h]
  | cons line rest ih =>
    rcases loop_step_cases line rest polygon with ⟨hlen, hstep⟩ | ⟨p, hp⟩ | ⟨e, he⟩
    · rw [hstep] at h
      obtain ⟨h1, h2⟩ := ih _ h
      refine ⟨by simp [h1], ?_⟩
      intro l hl
      rcases List.mem_cons.mp hl with rfl | hl
      · exact hlen
      · exact h2 l hl
    · rw [hp] at h; cases h
    · rw [he] at h; cases h

/-- On rings of at least three points that are all closed for the
comparison of the loop, the loop returns the rings unchanged. -/
theorem loop_closed (lines : List LineString) (polygon : Polygon)
    (h : ∀ line ∈ lines, 3 ≤ line.length ∧ ∃ first last, line.head? = some first ∧
      line.getLast? = some last ∧ pairEq last first = true) :
    ParsePolygon.loop lines polygon = .ok (polygon ++ lines, none) := by
  induction lines generalizing polygon with
  | nil => simp [ParsePolygon.loop]
  | cons line rest ih =>
    obtain ⟨hlen, first, last, hfirst, hlast, he⟩ := h line (List.mem_cons_self _ _)
    rw [loop_step_closed line rest polygon first last hlen hfirst hlast he]
    rw [ih _ (fun l hl => h l (List.mem_cons_of_mem _ hl))]
    simp

/-- The ring that `closeRing` gives is closed for the comparison of the loop
as soon as the first point of the ring compares equal to itself. -/
theorem closeRing_pairEq (line : LineString) (first : List Float64) (hlen : 3 ≤ line.length)
    (hfirst : line.head? = some first) (hrefl : pairEq first first = true) :
    3 ≤ (closeRing line).length ∧ ∃ f l, (closeRing line).head? = some f ∧
      (closeRing line).getLast? = some l ∧ pairEq l f = true := by
  obtain ⟨last, hlast⟩ := getLast?_of_length line (by omega)
  by_cases he : pairEq last first = true
  · rw [closeRing_of_closed line first last hfirst hlast he]
    exact ⟨hlen, first, last, hfirst, hlast, he⟩
  · rw [closeRing_of_open line first last hfirst hlast (by simpa using he)]
    refine ⟨by simp; omega, first, first, ?_, by simp, hrefl⟩
    cases line with
    | nil => simp at hlen
    | cons a l => simp at hfirst; subst hfirst; simp

/-! ## Slices: reading and appending -/

theorem Heap.read_length (h : Heap) (s : Slice) : (h.read s).length = s.len := by
  simp [Heap.read]

theorem Slice.Separate.symm {s t : Slice} (h : s.Separate t) : t.Separate s := by
  unfold Slice.Separate at h ⊢
  rcases h with h | h | h
  · exact Or.inl (fun e => h e.symm)
  · exact Or.inr (Or.inr h)
  · exact Or.inr (Or.inl h)

/-- Go `append` on a valid slice: the result shows the points of the slice
followed by the new point, and a valid slice that shares no storage with the
one appended to is still valid, shows the same points and shares no storage
with the result. -/
theorem Heap.append_spec (growth : Nat → Nat) (h : Heap) (s : Slice) (x : List Float64)
    (hs : h.Valid s) :
    (h.append growth s x).1.read (h.append growth s x).2 = h.read s ++ [x] ∧
    (h.append growth s x).1.Valid (h.append growth s x).2 ∧
    ∀ t, h.Valid t → s.Separate t →
      (h.append growth s x).1.Valid t ∧ (h.append growth s x).1.read t = h.read t ∧
      (h.append growth s x).2.Separate t := by
  obtain ⟨hs1, hs2, hs3⟩ := hs
  by_cases hcap : s.len < s.cap
  · simp only [Heap.append, hcap, if_true]
    refine ⟨?_, ⟨hs1, by simp only; omega, hs3⟩, ?_⟩
    · simp only [Heap.read, List.range_succ, List.map_append, List.map_cons, List.map_nil,
        and_self, if_true]
      congr 1
      apply List.map_congr_left
      intro i hi
      have hi' : i < s.len := List.mem_range.mp hi
      have hne : ¬ (s.offset + i = s.offset + s.len) := by omega
      simp [hne]
    · intro t ht hsep
      obtain ⟨ht1, ht2, ht3⟩ := ht
      refine ⟨⟨ht1, ht2, ht3⟩, ?_, hsep⟩
      simp only [Heap.read]
      apply List.map_congr_left
      intro i hi
      have hi' : i < t.len := List.mem_range.mp hi
      have hne : ¬ (t.array = s.array ∧ t.offset + i = s.offset + s.len) := by
        rintro ⟨ha, hi2⟩
        rcases hsep with h1 | h1 | h1
        · exact h1 ha.symm
        · omega
        · omega
      simp [hne]
  · simp only [Heap.append, hcap, if_false]
    refine ⟨?_, ⟨by simp only; omega, by simp only; omega, by simp⟩, ?_⟩
    · simp only [Heap.read, List.range_succ, List.map_append, List.map_cons, List.map_nil,
        if_true, Nat.zero_add, Nat.lt_irrefl, if_false]
      congr 1
      apply List.map_congr_left
      intro i hi
      have hi' : i < s.len := List.mem_range.mp hi
      simp [hi']
    · intro t ht hsep
      obtain ⟨ht1, ht2, ht3⟩ := ht
      have hne : t.array ≠ h.count := by omega
      refine ⟨⟨by simp only; omega, ht2, by simp only [hne, if_false]; exact ht3⟩, ?_,
        Or.inl (fun e => hne e.symm)⟩
      simp only [Heap.read, hne, if_false]

/-! ## One iteration of the loop of `ParsePolygon` on slices -/

/-- An iteration of the loop on slices and the iteration of `ParsePolygon.loop`
on the points that the slice shows go the same way: both panic, or both return
the error, or both keep the ring, or both close it, the loop on slices by
Go `append`. -/
theorem runLoop_step (growth : Nat → Nat) (h : Heap) (line : Slice) (rest : List Slice)
    (polygon : List Slice) (rest1 : List LineString) (acc : Polygon) :
    (∃ p, ParsePolygon.runLoop growth h (line :: rest) polygon = .error p ∧
      ParsePolygon.loop (h.read line :: rest1) acc = .error p) ∨
    (∃ e, ParsePolygon.runLoop growth h (line :: rest) polygon = .ok (h, [], some e) ∧
      ParsePolygon.loop (h.read line :: rest1) acc = .ok ([], some e)) ∨
    (ParsePolygon.runLoop growth h (line :: rest) polygon
        = ParsePolygon.runLoop growth h rest (polygon ++ [line]) ∧
      ParsePolygon.loop (h.read line :: rest1) acc
        = ParsePolygon.loop rest1 (acc ++ [h.read line])) ∨
    (∃ first, (h.read line).head? = some first ∧
      ParsePolygon.runLoop growth h (line :: rest) polygon
        = ParsePolygon.runLoop growth (h.append growth line first).1 rest
            (polygon ++ [(h.append growth line first).2]) ∧
      ParsePolygon.loop (h.read line :: rest1) acc
        = ParsePolygon.loop rest1 (acc ++ [h.read line ++ [first]])) := by
  have hv : (h.read line).length = line.len := Heap.read_length h line
  generalize hve : h.read line = v at hv ⊢
  by_cases hlen : line.len < 3
  · refine Or.inr (Or.inl ⟨_, ?_, loop_short_head v rest1 acc (by omega)⟩)
    rw [ParsePolygon.runLoop]
    simp only [hlen, if_true]
  have hlen1 : ¬ v.length < 3 := by omega
  obtain ⟨first, hfirst⟩ := head?_of_length v (by omega)
  obtain ⟨last, hlast⟩ := getLast?_of_length v (by omega)
  have hi0 : index v 0 = .ok first := by
    cases v with
    | nil => simp at hlen1
    | cons a l => simp at hfirst; subst hfirst; exact index_cons_zero _ _
  have hil := index_last v _ hlast
  have hil1 : index v ((line.len : Int) - 1) = .ok last := by rw [← hv]; exact hil
  cases last with
  | nil =>
    refine Or.inl ⟨.indexOutOfRange 0 0, ?_, ?_⟩
    · rw [ParsePolygon.runLoop]
      simp only [hve, hlen, if_false, hil1, index_nil_zero]
    · rw [ParsePolygon.loop]
      simp only [hlen1, if_false, hil, index_nil_zero]
  | cons l0 lt =>
  cases first with
  | nil =>
    refine Or.inl ⟨.indexOutOfRange 0 0, ?_, ?_⟩
    · rw [ParsePolygon.runLoop]
      simp only [hve, hlen, if_false, hil1, hi0, index_cons_zero, index_nil_zero]
    · rw [ParsePolygon.loop]
      simp only [hlen1, if_false, hil, hi0, index_cons_zero, index_nil_zero]
  | cons f0 ft =>
  by_cases h0 : l0.eq f0 = true
  · cases lt with
    | nil =>
      refine Or.inl ⟨.indexOutOfRange 1 1, ?_, ?_⟩
      · rw [ParsePolygon.runLoop]
        simp only [hve, hlen, if_false, hil1, hi0, index_cons_zero, index_cons_one,
          index_singleton_one, h0, if_true]
      · rw [ParsePolygon.loop]
        simp only [hlen1, if_false, hil, hi0, index_cons_zero, index_cons_one,
          index_singleton_one, h0, if_true]
    | cons l1 lt2 =>
    cases ft with
    | nil =>
      refine Or.inl ⟨.indexOutOfRange 1 1, ?_, ?_⟩
      · rw [ParsePolygon.runLoop]
        simp only [hve, hlen, if_false, hil1, hi0, index_cons_zero, index_cons_one,
          index_singleton_one, h0, if_true]
      · rw [ParsePolygon.loop]
        simp only [hlen1, if_false, hil, hi0, index_cons_zero, index_cons_one,
          index_singleton_one, h0, if_true]
    | cons f1 ft2 =>
    by_cases h1 : l1.eq f1 = true
    · refine Or.inr (Or.inr (Or.inl ⟨?_, ?_⟩))
      · rw [ParsePolygon.runLoop]
        simp only [hve, hlen, if_false, hil1, hi0, index_cons_zero, index_cons_one, h0, h1, if_true]
      · rw [ParsePolygon.loop]
        simp only [hlen1, if_false, hil, hi0, index_cons_zero, index_cons_one, h0, h1, if_true]
    · refine Or.inr (Or.inr (Or.inr ⟨_, hfirst, ?_, ?_⟩))
      · rw [ParsePolygon.runLoop]
        simp only [hve, hlen, if_false, hil1, hi0, index_cons_zero, index_cons_one, h0, h1,
          if_true]
        simp
      · rw [ParsePolygon.loop]
        simp only [hlen1, if_false, hil, hi0, index_cons_zero, index_cons_one, h0, h1, if_true]
        simp
  · refine Or.inr (Or.inr (Or.inr ⟨_, hfirst, ?_, ?_⟩))
    · rw [ParsePolygon.runLoop]
      simp only [hve, hlen, if_false, hil1, hi0, index_cons_zero, h0]
      simp
    · rw [ParsePolygon.loop]
      simp only [hlen1, if_false, hil, hi0, index_cons_zero, h0]
      simp


/-! ## The loop on slices and the loop on values -/

theorem forall₂_of_map_eq {α β γ : Type} (f : α → γ) (g : β → γ) (R : α → β → Prop) :
    ∀ (l1 : List α) (l2 : List β), l1.map f = l2.map g →
      (∀ a ∈ l1, ∀ b, f a = g b → R a b) → List.Forall₂ R l1 l2
  | [], [], _, _ => List.Forall₂.nil
  | [], _ :: _, h, _ => by simp at h
  | _ :: _, [], h, _ => by simp at h
  | a :: l1, b :: l2, h, hR => by
    simp only [List.map_cons, List.cons.injEq] at h
    exact List.Forall₂.cons (hR a (List.mem_cons_self _ _) b h.1)
      (forall₂_of_map_eq f g R l1 l2 h.2 (fun x hx => hR x (List.mem_cons_of_mem _ hx)))

theorem forall_right_of_forall₂ {α β : Type} {R : α → β → Prop} {P : β → Prop}
    {l1 : List α} {l2 : List β} (h : List.Forall₂ R l1 l2) (hP : ∀ a b, R a b → P b) :
    ∀ b ∈ l2, P b := by
  induction h with
  | nil => intro b hb; simp at hb
  | cons hab _ ih =>
    intro b hb
    rcases List.mem_cons.mp hb with rfl | hb
    · exact hP _ _ hab
    · exact ih b hb

/-- On valid rings that share no storage, neither with one another nor with
the rings already in the polygon, the loop on slices does what
`ParsePolygon.loop` does on the points that the rings show: the same panic,
the same error, or a polygon whose rings show the rings of the polygon of
`ParsePolygon.loop`. -/
theorem runLoop_refines (growth : Nat → Nat) (lines : List Slice) :
    ∀ (h : Heap) (polygon : List Slice),
      (∀ l ∈ lines, h.Valid l) → lines.Pairwise Slice.Separate →
      (∀ p ∈ polygon, h.Valid p ∧ ∀ l ∈ lines, l.Separate p) →
      (∀ p, ParsePolygon.loop (lines.map h.read) (polygon.map h.read) = .error p →
        ParsePolygon.runLoop growth h lines polygon = .error p) ∧
      (∀ poly e, ParsePolygon.loop (lines.map h.read) (polygon.map h.read)
          = .ok (poly, some e) →
        ∃ h1, ParsePolygon.runLoop growth h lines polygon = .ok (h1, [], some e)) ∧
      (∀ poly, ParsePolygon.loop (lines.map h.read) (polygon.map h.read) = .ok (poly, none) →
        ∃ h1 ps, ParsePolygon.runLoop growth h lines polygon = .ok (h1, ps, none) ∧
          ps.map h1.read = poly) := by
  induction lines with
  | nil =>
    intro h polygon _ _ _
    refine ⟨?_, ?_, ?_⟩
    · intro p hp
      simp [ParsePolygon.loop] at hp
    · intro poly e hp
      simp [ParsePolygon.loop] at hp
    · intro poly hp
      simp only [List.map_nil, ParsePolygon.loop, Except.ok.injEq, Prod.mk.injEq, and_true] at hp
      exact ⟨h, polygon, by simp [ParsePolygon.runLoop], hp⟩
  | cons line rest ih =>
    intro h polygon hvalid hsep hout
    have hline : h.Valid line := hvalid line (List.mem_cons_self _ _)
    have hrestv : ∀ l ∈ rest, h.Valid l := fun l hl => hvalid l (List.mem_cons_of_mem _ hl)
    have hsep1 : ∀ l ∈ rest, line.Separate l := (List.pairwise_cons.mp hsep).1
    have hsep2 : rest.Pairwise Slice.Separate := (List.pairwise_cons.mp hsep).2
    simp only [List.map_cons]
    rcases runLoop_step growth h line rest polygon (rest.map h.read) (polygon.map h.read) with
      ⟨p, hrun, hloop⟩ | ⟨e, hrun, hloop⟩ | ⟨hrun, hloop⟩ | ⟨first, hfirst, hrun, hloop⟩
    · rw [hrun, hloop]
      refine ⟨?_, ?_, ?_⟩
      · intro q hq
        cases hq
        rfl
      · intro poly e hq
        cases hq
      · intro poly hq
        cases hq
    · rw [hrun, hloop]
      refine ⟨?_, ?_, ?_⟩
      · intro q hq
        cases hq
      · intro poly e1 hq
        simp only [Except.ok.injEq, Prod.mk.injEq, Option.some.injEq] at hq
        exact ⟨h, by rw [hq.2]⟩
      · intro poly hq
        simp at hq
    · rw [hrun, hloop]
      have hmap : (polygon ++ [line]).map h.read = polygon.map h.read ++ [h.read line] := by
        simp
      rw [← hmap]
      apply ih h (polygon ++ [line]) hrestv hsep2
      intro p hp
      rcases List.mem_append.mp hp with hp | hp
      · exact ⟨(hout p hp).1, fun l hl => (hout p hp).2 l (List.mem_cons_of_mem _ hl)⟩
      · simp only [List.mem_singleton] at hp
        subst hp
        exact ⟨hline, fun l hl => (hsep1 l hl).symm⟩
    · obtain ⟨hread, hvalid1, hkeep⟩ := Heap.append_spec growth h line first hline
      rw [hrun, hloop]
      have hrest : rest.map (h.append growth line first).1.read = rest.map h.read := by
        apply List.map_congr_left
        intro l hl
        exact (hkeep l (hrestv l hl) (hsep1 l hl)).2.1
      have hpoly : (polygon ++ [(h.append growth line first).2]).map
          (h.append growth line first).1.read
            = polygon.map h.read ++ [h.read line ++ [first]] := by
        rw [List.map_append, List.map_singleton, hread]
        congr 1
        apply List.map_congr_left
        intro p hp
        exact (hkeep p (hout p hp).1 ((hout p hp).2 line (List.mem_cons_self _ _))).2.1
      rw [← hrest, ← hpoly]
      apply ih (h.append growth line first).1 (polygon ++ [(h.append growth line first).2])
      · intro l hl
        exact (hkeep l (hrestv l hl) (hsep1 l hl)).1
      · exact hsep2
      · intro p hp
        rcases List.mem_append.mp hp with hp | hp
        · exact ⟨(hkeep p (hout p hp).1 ((hout p hp).2 line (List.mem_cons_self _ _))).1,
            fun l hl => (hout p hp).2 l (List.mem_cons_of_mem _ hl)⟩
        · simp only [List.mem_singleton] at hp
          subst hp
          exact ⟨hvalid1, fun l hl => (hkeep l (hrestv l hl) (hsep1 l hl)).2.2.symm⟩

/-- On valid rings that share no storage `ParsePolygon` on slices does what
`ParsePolygon` does on the points that the rings show; so it does on a single
valid ring, whatever its capacity. -/
theorem run_refines (growth : Nat → Nat) (h : Heap) (lines : List Slice)
    (hvalid : ∀ l ∈ lines, h.Valid l) (hsep : lines.Pairwise Slice.Separate) :
    (∀ p, ParsePolygon (lines.map h.read) = .error p →
      ParsePolygon.run growth h lines = .error p) ∧
    (∀ poly e, ParsePolygon (lines.map h.read) = .ok (poly, some e) →
      ∃ h1, ParsePolygon.run growth h lines = .ok (h1, [], some e)) ∧
    (∀ poly, ParsePolygon (lines.map h.read) = .ok (poly, none) →
      ∃ h1 ps, ParsePolygon.run growth h lines = .ok (h1, ps, none) ∧
        ps.map h1.read = poly) := by
  by_cases hn : lines.length > 2
  · have hn1 : (lines.map h.read).length > 2 := by simpa using hn
    simp only [ParsePolygon, ParsePolygon.run, hn, hn1, if_true]
    refine ⟨?_, ?_, ?_⟩
    · intro p hp
      cases hp
    · intro poly e hp
      simp only [Except.ok.injEq, Prod.mk.injEq, Option.some.injEq] at hp
      exact ⟨h, by rw [hp.2]⟩
    · intro poly hp
      simp at hp
  · have hn1 : ¬ (lines.map h.read).length > 2 := by simpa using hn
    simp only [ParsePolygon, ParsePolygon.run, hn, hn1, if_false]
    have := runLoop_refines growth lines h [] hvalid hsep (by intro p hp; simp at hp)
    simpa using this

/-- When `ParsePolygon` on slices returns a polygon for valid rings that
share no storage, `ParsePolygon` returns, for the points that the rings show,
the polygon of the points that the returned rings show. -/
theorem run_ok_values (growth : Nat → Nat) (h h1 : Heap) (lines ps : List Slice)
    (hvalid : ∀ l ∈ lines, h.Valid l) (hsep : lines.Pairwise Slice.Separate)
    (hrun : ParsePolygon.run growth h lines = .ok (h1, ps, none)) :
    ParsePolygon (lines.map h.read) = .ok (ps.map h1.read, none) := by
  obtain ⟨herr, hsome, hnone⟩ := run_refines growth h lines hvalid hsep
  cases hres : ParsePolygon (lines.map h.read) with
  | error p =>
    rw [herr p hres] at hrun
    cases hrun
  | ok r =>
    obtain ⟨poly, err⟩ := r
    cases err with
    | some e =>
      obtain ⟨h2, h2run⟩ := hsome poly e hres
      rw [h2run] at hrun
      simp at hrun
    | none =>
      obtain ⟨h2, ps2, h2run, hvals⟩ := hnone poly hres
      rw [h2run] at hrun
      simp only [Except.ok.injEq, Prod.mk.injEq, and_true] at hrun
      rw [← hvals, hrun.1, hrun.2]

/-- On rings of at least three points that all show a ring closed for the
comparison of the loop, the loop on slices returns the rings and writes
nothing. -/
theorem runLoop_closed (growth : Nat → Nat) (h : Heap) (lines polygon : List Slice)
    (hclosed : ∀ l ∈ lines, 3 ≤ l.len ∧ ∃ first last, (h.read l).head? = some first ∧
      (h.read l).getLast? = some last ∧ pairEq last first = true) :
    ParsePolygon.runLoop growth h lines polygon = .ok (h, polygon ++ lines, none) := by
  induction lines generalizing polygon with
  | nil => simp [ParsePolygon.runLoop]
  | cons line rest ih =>
    obtain ⟨hlen, first, last, hfirst, hlast, he⟩ := hclosed line (List.mem_cons_self _ _)
    have hlen1 : 3 ≤ (h.read line).length := by rw [Heap.read_length]; exact hlen
    have hlist : ParsePolygon.loop [h.read line] [] = .ok ([h.read line], none) := by
      rw [loop_step_closed (h.read line) [] [] first last hlen1 hfirst hlast he]
      simp [ParsePolygon.loop]
    rcases runLoop_step growth h line rest polygon [] [] with
      ⟨p, _, hloop⟩ | ⟨e, _, hloop⟩ | ⟨hrun, _⟩ | ⟨f, _, _, hloop⟩
    · rw [hlist] at hloop
      cases hloop
    · rw [hlist] at hloop
      simp at hloop
    · rw [hrun, ih _ (fun l hl => hclosed l (List.mem_cons_of_mem _ hl))]
      simp
    · rw [hlist] at hloop
      simp [ParsePolygon.loop] at hloop

/-! ## Claims on `ParsePolygon` -/

/-- C1, as stated, fails. The closed ring `base[0:5]` passed together with
the open ring `base[1:4]` of the same array comes back open: closing the
second ring, `append` writes its first pair `(1,0)` into the slot of the last
pair of the first ring. The ring whose first pair holds a NaN comes back
with a copy of that pair appended, which does not compare equal to the first
pair. And the ring from `(+0,0)` to `(-0,0)` comes back as it is, its last
pair comparing equal to its first pair without being the same pair. -/
theorem ParsePolygon_ring_left_open :
    (∃ h1 polygon, ParsePolygon.run noGrowth closedBase [⟨0, 0, 5, 5⟩, ⟨0, 1, 3, 4⟩]
        = .ok (h1, polygon, none) ∧
      h1.readAll polygon
        = [[[Float64.zero, Float64.zero], [Float64.one, Float64.zero],
            [Float64.one, Float64.one], [Float64.two, Float64.two],
            [Float64.one, Float64.zero]],
          [[Float64.one, Float64.zero], [Float64.one, Float64.one],
            [Float64.two, Float64.two], [Float64.one, Float64.zero]]] ∧
      pairEq [Float64.one, Float64.zero] [Float64.zero, Float64.zero] = false) ∧
    (∃ h1 polygon, ParsePolygon.run noGrowth nanBase [⟨0, 0, 3, 3⟩] = .ok (h1, polygon, none) ∧
      h1.readAll polygon = [nanRing ++ [[Float64.nan, Float64.zero]]] ∧
      pairEq [Float64.nan, Float64.zero] [Float64.nan, Float64.zero] = false) ∧
    (∃ h1 polygon, ParsePolygon.run noGrowth zeroBase [⟨0, 0, 4, 4⟩] = .ok (h1, polygon, none) ∧
      h1.readAll polygon
        = [[[Float64.zero, Float64.zero], [Float64.one, Float64.zero],
            [Float64.one, Float64.one], [Float64.negZero, Float64.zero]]] ∧
      ([Float64.negZero, Float64.zero] : List Float64) ≠ [Float64.zero, Float64.zero]) :=
  ⟨⟨_, _, rfl, by decide, by decide⟩, ⟨_, _, rfl, by decide, by decide⟩,
    ⟨_, _, rfl, by decide, by decide⟩⟩

/-- C1, amended. A call of `ParsePolygon` with one or two rings of at least
three coordinate pairs each, the rings sharing no storage and the first pair
of none holding a NaN, succeeds; the polygon has as many rings as were
supplied, in the same order (every returned ring starts with the pairs of
the ring supplied at its place and has at most one pair more), and every
returned ring is closed: its last pair compares equal to its first pair. -/
theorem ParsePolygon_closed_rings (growth : Nat → Nat) (h : Heap) (lines : List Slice)
    (hn : 1 ≤ lines.length ∧ lines.length ≤ 2)
    (hvalid : ∀ l ∈ lines, h.Valid l) (hsep : lines.Pairwise Slice.Separate)
    (hlen : ∀ l ∈ lines, 3 ≤ l.len) (hp : AllPairs (lines.map h.read))
    (hnan : ∀ l ∈ lines, ∀ first, (h.read l).head? = some first →
      pairEq first first = true) :
    ∃ h1 polygon, ParsePolygon.run growth h lines = .ok (h1, polygon, none) ∧
      polygon.length = lines.length ∧
      List.Forall₂ (fun line ring =>
        h.read line <+: h1.read ring ∧ (h1.read ring).length ≤ line.len + 1 ∧
          RingClosed (h1.read ring)) lines polygon := by
  have hlen1 : ∀ v ∈ lines.map h.read, 3 ≤ v.length := by
    intro v hv
    obtain ⟨l, hl, rfl⟩ := List.mem_map.mp hv
    rw [Heap.read_length]
    exact hlen l hl
  have hlist := ParsePolygon_valid (lines.map h.read) (by simpa using hn.2) hlen1 hp
  obtain ⟨h1, ps, hrun, hvals⟩ := (run_refines growth h lines hvalid hsep).2.2 _ hlist
  refine ⟨h1, ps, hrun, ?_, ?_⟩
  · have := congrArg List.length hvals
    simpa using this
  · apply forall₂_of_map_eq (fun l => closeRing (h.read l)) h1.read _ lines ps
      (by rw [hvals, List.map_map]; rfl)
    intro line hline ring heq
    have hl3 : 3 ≤ (h.read line).length := by rw [Heap.read_length]; exact hlen line hline
    obtain ⟨first, hfirst⟩ := head?_of_length (h.read line) (by omega)
    obtain ⟨_, f, l, hf, hl, he⟩ := closeRing_pairEq (h.read line) first hl3 hfirst
      (hnan line hline first hfirst)
    rw [← heq]
    refine ⟨closeRing_extends _, ?_, f, l, hf, hl, he⟩
    have := closeRing_length_le (h.read line)
    rw [Heap.read_length] at this
    exact this

/-- C1 amended, on the open ring and the closed ring, each in an array of
its own: the open ring comes back closed by a fourth pair, the closed ring as
it is. -/
theorem ParsePolygon_closed_rings_witness :
    (∃ h1 polygon, ParsePolygon.run noGrowth twoRings [⟨0, 0, 3, 3⟩, ⟨1, 0, 4, 4⟩]
        = .ok (h1, polygon, none) ∧
      h1.readAll polygon = [openRing ++ [[Float64.zero, Float64.zero]], closedRing]) ∧
    ∃ h1 polygon, ParsePolygon.run noGrowth twoRings [⟨0, 0, 3, 3⟩, ⟨1, 0, 4, 4⟩]
        = .ok (h1, polygon, none) ∧
      polygon.length = [(⟨0, 0, 3, 3⟩ : Slice), ⟨1, 0, 4, 4⟩].length ∧
      List.Forall₂ (fun line ring =>
        twoRings.read line <+: h1.read ring ∧ (h1.read ring).length ≤ line.len + 1 ∧
          RingClosed (h1.read ring)) [(⟨0, 0, 3, 3⟩ : Slice), ⟨1, 0, 4, 4⟩] polygon :=
  ⟨⟨_, _, rfl, by decide⟩,
    ParsePolygon_closed_rings noGrowth twoRings [⟨0, 0, 3, 3⟩, ⟨1, 0, 4, 4⟩] (by decide)
      (by decide) (by decide) (by decide) (by decide) (by decide)⟩

/-- C2, the code at the failing input. The rings `base[:3]` and `base[:4]`
of one array of four pairs, `(0,0)`, `(1,0)`, `(1,1)`, `(5,5)`, are both
open. Closing the first, `append` has room in the array and writes `(0,0)`
into the slot of `(5,5)`; when the loop comes to the second ring, this ring
shows `(0,0)` as its last pair, passes for closed and is returned with its
four pairs, the last of which is no longer its own: not with five pairs, and
not with its pairs unchanged. -/
theorem ParsePolygon_shared_open_ring :
    openBase.read ⟨0, 0, 4, 4⟩
      = [[Float64.zero, Float64.zero], [Float64.one, Float64.zero],
          [Float64.one, Float64.one], [Float64.five, Float64.five]] ∧
    pairEq [Float64.five, Float64.five] [Float64.zero, Float64.zero] = false ∧
    ∃ h1 polygon, ParsePolygon.run noGrowth openBase [⟨0, 0, 3, 4⟩, ⟨0, 0, 4, 4⟩]
        = .ok (h1, polygon, none) ∧
      h1.readAll polygon
        = [[[Float64.zero, Float64.zero], [Float64.one, Float64.zero],
            [Float64.one, Float64.one], [Float64.zero, Float64.zero]],
          [[Float64.zero, Float64.zero], [Float64.one, Float64.zero],
            [Float64.one, Float64.one], [Float64.zero, Float64.zero]]] :=
  ⟨by decide, by decide, _, _, rfl, by decide⟩

/-- C3, as stated, fails. `ParsePolygon` succeeds on the open ring whose
first pair holds a NaN, and applied to the ring it returned it returns
another polygon, with one more pair. And the closed ring `base[0:5]`, passed
together with the open ring `base[1:4]` of the same array, is not returned
unchanged: its last pair is overwritten. -/
theorem ParsePolygon_not_idempotent :
    (∃ h1 polygon, ParsePolygon.run noGrowth nanBase [⟨0, 0, 3, 3⟩] = .ok (h1, polygon, none) ∧
      ∃ h2 polygon2, ParsePolygon.run noGrowth h1 polygon = .ok (h2, polygon2, none) ∧
        h2.readAll polygon2 ≠ h1.readAll polygon) ∧
    (pairEq [Float64.zero, Float64.zero] [Float64.zero, Float64.zero] = true ∧
      ∃ h1 polygon, ParsePolygon.run noGrowth closedBase [⟨0, 0, 5, 5⟩, ⟨0, 1, 3, 4⟩]
          = .ok (h1, polygon, none) ∧
        (h1.readAll polygon).head? ≠ some (closedBase.read ⟨0, 0, 5, 5⟩)) :=
  ⟨⟨_, _, rfl, _, _, rfl, by decide⟩, by decide, _, _, rfl, by decide⟩

/-- C3, amended. In a call of `ParsePolygon` with at most two rings of at
least three coordinate pairs each that share no storage, a ring whose first
and last pairs compare equal is returned unchanged; and for every input of
rings that share no storage on which `ParsePolygon` succeeds and in which the
first pair of every ring compares equal to itself (it holds no NaN),
`ParsePolygon` applied to the rings of the result succeeds and returns the
same polygon. -/
theorem ParsePolygon_idempotent :
    (∀ (growth : Nat → Nat) (h : Heap) (lines : List Slice), lines.length ≤ 2 →
      (∀ l ∈ lines, h.Valid l) → lines.Pairwise Slice.Separate →
      (∀ l ∈ lines, 3 ≤ l.len) → AllPairs (lines.map h.read) →
      ∃ h1 polygon, ParsePolygon.run growth h lines = .ok (h1, polygon, none) ∧
        List.Forall₂ (fun line ring =>
          ∀ first last, (h.read line).head? = some first →
            (h.read line).getLast? = some last →
            pairEq last first = true → h1.read ring = h.read line) lines polygon) ∧
    (∀ (growth : Nat → Nat) (h h1 : Heap) (lines polygon : List Slice),
      (∀ l ∈ lines, h.Valid l) → lines.Pairwise Slice.Separate →
      ParsePolygon.run growth h lines = .ok (h1, polygon, none) →
      (∀ l ∈ lines, ∀ first, (h.read l).head? = some first → pairEq first first = true) →
      ParsePolygon.run growth h1 polygon = .ok (h1, polygon, none)) := by
  constructor
  · intro growth h lines hn hvalid hsep hlen hp
    have hlen1 : ∀ v ∈ lines.map h.read, 3 ≤ v.length := by
      intro v hv
      obtain ⟨l, hl, rfl⟩ := List.mem_map.mp hv
      rw [Heap.read_length]
      exact hlen l hl
    have hlist := ParsePolygon_valid (lines.map h.read) (by simpa using hn) hlen1 hp
    obtain ⟨h1, ps, hrun, hvals⟩ := (run_refines growth h lines hvalid hsep).2.2 _ hlist
    refine ⟨h1, ps, hrun, ?_⟩
    apply forall₂_of_map_eq (fun l => closeRing (h.read l)) h1.read _ lines ps
      (by rw [hvals, List.map_map]; rfl)
    intro line _ ring heq first last hfirst hlast he
    rw [← heq]
    exact closeRing_of_closed _ first last hfirst hlast he
  · intro growth h h1 lines polygon hvalid hsep hrun hnan
    have hlist := run_ok_values growth h h1 lines polygon hvalid hsep hrun
    by_cases hn : lines.length > 2
    · simp [ParsePolygon, hn] at hlist
    · have hn1 : ¬ (lines.map h.read).length > 2 := by simpa using hn
      simp only [ParsePolygon, hn1, if_false] at hlist
      obtain ⟨hres, hlen⟩ := loop_ok_inv (lines.map h.read) [] _ hlist
      simp only [List.nil_append, List.map_map] at hres
      have hlenp : polygon.length = lines.length := by
        have := congrArg List.length hres
        simpa using this
      have hn2 : ¬ polygon.length > 2 := by
        rw [hlenp]
        exact hn
      simp only [ParsePolygon.run, hn2, if_false]
      rw [runLoop_closed growth h1 polygon []]
      · simp
      · have hall := forall₂_of_map_eq (fun l => closeRing (h.read l)) h1.read
          (fun _ ring => 3 ≤ ring.len ∧ ∃ first last, (h1.read ring).head? = some first ∧
            (h1.read ring).getLast? = some last ∧ pairEq last first = true) lines polygon
          (by rw [hres]; rfl)
          (by
            intro line hline ring heq
            have hl3 : 3 ≤ (h.read line).length :=
              hlen _ (List.mem_map.mpr ⟨line, hline, rfl⟩)
            obtain ⟨first, hfirst⟩ := head?_of_length (h.read line) (by omega)
            have hc := closeRing_pairEq (h.read line) first hl3 hfirst
              (hnan line hline first hfirst)
            have heq1 : closeRing (h.read line) = h1.read ring := heq
            rw [heq1, Heap.read_length] at hc
            exact hc)
        exact forall_right_of_forall₂ hall (fun _ _ hr => hr)

/-- C3 amended, on the closed ring alone, which comes back as it is, and on
the open ring and the closed ring, each in an array of its own: the polygon
returned for them is returned again for its own rings. -/
theorem ParsePolygon_idempotent_witness :
    (∃ h1 polygon, ParsePolygon.run noGrowth twoRings [⟨1, 0, 4, 4⟩] = .ok (h1, polygon, none) ∧
      List.Forall₂ (fun line ring =>
        ∀ first last, (twoRings.read line).head? = some first →
          (twoRings.read line).getLast? = some last →
          pairEq last first = true → h1.read ring = twoRings.read line)
        [(⟨1, 0, 4, 4⟩ : Slice)] polygon) ∧
    ∃ h1 polygon, ParsePolygon.run noGrowth twoRings [⟨0, 0, 3, 3⟩, ⟨1, 0, 4, 4⟩]
        = .ok (h1, polygon, none) ∧
      h1.readAll polygon = [openRing ++ [[Float64.zero, Float64.zero]], closedRing] ∧
      ParsePolygon.run noGrowth h1 polygon = .ok (h1, polygon, none) :=
  ⟨ParsePolygon_idempotent.1 noGrowth twoRings [⟨1, 0, 4, 4⟩] (by decide) (by decide)
      (by decide) (by decide) (by decide),
    _, _, rfl, by decide,
    ParsePolygon_idempotent.2 noGrowth twoRings _ [⟨0, 0, 3, 3⟩, ⟨1, 0, 4, 4⟩] _ (by decide)
      (by decide) rfl (by decide)⟩

/-- C4. With more than two rings, whatever their lengths, `ParsePolygon`
returns the error "Polygon parse arguments is too many"; with at most two
rings of coordinate pairs one of which has fewer than three pairs, it
returns the error "Coordinates format is invalid for polygon". In both cases
the returned polygon is empty. -/
theorem ParsePolygon_errors :
    (∀ lines : List LineString, 2 < lines.length →
      ParsePolygon lines = .ok ([], some (.new "Polygon parse arguments is too many"))) ∧
    (∀ lines : List LineString, lines.length ≤ 2 → AllPairs lines →
      (∃ line ∈ lines, line.length < 3) →
      ParsePolygon lines
        = .ok ([], some (.new "Coordinates format is invalid for polygon"))) := by
  constructor
  · intro lines h
    simp [ParsePolygon, h]
  · intro lines hn hp hshort
    have h : ¬ lines.length > 2 := by omega
    simp only [ParsePolygon, h, if_false]
    exact loop_short lines [] hp hshort

/-- C4, on three rings the first of which is too short, and on a valid ring
followed by a ring that is too short. -/
theorem ParsePolygon_errors_witness :
    ParsePolygon [shortRing, openRing, closedRing]
        = .ok ([], some (.new "Polygon parse arguments is too many")) ∧
    ParsePolygon [openRing, shortRing]
        = .ok ([], some (.new "Coordinates format is invalid for polygon")) :=
  ⟨ParsePolygon_errors.1 [shortRing, openRing, closedRing] (by decide),
    ParsePolygon_errors.2 [openRing, shortRing] (by decide)
      (by simp [AllPairs, openRing, shortRing]) ⟨shortRing, by simp, by decide⟩⟩

/-! ## Claims on `ParseCoordinate` -/

theorem index_of_inRow (record : List String) (i : Int) (h : InRow record i) :
    index record i = .ok (cellAt record i) := by
  obtain ⟨h0, h1⟩ := h
  have hlt : i.toNat < record.length := by omega
  have hn : ¬ i < 0 := by omega
  simp [index, hn, cellAt, List.getD, List.getElem?_eq_getElem hlt]

/-- With at least two column positions, the first two inside the row,
`ParseCoordinate` returns the parsed point, or the error of the first cell
that does not parse with the empty point. -/
theorem ParseCoordinate_inRow (env : Env) (c0 c1 : Int) (more : List Int)
    (record : List String) (h0 : InRow record c0) (h1 : InRow record c1) :
    ParseCoordinate env (c0 :: c1 :: more) record =
      match env.parseFloat (cellAt record c0) with
      | .error err => .ok ([], some err)
      | .ok lon =>
        match env.parseFloat (cellAt record c1) with
        | .error err => .ok ([], some err)
        | .ok lat => .ok ([lon, lat], none) := by
  simp only [ParseCoordinate, List.length_cons, index_cons_zero, index_cons_one,
    index_of_inRow record c0 h0, index_of_inRow record c1 h1]
  simp

/-- C5. For two column positions inside the row whose cells both parse as
floats, `ParseCoordinate` succeeds and returns the point of exactly two
components, the parsed value of the cell at the first position and then the
parsed value of the cell at the second one. -/
theorem ParseCoordinate_point (env : Env) (c0 c1 : Int) (more : List Int)
    (record : List String) (lon lat : Float64)
    (h0 : InRow record c0) (h1 : InRow record c1)
    (hlon : env.parseFloat (cellAt record c0) = .ok lon)
    (hlat : env.parseFloat (cellAt record c1) = .ok lat) :
    ParseCoordinate env (c0 :: c1 :: more) record = .ok ([lon, lat], none) := by
  rw [ParseCoordinate_inRow env c0 c1 more record h0 h1, hlon, hlat]

/-- C5, on the row `A, 1.0, 2.0` with the columns 1 and 2. -/
theorem ParseCoordinate_point_witness :
    ParseCoordinate sampleEnv [1, 2] ["A", "1.0", "2.0"]
      = .ok ([Float64.one, Float64.two], none) :=
  ParseCoordinate_point sampleEnv 1 2 [] ["A", "1.0", "2.0"] Float64.one Float64.two
    (by decide) (by decide) (by decide) (by decide)

/-- C6, the code at the failing input: with no column position at all
`ParseCoordinate` does not return the error "Coordinate format is invalid",
it panics on `columns[0]`; with exactly one column position it returns that
error and the empty point. -/
theorem ParseCoordinate_too_few_columns (env : Env) (record : List String) :
    ParseCoordinate env [] record = .error (.indexOutOfRange 0 0) ∧
    ∀ c : Int, ParseCoordinate env [c] record
      = .ok ([], some (.new "Coordinate format is invalid")) := by
  constructor
  · simp [ParseCoordinate, index]
  · intro c
    simp [ParseCoordinate]

/-- C7. For two column positions inside the row, `ParseCoordinate` returns
(it does not panic), and it returns an error if and only if one of the two
cells does not parse as a float; the error is then the one that
`strconv.ParseFloat` returned, for the first cell when that one does not
parse and else for the second, and the returned point is empty. -/
theorem ParseCoordinate_fails_iff (env : Env) (c0 c1 : Int) (more : List Int)
    (record : List String) (h0 : InRow record c0) (h1 : InRow record c1) :
    ∃ point err, ParseCoordinate env (c0 :: c1 :: more) record = .ok (point, err) ∧
      (err ≠ none ↔
        (¬ Parses env (cellAt record c0) ∨ ¬ Parses env (cellAt record c1))) ∧
      ∀ e, err = some e → point = [] ∧
        (env.parseFloat (cellAt record c0) = .error e ∨
          (Parses env (cellAt record c0) ∧ env.parseFloat (cellAt record c1) = .error e)) := by
  rw [ParseCoordinate_inRow env c0 c1 more record h0 h1]
  cases hlon : env.parseFloat (cellAt record c0) with
  | error e0 =>
    refine ⟨[], some e0, rfl, ?_, ?_⟩
    · simp [Parses, hlon]
    · intro e he
      cases he
      exact ⟨rfl, Or.inl rfl⟩
  | ok lon =>
    cases hlat : env.parseFloat (cellAt record c1) with
    | error e1 =>
      refine ⟨[], some e1, rfl, ?_, ?_⟩
      · simp [Parses, hlat]
      · intro e he
        cases he
        exact ⟨rfl, Or.inr ⟨⟨lon, hlon⟩, rfl⟩⟩
    | ok lat =>
      refine ⟨[lon, lat], none, rfl, ?_, ?_⟩
      · simp [Parses, hlon, hlat]
      · intro e he
        cases he

/-- C7, on the row `A, 1.0, x`, whose latitude cell does not parse. -/
theorem ParseCoordinate_fails_iff_witness :
    ParseCoordinate sampleEnv [1, 2] ["A", "1.0", "x"] = .ok ([], some (.numError "x")) ∧
    ∃ point err, ParseCoordinate sampleEnv [1, 2] ["A", "1.0", "x"] = .ok (point, err) ∧
      (err ≠ none ↔
        (¬ Parses sampleEnv (cellAt ["A", "1.0", "x"] 1) ∨
          ¬ Parses sampleEnv (cellAt ["A", "1.0", "x"] 2))) ∧
      ∀ e, err = some e → point = [] ∧
        (sampleEnv.parseFloat (cellAt ["A", "1.0", "x"] 1) = .error e ∨
          (Parses sampleEnv (cellAt ["A", "1.0", "x"] 1) ∧
            sampleEnv.parseFloat (cellAt ["A", "1.0", "x"] 2) = .error e)) :=
  ⟨by decide, ParseCoordinate_fails_iff sampleEnv 1 2 [] ["A", "1.0", "x"] (by decide) (by decide)⟩

/-! ## The point builder -/

theorem setProperties_geometry (properties : GoMap Scalar) (feature : Feature) :
    (setProperties feature properties).geometry = feature.geometry := by
  unfold setProperties
  induction properties generalizing feature with
  | nil => rfl
  | cons kv rest ih =>
    rw [List.foldl_cons, ih]
    rfl

theorem groupReadable_of_inRow (env : Env) (c0 c1 idx : Int) (record : List String)
    (h : InRow record c0 ∧ InRow record c1 ∧ InRow record idx) :
    GroupReadable env c0 c1 idx record :=
  ⟨⟨h.1, fun _ => h.2.1⟩, fun _ => h.2.2⟩

/-- On a row that has the cells that `ParseCoordinate` reads, `ParseCoordinate`
returns the parsed point of the row, or an error when there is none. -/
theorem ParseCoordinate_readable (env : Env) (c0 c1 : Int) (more : List Int)
    (record : List String) (h : PointReadable env c0 c1 record) :
    (∃ p, parsedPoint env c0 c1 record = some p ∧
        ParseCoordinate env (c0 :: c1 :: more) record = .ok (p, none)) ∨
    (parsedPoint env c0 c1 record = none ∧
        ∃ e, ParseCoordinate env (c0 :: c1 :: more) record = .ok ([], some e)) := by
  obtain ⟨h0, h1⟩ := h
  cases hlon : env.parseFloat (cellAt record c0) with
  | error e0 =>
    refine Or.inr ⟨by simp [parsedPoint, hlon], e0, ?_⟩
    simp [ParseCoordinate, index_cons_zero, index_of_inRow record c0 h0, hlon]
  | ok lon =>
    have h1' : InRow record c1 := h1 (by simp [parsesCell, hlon])
    have hpc := ParseCoordinate_inRow env c0 c1 more record h0 h1'
    rw [hlon] at hpc
    cases hlat : env.parseFloat (cellAt record c1) with
    | error e1 =>
      rw [hlat] at hpc
      exact Or.inr ⟨by simp [parsedPoint, hlon, hlat], e1, hpc⟩
    | ok lat =>
      rw [hlat] at hpc
      exact Or.inl ⟨[lon, lat], by simp [parsedPoint, hlon, hlat], hpc⟩

/-- On a row that holds the two column positions, `ParseCoordinate` returns
the parsed point of the row, or an error when there is none. -/
theorem ParseCoordinate_parsedPoint (env : Env) (c0 c1 : Int) (more : List Int)
    (record : List String) (h0 : InRow record c0) (h1 : InRow record c1) :
    (∃ p, parsedPoint env c0 c1 record = some p ∧
        ParseCoordinate env (c0 :: c1 :: more) record = .ok (p, none)) ∨
    (parsedPoint env c0 c1 record = none ∧
        ∃ e, ParseCoordinate env (c0 :: c1 :: more) record = .ok ([], some e)) := by
  rw [ParseCoordinate_inRow env c0 c1 more record h0 h1]
  unfold parsedPoint
  cases env.parseFloat (cellAt record c0) with
  | error e0 => exact Or.inr ⟨rfl, e0, rfl⟩
  | ok lon =>
    cases env.parseFloat (cellAt record c1) with
    | error e1 => exact Or.inr ⟨rfl, e1, rfl⟩
    | ok lat => exact Or.inl ⟨[lon, lat], rfl, rfl⟩

/-- The loop of the point builder, when the limit check never fires on a row
whose coordinate parses: every such row gives its feature. -/
theorem pointLoop_all (env : Env) (longitude latitude : String) (c0 c1 : Int)
    (more : List Int) (headers : List String) (limit : Int) (records : List (List String))
    (i : Int) (fc : List Feature)
    (hrows : ∀ record ∈ records, InRow record c0 ∧ InRow record c1)
    (hfree : ∀ (j : Nat) (record : List String), records.get? j = some record →
      parsedPoint env c0 c1 record ≠ none → limit = 0 ∨ limit ≠ i + j) :
    BuildPointCollection.loop env longitude latitude (c0 :: c1 :: more) headers limit records i fc
      = .ok (fc ++ records.filterMap (pointFeature env longitude latitude c0 c1 headers)) := by
  induction records generalizing i fc with
  | nil => simp [BuildPointCollection.loop]
  | cons record rest ih =>
    have hrest : ∀ r ∈ rest, InRow r c0 ∧ InRow r c1 :=
      fun r hr => hrows r (List.mem_cons_of_mem _ hr)
    have hfree1 : ∀ (j : Nat) (r : List String), rest.get? j = some r →
        parsedPoint env c0 c1 r ≠ none → limit = 0 ∨ limit ≠ (i + 1) + j := by
      intro j r hj hr
      rcases hfree (j + 1) r (by simpa using hj) hr with h | h
      · exact Or.inl h
      · refine Or.inr ?_
        intro he
        apply h
        rw [he]
        push_cast
        ring
    obtain ⟨h0, h1⟩ := hrows record (List.mem_cons_self _ _)
    rw [BuildPointCollection.loop]
    rcases ParseCoordinate_parsedPoint env c0 c1 more record h0 h1 with
      ⟨p, hp, hpc⟩ | ⟨hp, e, hpc⟩
    · have hlim : (limit != 0 && limit == i) = false := by
        rcases hfree 0 record rfl (by simp [hp]) with h | h
        · simp [h]
        · simp only [Nat.cast_zero, add_zero] at h
          simp [h]
      simp only [hpc, hlim]
      rw [ih (i + 1) _ hrest hfree1]
      simp [pointFeature, hp]
    · simp only [hpc]
      rw [ih (i + 1) _ hrest hfree1]
      simp [pointFeature, hp]

/-- The loop of the point builder, when the row at the index equal to the
limit has a coordinate that parses: the loop stops there, and the rows
before it gave their features. -/
theorem pointLoop_hit (env : Env) (longitude latitude : String) (c0 c1 : Int)
    (more : List Int) (headers : List String) (limit : Int) (records : List (List String))
    (i : Int) (fc : List Feature) (j : Nat) (row : List String)
    (hrows : ∀ record ∈ records, InRow record c0 ∧ InRow record c1)
    (hlimit : limit ≠ 0) (hij : limit = i + j) (hrow : records.get? j = some row)
    (hparses : parsedPoint env c0 c1 row ≠ none) :
    BuildPointCollection.loop env longitude latitude (c0 :: c1 :: more) headers limit records i fc
      = .ok (fc ++ (records.take j).filterMap
          (pointFeature env longitude latitude c0 c1 headers)) := by
  induction records generalizing i fc j with
  | nil => simp at hrow
  | cons record rest ih =>
    have hrest : ∀ r ∈ rest, InRow r c0 ∧ InRow r c1 :=
      fun r hr => hrows r (List.mem_cons_of_mem _ hr)
    obtain ⟨h0, h1⟩ := hrows record (List.mem_cons_self _ _)
    rw [BuildPointCollection.loop]
    cases j with
    | zero =>
      simp only [List.get?_cons_zero, Option.some.injEq] at hrow
      subst hrow
      rcases ParseCoordinate_parsedPoint env c0 c1 more record h0 h1 with
        ⟨p, hp, hpc⟩ | ⟨hp, e, hpc⟩
      · have hlim : (limit != 0 && limit == i) = true := by
          simp only [Nat.cast_zero, add_zero] at hij
          have hi : i ≠ 0 := by rw [← hij]; exact hlimit
          simp [hij, hi]
        simp only [hpc, hlim]
        simp
      · exact absurd hp hparses
    | succ j =>
      have hrow1 : rest.get? j = some row := by simpa using hrow
      have hij1 : limit = (i + 1) + j := by
        rw [hij]
        push_cast
        ring
      rcases ParseCoordinate_parsedPoint env c0 c1 more record h0 h1 with
        ⟨p, hp, hpc⟩ | ⟨hp, e, hpc⟩
      · have hlim : (limit != 0 && limit == i) = false := by
          have : limit ≠ i := by
            rw [hij]
            push_cast
            omega
          simp [this]
        simp only [hpc, hlim]
        rw [ih (i + 1) _ j hrest hij1 hrow1]
        simp [pointFeature, hp]
      · simp only [hpc]
        rw [ih (i + 1) _ j hrest hij1 hrow1]
        simp [pointFeature, hp]

theorem pointFeature_geometry (env : Env) (longitude latitude : String) (c0 c1 : Int)
    (headers : List String) (records : List (List String)) :
    (records.filterMap (pointFeature env longitude latitude c0 c1 headers)).map Feature.geometry
      = (records.filterMap (parsedPoint env c0 c1)).map Geometry.point := by
  induction records with
  | nil => rfl
  | cons record rest ih =>
    cases hp : parsedPoint env c0 c1 record with
    | none => simp [List.filterMap_cons, pointFeature, hp, ih]
    | some p =>
      simp [List.filterMap_cons, pointFeature, hp, ih, setProperties_geometry, NewPointFeature]

/-- C9. With limit 0, on records whose rows all hold the two column
positions, `BuildPointCollection` returns, in the order of the rows, one
point feature for each row whose coordinate parses, with the parsed
longitude and latitude of the row as geometry, and no feature for a row
whose coordinate does not parse; the rows after such a row are processed
all the same. -/
theorem BuildPointCollection_no_limit (env : Env) (longitude latitude : String)
    (c0 c1 : Int) (more : List Int) (headers : List String) (records : List (List String))
    (hrows : ∀ record ∈ records, InRow record c0 ∧ InRow record c1) :
    ∃ fc, BuildPointCollection env longitude latitude (c0 :: c1 :: more) headers records 0
        = .ok fc ∧
      fc.features = records.filterMap (pointFeature env longitude latitude c0 c1 headers) ∧
      fc.features.map Feature.geometry
        = (records.filterMap (parsedPoint env c0 c1)).map Geometry.point := by
  refine ⟨⟨records.filterMap (pointFeature env longitude latitude c0 c1 headers)⟩, ?_, rfl,
    pointFeature_geometry env longitude latitude c0 c1 headers records⟩
  unfold BuildPointCollection
  rw [pointLoop_all env longitude latitude c0 c1 more headers 0 records 0 [] hrows
    (fun _ _ _ _ => Or.inl rfl)]
  simp

/-- C9, on three rows the second of which does not parse: the first and the
third row give the two features. -/
theorem BuildPointCollection_no_limit_witness :
    ∃ fc, BuildPointCollection sampleEnv "lon" "lat" [0, 1] ["lon", "lat"] rowsWithBadSecond 0
        = .ok fc ∧
      fc.features
        = rowsWithBadSecond.filterMap (pointFeature sampleEnv "lon" "lat" 0 1 ["lon", "lat"]) ∧
      fc.features.map Feature.geometry
        = (rowsWithBadSecond.filterMap (parsedPoint sampleEnv 0 1)).map Geometry.point :=
  BuildPointCollection_no_limit sampleEnv "lon" "lat" 0 1 [] ["lon", "lat"] rowsWithBadSecond
    (by decide)

/-- C10, as stated, fails. With limit 1 on three rows the second of which
does not parse, the row at index 1 is skipped before the limit is looked at,
the loop goes on and the row at index 2 gives a feature; and with the
nonzero limit -1 no index ever equals the limit, so the row at index 0 gives
a feature. -/
theorem BuildPointCollection_limit_passed :
    (∃ fc, BuildPointCollection sampleEnv "lon" "lat" [0, 1] ["lon", "lat"] rowsWithBadSecond 1
        = .ok fc ∧
      fc.features.map Feature.geometry
        = [.point [Float64.one, Float64.two], .point [Float64.five, Float64.five]]) ∧
    (∃ fc, BuildPointCollection sampleEnv "lon" "lat" [0, 1] ["lon", "lat"] [["1.0", "2.0"]] (-1)
        = .ok fc ∧
      fc.features.map Feature.geometry = [.point [Float64.one, Float64.two]]) :=
  ⟨⟨_, rfl, by decide⟩, ⟨_, rfl, by decide⟩⟩

/-- C10, amended. On records whose rows all hold the two column positions,
for a positive limit such that the row at the index equal to the limit, if
there is one, has a coordinate that parses, `BuildPointCollection` returns
the features of the rows before that index whose coordinate parses, in the
order of the rows: no feature comes from a row at an index greater than or
equal to the limit. -/
theorem BuildPointCollection_limit_cutoff (env : Env) (longitude latitude : String)
    (c0 c1 : Int) (more : List Int) (headers : List String) (records : List (List String))
    (n : Nat) (hrows : ∀ record ∈ records, InRow record c0 ∧ InRow record c1)
    (hn : 0 < n)
    (hrow : ∀ record, records.get? n = some record → parsedPoint env c0 c1 record ≠ none) :
    ∃ fc, BuildPointCollection env longitude latitude (c0 :: c1 :: more) headers records n
        = .ok fc ∧
      fc.features
        = (records.take n).filterMap (pointFeature env longitude latitude c0 c1 headers) := by
  refine ⟨⟨(records.take n).filterMap (pointFeature env longitude latitude c0 c1 headers)⟩,
    ?_, rfl⟩
  unfold BuildPointCollection
  cases hget : records.get? n with
  | none =>
    have hlen : records.length ≤ n := by
      rw [List.get?_eq_getElem?] at hget
      exact List.getElem?_eq_none_iff.mp hget
    rw [pointLoop_all env longitude latitude c0 c1 more headers n records 0 [] hrows]
    · simp [List.take_of_length_le hlen]
    · intro j record hj _
      have hjlt : j < records.length := by
        rw [List.get?_eq_getElem?] at hj
        exact (List.getElem?_eq_some_iff.mp hj).1
      refine Or.inr ?_
      omega
  | some row =>
    rw [pointLoop_hit env longitude latitude c0 c1 more headers n records 0 [] n row hrows
      (by omega) (by simp) hget (hrow row hget)]
    simp

/-- C10 amended, with limit 2 on three rows the second of which does not
parse: the only feature is the one of the row at index 0. -/
theorem BuildPointCollection_limit_cutoff_witness :
    ∃ fc, BuildPointCollection sampleEnv "lon" "lat" [0, 1] ["lon", "lat"] rowsWithBadSecond
        (2 : Nat) = .ok fc ∧
      fc.features = (rowsWithBadSecond.take 2).filterMap
        (pointFeature sampleEnv "lon" "lat" 0 1 ["lon", "lat"]) :=
  BuildPointCollection_limit_cutoff sampleEnv "lon" "lat" 0 1 [] ["lon", "lat"]
    rowsWithBadSecond 2 (by decide) (by decide) (by decide)

/-! ## Maps -/

theorem GoMap.lookup_insert {V : Type} (m : GoMap V) (k : String) (v : V) (x : String) :
    GoMap.lookup (GoMap.insert m k v) x = if k = x then some v else GoMap.lookup m x := by
  induction m with
  | nil => simp [GoMap.insert, GoMap.lookup]
  | cons kv rest ih =>
    obtain ⟨k1, v1⟩ := kv
    by_cases h : k1 = k
    · subst h
      by_cases hx : k1 = x <;> simp [GoMap.insert, GoMap.lookup, hx]
    · by_cases hx : k1 = x
      · subst hx
        have hk : ¬ k = k1 := fun e => h e.symm
        simp [GoMap.insert, GoMap.lookup, h, hk]
      · simp [GoMap.insert, GoMap.lookup, h, hx, ih]

theorem GoMap.mem_keys_insert {V : Type} (m : GoMap V) (k : String) (v : V) (x : String) :
    x ∈ GoMap.keys (GoMap.insert m k v) ↔ x = k ∨ x ∈ GoMap.keys m := by
  induction m with
  | nil => simp [GoMap.insert, GoMap.keys]
  | cons kv rest ih =>
    obtain ⟨k1, v1⟩ := kv
    by_cases h : k1 = k
    · subst h
      simp [GoMap.insert, GoMap.keys]
    · simp only [GoMap.keys] at ih
      simp only [GoMap.insert, h, if_false, GoMap.keys, List.map_cons, List.mem_cons, ih]
      tauto

theorem GoMap.nodup_keys_insert {V : Type} (m : GoMap V) (k : String) (v : V)
    (h : (GoMap.keys m).Nodup) : (GoMap.keys (GoMap.insert m k v)).Nodup := by
  induction m with
  | nil => simp [GoMap.insert, GoMap.keys]
  | cons kv rest ih =>
    obtain ⟨k1, v1⟩ := kv
    by_cases hk : k1 = k
    · subst hk
      simpa [GoMap.insert, GoMap.keys] using h
    · have hmem := GoMap.mem_keys_insert rest k v k1
      simp only [GoMap.keys, List.map_cons, List.nodup_cons] at h ih hmem ⊢
      simp only [GoMap.insert, hk, if_false, List.map_cons, List.nodup_cons]
      refine ⟨?_, ih h.2⟩
      rw [hmem]
      rintro (h1 | h1)
      · exact hk h1
      · exact h.1 h1

/-! ## The grouping loop -/

theorem groupCoordinates_cons (env : Env) (c0 c1 idx : Int) (record : List String)
    (rest : List (List String)) (k : String) :
    groupCoordinates env c0 c1 idx (record :: rest) k =
      (match parsedPoint env c0 c1 record with
        | some p => if cellAt record idx = k then [p] else []
        | none => []) ++ groupCoordinates env c0 c1 idx rest k := by
  unfold groupCoordinates parsedRows
  cases hp : parsedPoint env c0 c1 record with
  | none => simp [List.filterMap_cons, hp]
  | some p =>
    by_cases hk : cellAt record idx = k <;>
      simp [List.filterMap_cons, hp, List.filter_cons, hk]

/-- The grouping loop on rows that all have the cells that the loop reads
of them: it returns, the coordinates of a key are those it had
followed by the parsed points of the rows with that key, and the keys are
those it had and those of the rows whose coordinate parses. -/
theorem groupRecords_readable (env : Env) (longitude latitude : String) (idx c0 c1 : Int)
    (more : List Int) (headers : List String) (records : List (List String))
    (tmp : GoMap LineString) (tmps : GoMap PropertyCollections)
    (hrows : ∀ record ∈ records, GroupReadable env c0 c1 idx record) :
    ∃ tmp1 tmps1,
      groupRecords env longitude latitude idx (c0 :: c1 :: more) headers records tmp tmps
        = .ok (tmp1, tmps1) ∧
      (∀ k, (GoMap.lookup tmp1 k).getD []
        = (GoMap.lookup tmp k).getD [] ++ groupCoordinates env c0 c1 idx records k) ∧
      (∀ k, k ∈ GoMap.keys tmp1 ↔
        k ∈ GoMap.keys tmp ∨ k ∈ (parsedRows env c0 c1 idx records).map Prod.fst) ∧
      ((GoMap.keys tmp).Nodup → (GoMap.keys tmp1).Nodup) := by
  induction records generalizing tmp tmps with
  | nil =>
    refine ⟨tmp, tmps, by simp [groupRecords], ?_, ?_, id⟩
    · intro k
      simp [groupCoordinates, parsedRows]
    · intro k
      simp [parsedRows]
  | cons record rest ih =>
    have hrest : ∀ r ∈ rest, GroupReadable env c0 c1 idx r :=
      fun r hr => hrows r (List.mem_cons_of_mem _ hr)
    obtain ⟨hpr, hi⟩ := hrows record (List.mem_cons_self _ _)
    rw [groupRecords]
    rcases ParseCoordinate_readable env c0 c1 more record hpr with
      ⟨p, hp, hpc⟩ | ⟨hp, e, hpc⟩
    · simp only [hpc, index_of_inRow record idx (hi (by simp [hp]))]
      obtain ⟨tmp1, tmps1, hrun, hcoords, hkeys, hnodup⟩ :=
        ih (GoMap.insert tmp (cellAt record idx)
            ((GoMap.lookup tmp (cellAt record idx)).getD [] ++ [p]))
          (GoMap.insert
            (if (GoMap.lookup tmps (cellAt record idx)).isSome then tmps
              else GoMap.insert tmps (cellAt record idx) [])
            (cellAt record idx)
            (PropertyCollections.AppendProperties
              ((GoMap.lookup
                (if (GoMap.lookup tmps (cellAt record idx)).isSome then tmps
                  else GoMap.insert tmps (cellAt record idx) []) (cellAt record idx)).getD [])
              (env.ParseProperties headers record longitude latitude)))
          hrest
      refine ⟨tmp1, tmps1, hrun, ?_, ?_, ?_⟩
      · intro k
        rw [hcoords k, groupCoordinates_cons, hp, GoMap.lookup_insert]
        by_cases hk : cellAt record idx = k
        · subst hk
          simp
        · simp [hk]
      · intro k
        rw [hkeys k, GoMap.mem_keys_insert]
        simp only [parsedRows, List.filterMap_cons, hp, Option.map_some', List.map_cons,
          List.mem_cons]
        tauto
      · intro hn
        exact hnodup (GoMap.nodup_keys_insert _ _ _ hn)
    · simp only [hpc]
      obtain ⟨tmp1, tmps1, hrun, hcoords, hkeys, hnodup⟩ := ih tmp tmps hrest
      refine ⟨tmp1, tmps1, hrun, ?_, ?_, hnodup⟩
      · intro k
        rw [hcoords k, groupCoordinates_cons, hp]
        simp
      · intro k
        rw [hkeys k]
        simp [parsedRows, List.filterMap_cons, hp]

/-- The grouping loop on rows that all hold the two column positions and
the grouping index: it returns, the coordinates of a key are those it had
followed by the parsed points of the rows with that key, and the keys are
those it had and those of the rows whose coordinate parses. -/
theorem groupRecords_spec (env : Env) (longitude latitude : String) (idx c0 c1 : Int)
    (more : List Int) (headers : List String) (records : List (List String))
    (tmp : GoMap LineString) (tmps : GoMap PropertyCollections)
    (hrows : ∀ record ∈ records, InRow record c0 ∧ InRow record c1 ∧ InRow record idx) :
    ∃ tmp1 tmps1,
      groupRecords env longitude latitude idx (c0 :: c1 :: more) headers records tmp tmps
        = .ok (tmp1, tmps1) ∧
      (∀ k, (GoMap.lookup tmp1 k).getD []
        = (GoMap.lookup tmp k).getD [] ++ groupCoordinates env c0 c1 idx records k) ∧
      (∀ k, k ∈ GoMap.keys tmp1 ↔
        k ∈ GoMap.keys tmp ∨ k ∈ (parsedRows env c0 c1 idx records).map Prod.fst) ∧
      ((GoMap.keys tmp).Nodup → (GoMap.keys tmp1).Nodup) :=
  groupRecords_readable env longitude latitude idx c0 c1 more headers records tmp tmps
    (fun record hr => groupReadable_of_inRow env c0 c1 idx record (hrows record hr))

/-- The group map of the grouped builders on rows that all have the cells
that are read of them: the first loop returns; the keys of its map are, each
once, the grouping keys of the rows whose coordinate parses, as many as there
are groups of the records; and the coordinates of a key are the parsed points
of the rows with that key, in the order of the rows. -/
theorem groupMap_readable (env : Env) (longitude latitude : String) (idx c0 c1 : Int)
    (more : List Int) (headers : List String) (records : List (List String))
    (hrows : ∀ record ∈ records, GroupReadable env c0 c1 idx record) :
    ∃ tmp tmps,
      groupRecords env longitude latitude idx (c0 :: c1 :: more) headers records [] []
        = .ok (tmp, tmps) ∧
      (GoMap.keys tmp).Nodup ∧
      (∀ k, k ∈ GoMap.keys tmp ↔ k ∈ (parsedRows env c0 c1 idx records).map Prod.fst) ∧
      (GoMap.keys tmp).Perm (groupKeys env c0 c1 idx records) ∧
      ∀ k, (GoMap.lookup tmp k).getD [] = groupCoordinates env c0 c1 idx records k := by
  obtain ⟨tmp, tmps, hrun, hcoords, hkeys, hnodup⟩ :=
    groupRecords_readable env longitude latitude idx c0 c1 more headers records [] [] hrows
  have hnd : (GoMap.keys tmp).Nodup := hnodup (by simp [GoMap.keys])
  have hk : ∀ k, k ∈ GoMap.keys tmp ↔ k ∈ (parsedRows env c0 c1 idx records).map Prod.fst := by
    intro k
    rw [hkeys k]
    simp [GoMap.keys]
  refine ⟨tmp, tmps, hrun, hnd, hk, ?_, ?_⟩
  · unfold groupKeys
    rw [List.perm_ext_iff_of_nodup hnd (List.nodup_dedup _)]
    intro k
    rw [hk k, List.mem_dedup]
  · intro k
    rw [hcoords k]
    simp [GoMap.lookup]

/-! ## The line-string builder -/

theorem setCollections_geometry (pcs : PropertyCollections) (feature : Feature) :
    (setCollections feature pcs).geometry = feature.geometry := by
  unfold setCollections
  induction pcs generalizing feature with
  | nil => rfl
  | cons kv rest ih =>
    rw [List.foldl_cons, ih]
    rfl

theorem lineStringFeature_geometry (env : Env) (tmp : GoMap LineString)
    (tmps : GoMap PropertyCollections) (id : String) :
    (lineStringFeature env tmp tmps id).geometry
      = .lineString ((GoMap.lookup tmp id).getD []) := by
  simp [lineStringFeature, setCollections_geometry, Feature.SetProperty, NewLineStringFeature]

/-- With limit 0 the second loop of the line-string builder adds the feature
of every key it visits. -/
theorem lineLoop_no_limit (env : Env) (tmp : GoMap LineString)
    (tmps : GoMap PropertyCollections) (order : List String) (cnt : Int) (fc : List Feature) :
    BuildLineStringCollection.loop env tmp tmps 0 order cnt fc
      = fc ++ order.map (lineStringFeature env tmp tmps) := by
  induction order generalizing cnt fc with
  | nil => simp [BuildLineStringCollection.loop]
  | cons id rest ih =>
    rw [BuildLineStringCollection.loop]
    simp only [bne_self_eq_false, Bool.false_and]
    rw [if_neg (by simp), ih]
    simp [lineStringFeature]

/-- C8, as stated, fails: on a row that does not hold the column positions
`BuildLineStringCollection` returns no collection, it panics on
`record[columns[0]]`. -/
theorem BuildLineStringCollection_short_row :
    BuildLineStringCollection sampleEnv "lon" "lat" 0 [1, 2] ["key", "lon", "lat"] [["A"]] 0 []
      = .error (.indexOutOfRange 1 1) := by
  decide

/-- C8, amended. On records whose rows all hold the two column positions and
the grouping index, with limit 0, the first loop of
`BuildLineStringCollection` returns a group map whose keys are, each once,
the grouping keys of the rows whose coordinate parses; and for every order in
which the second loop may visit that map, the builder returns one feature per
key, in that order, and the coordinates of the feature of a key are the
parsed points of the rows with that key whose coordinate parses, in the order
of the rows. -/
theorem BuildLineStringCollection_groups (env : Env) (longitude latitude : String)
    (idx c0 c1 : Int) (more : List Int) (headers : List String) (records : List (List String))
    (hrows : ∀ record ∈ records, InRow record c0 ∧ InRow record c1 ∧ InRow record idx) :
    ∃ tmp tmps,
      groupRecords env longitude latitude idx (c0 :: c1 :: more) headers records [] []
        = .ok (tmp, tmps) ∧
      (GoMap.keys tmp).Nodup ∧
      (∀ k, k ∈ GoMap.keys tmp ↔ k ∈ (parsedRows env c0 c1 idx records).map Prod.fst) ∧
      ∀ order, IsRangeOrder tmp order →
        ∃ fc, BuildLineStringCollection env longitude latitude idx (c0 :: c1 :: more) headers
            records 0 order = .ok fc ∧
          fc.features.map Feature.geometry
            = order.map (fun k => Geometry.lineString (groupCoordinates env c0 c1 idx records k)) := by
  obtain ⟨tmp, tmps, hrun, hcoords, hkeys, hnodup⟩ :=
    groupRecords_spec env longitude latitude idx c0 c1 more headers records [] [] hrows
  refine ⟨tmp, tmps, hrun, hnodup (by simp [GoMap.keys]), ?_, ?_⟩
  · intro k
    rw [hkeys k]
    simp [GoMap.keys]
  · intro order _
    refine ⟨⟨BuildLineStringCollection.loop env tmp tmps 0 order 0 []⟩, ?_, ?_⟩
    · simp [BuildLineStringCollection, hrun]
    · rw [lineLoop_no_limit]
      simp only [List.nil_append, List.map_map]
      apply List.map_congr_left
      intro k _
      simp only [Function.comp, lineStringFeature_geometry, hcoords k]
      simp [GoMap.lookup]

/-- C8 amended, on the rows `A, 1.0, 2.0`, `A, 1.1, 2.1` and `B, 5.0, 5.0`
grouped by column 0: the group map has the keys `A` and `B`, and whichever
of the two is visited first, the feature of `A` has the coordinates
`[[1.0, 2.0], [1.1, 2.1]]` and the feature of `B` the coordinates
`[[5.0, 5.0]]`. -/
theorem BuildLineStringCollection_groups_witness :
    (∃ tmp tmps,
      groupRecords sampleEnv "lon" "lat" 0 [1, 2] ["key", "lon", "lat"] rowsAB [] []
        = .ok (tmp, tmps) ∧
      (GoMap.keys tmp).Nodup ∧
      (∀ k, k ∈ GoMap.keys tmp ↔ k ∈ (parsedRows sampleEnv 1 2 0 rowsAB).map Prod.fst) ∧
      ∀ order, IsRangeOrder tmp order →
        ∃ fc, BuildLineStringCollection sampleEnv "lon" "lat" 0 [1, 2] ["key", "lon", "lat"]
            rowsAB 0 order = .ok fc ∧
          fc.features.map Feature.geometry
            = order.map (fun k => Geometry.lineString (groupCoordinates sampleEnv 1 2 0 rowsAB k))) ∧
    groupCoordinates sampleEnv 1 2 0 rowsAB "A"
      = [[Float64.one, Float64.two], [⟨0x3FF199999999999A⟩, ⟨0x4000CCCCCCCCCCCD⟩]] ∧
    groupCoordinates sampleEnv 1 2 0 rowsAB "B" = [[Float64.five, Float64.five]] ∧
    (parsedRows sampleEnv 1 2 0 rowsAB).map Prod.fst = ["A", "A", "B"] :=
  ⟨BuildLineStringCollection_groups sampleEnv "lon" "lat" 0 1 2 [] ["key", "lon", "lat"] rowsAB
    (by decide), by decide, by decide, by decide⟩

/-! ## The limit of the point builder -/

theorem filterMap_of_all_some {α β : Type} (f : α → Option β) (l : List α)
    (h : ∀ x ∈ l, f x ≠ none) : (l.filterMap f).map some = l.map f := by
  induction l with
  | nil => rfl
  | cons a rest ih =>
    have hrest := ih (fun x hx => h x (List.mem_cons_of_mem _ hx))
    cases ha : f a with
    | none => exact absurd ha (h a (List.mem_cons_self _ _))
    | some b => simp [List.filterMap_cons, ha, hrest]

/-- C11. On records whose rows all have a coordinate that parses, for a
limit `n` with `0 < n < number of records`, `BuildPointCollection` returns
exactly `n` features: the feature at place `i` is the one of the row at
index `i`, for the indices `0` to `n - 1`. -/
theorem BuildPointCollection_limit_all_parse (env : Env) (longitude latitude : String)
    (c0 c1 : Int) (more : List Int) (headers : List String) (records : List (List String))
    (n : Nat)
    (hrows : ∀ record ∈ records, InRow record c0 ∧ InRow record c1 ∧
      parsedPoint env c0 c1 record ≠ none)
    (hn : 0 < n) (hlen : n < records.length) :
    ∃ fc, BuildPointCollection env longitude latitude (c0 :: c1 :: more) headers records n
        = .ok fc ∧
      fc.features.length = n ∧
      fc.features.map some
        = (records.take n).map (pointFeature env longitude latitude c0 c1 headers) := by
  have hsome : ∀ record ∈ records.take n,
      pointFeature env longitude latitude c0 c1 headers record ≠ none := by
    intro record hr
    have hp := (hrows record (List.mem_of_mem_take hr)).2.2
    cases h : parsedPoint env c0 c1 record with
    | none => exact absurd h hp
    | some p => simp [pointFeature, h]
  have hmap := filterMap_of_all_some (pointFeature env longitude latitude c0 c1 headers)
    (records.take n) hsome
  refine ⟨⟨(records.take n).filterMap (pointFeature env longitude latitude c0 c1 headers)⟩,
    ?_, ?_, hmap⟩
  · unfold BuildPointCollection
    have hget : records.get? n = some (records.get ⟨n, hlen⟩) := by
      simp [List.get?_eq_getElem?, List.getElem?_eq_getElem hlen]
    rw [pointLoop_hit env longitude latitude c0 c1 more headers n records 0 [] n _
      (fun r hr => ⟨(hrows r hr).1, (hrows r hr).2.1⟩) (by omega) (by simp) hget
      (hrows _ (List.get_mem _ _ _)).2.2]
    simp
  · have hl := congrArg List.length hmap
    simp only [List.length_map, List.length_take] at hl
    simp only [hl]
    omega

/-- C11, with limit 1 on the three rows `A, 1.0, 2.0`, `A, 1.1, 2.1` and
`B, 5.0, 5.0`: one feature, the one of the row at index 0. -/
theorem BuildPointCollection_limit_all_parse_witness :
    ∃ fc, BuildPointCollection sampleEnv "lon" "lat" [1, 2] ["key", "lon", "lat"] rowsAB
        (1 : Nat) = .ok fc ∧
      fc.features.length = 1 ∧
      fc.features.map some
        = (rowsAB.take 1).map (pointFeature sampleEnv "lon" "lat" 1 2 ["key", "lon", "lat"]) :=
  BuildPointCollection_limit_all_parse sampleEnv "lon" "lat" 1 2 [] ["key", "lon", "lat"] rowsAB
    1 (by decide) (by decide) (by decide)

/-- C19. On records whose rows all hold the two column positions, for every
integer limit `n`: when `0 < n < number of records` and the row at index `n`
has a coordinate that parses, `BuildPointCollection` returns the features of
the rows before the index `n` whose coordinate parses, in the order of the
rows; in every other case it returns the features of all the rows whose
coordinate parses, in the order of the rows. -/
theorem BuildPointCollection_limit_exact (env : Env) (longitude latitude : String)
    (c0 c1 : Int) (more : List Int) (headers : List String) (records : List (List String))
    (n : Int) (hrows : ∀ record ∈ records, InRow record c0 ∧ InRow record c1) :
    ∃ fc, BuildPointCollection env longitude latitude (c0 :: c1 :: more) headers records n
        = .ok fc ∧
      ((0 < n ∧ n < records.length ∧
          ∃ row, records.get? n.toNat = some row ∧ parsedPoint env c0 c1 row ≠ none) →
        fc.features = (records.take n.toNat).filterMap
          (pointFeature env longitude latitude c0 c1 headers)) ∧
      (¬ (0 < n ∧ n < records.length ∧
          ∃ row, records.get? n.toNat = some row ∧ parsedPoint env c0 c1 row ≠ none) →
        fc.features = records.filterMap
          (pointFeature env longitude latitude c0 c1 headers)) := by
  by_cases hcase : 0 < n ∧ n < records.length ∧
      ∃ row, records.get? n.toNat = some row ∧ parsedPoint env c0 c1 row ≠ none
  · obtain ⟨hpos, _, row, hget, hparses⟩ := hcase
    refine ⟨⟨(records.take n.toNat).filterMap
      (pointFeature env longitude latitude c0 c1 headers)⟩, ?_, fun _ => rfl, ?_⟩
    · unfold BuildPointCollection
      rw [pointLoop_hit env longitude latitude c0 c1 more headers n records 0 [] n.toNat row
        hrows (by omega) (by omega) hget hparses]
      simp
    · intro hnot
      exact absurd ⟨hpos, by assumption, row, hget, hparses⟩ hnot
  · refine ⟨⟨records.filterMap (pointFeature env longitude latitude c0 c1 headers)⟩, ?_,
      fun h => absurd h hcase, fun _ => rfl⟩
    unfold BuildPointCollection
    rw [pointLoop_all env longitude latitude c0 c1 more headers n records 0 [] hrows]
    · simp
    · intro j record hj hparses
      by_cases h0 : n = 0
      · exact Or.inl h0
      · refine Or.inr ?_
        intro hnj
        have hjlt : j < records.length := by
          rw [List.get?_eq_getElem?] at hj
          exact (List.getElem?_eq_some_iff.mp hj).1
        apply hcase
        have hnat : n.toNat = j := by omega
        exact ⟨by omega, by omega, record, by rw [hnat]; exact hj, hparses⟩

/-- C19, on three rows the second of which does not parse: with limit 2 the
row at index 2 parses and the output is the feature of the row at index 0;
with limit 1 the row at index 1 does not parse and the output holds the
features of the rows at the indices 0 and 2. -/
theorem BuildPointCollection_limit_exact_witness :
    (∃ fc, BuildPointCollection sampleEnv "lon" "lat" [0, 1] ["lon", "lat"] rowsWithBadSecond 2
        = .ok fc ∧
      fc.features.map Feature.geometry = [.point [Float64.one, Float64.two]]) ∧
    ∃ fc, BuildPointCollection sampleEnv "lon" "lat" [0, 1] ["lon", "lat"] rowsWithBadSecond 1
        = .ok fc ∧
      ((0 < (1 : Int) ∧ (1 : Int) < rowsWithBadSecond.length ∧
          ∃ row, rowsWithBadSecond.get? (1 : Int).toNat = some row ∧
            parsedPoint sampleEnv 0 1 row ≠ none) →
        fc.features = (rowsWithBadSecond.take (1 : Int).toNat).filterMap
          (pointFeature sampleEnv "lon" "lat" 0 1 ["lon", "lat"])) ∧
      (¬ (0 < (1 : Int) ∧ (1 : Int) < rowsWithBadSecond.length ∧
          ∃ row, rowsWithBadSecond.get? (1 : Int).toNat = some row ∧
            parsedPoint sampleEnv 0 1 row ≠ none) →
        fc.features = rowsWithBadSecond.filterMap
          (pointFeature sampleEnv "lon" "lat" 0 1 ["lon", "lat"])) :=
  ⟨⟨_, rfl, by decide⟩,
    BuildPointCollection_limit_exact sampleEnv "lon" "lat" 0 1 [] ["lon", "lat"]
      rowsWithBadSecond 1 (by decide)⟩

/-! ## `ParsePolygon` without rings -/

/-- C20. Called with no ring, `ParsePolygon` returns the empty polygon and
no error: a result without error need not have one or two rings. -/
theorem ParsePolygon_no_rings :
    ParsePolygon [] = .ok ([], none) ∧
    ∃ lines polygon, ParsePolygon lines = .ok (polygon, none) ∧
      ¬ (1 ≤ polygon.length ∧ polygon.length ≤ 2) :=
  ⟨by decide, [], [], by decide, by decide⟩

/-! ## The limit of the line-string builder -/

/-- With a positive limit `n` and a counter `cnt ≤ n`, the second loop of the
line-string builder adds the features of the next `n - cnt` keys it visits,
or of all of them when there are fewer. -/
theorem lineLoop_limit (env : Env) (tmp : GoMap LineString) (tmps : GoMap PropertyCollections)
    (n : Nat) (order : List String) (cnt : Nat) (fc : List Feature) (hn : 0 < n)
    (hcnt : cnt ≤ n) :
    BuildLineStringCollection.loop env tmp tmps n order cnt fc
      = fc ++ (order.take (n - cnt)).map (lineStringFeature env tmp tmps) := by
  induction order generalizing cnt fc with
  | nil => simp [BuildLineStringCollection.loop]
  | cons id rest ih =>
    rw [BuildLineStringCollection.loop]
    by_cases hc : cnt = n
    · subst hc
      have hlim : ((cnt : Int) != 0 && (cnt : Int) == (cnt : Int)) = true := by
        have : (cnt : Int) ≠ 0 := by omega
        simp [this]
      simp only [hlim, if_true, Nat.sub_self, List.take_zero, List.map_nil, List.append_nil]
    · have hlim : ((n : Int) != 0 && (n : Int) == (cnt : Int)) = false := by
        have : (n : Int) ≠ (cnt : Int) := by omega
        simp [this]
      simp only [hlim]
      have hcast : (cnt : Int) + 1 = ((cnt + 1 : Nat) : Int) := by push_cast; ring
      rw [hcast, if_neg (by simp), ih (cnt + 1) _ (by omega)]
      have hsucc : n - cnt = (n - (cnt + 1)) + 1 := by omega
      rw [hsucc, List.take_succ_cons]
      simp [lineStringFeature]

/-- C12, as stated, fails: on records with a row that does not hold the
column positions `BuildLineStringCollection` returns no collection at all,
whatever the limit; here with limit 1. -/
theorem BuildLineStringCollection_limit_short_row :
    BuildLineStringCollection sampleEnv "lon" "lat" 0 [1, 2] ["key", "lon", "lat"]
      rowsWithShortRow 1 ["A"] = .error (.indexOutOfRange 1 1) := by
  decide

/-- C12, amended. On records whose rows all hold the two column positions
and the grouping index, the first loop of `BuildLineStringCollection`
returns a group map whose keys are, each once, the grouping keys of the rows
whose coordinate parses; and for every order in which the second loop may
visit it: with a limit `n > 0` the builder returns exactly `min n (number of
groups of the records)` features, those of the first groups of that order,
each with the parsed points of the rows of its group as coordinates; with
limit 0 it returns the features of all the groups, in that order. -/
theorem BuildLineStringCollection_limit (env : Env) (longitude latitude : String)
    (idx c0 c1 : Int) (more : List Int) (headers : List String) (records : List (List String))
    (hrows : ∀ record ∈ records, InRow record c0 ∧ InRow record c1 ∧ InRow record idx) :
    ∃ tmp tmps,
      groupRecords env longitude latitude idx (c0 :: c1 :: more) headers records [] []
        = .ok (tmp, tmps) ∧
      (GoMap.keys tmp).Nodup ∧
      (∀ k, k ∈ GoMap.keys tmp ↔ k ∈ (parsedRows env c0 c1 idx records).map Prod.fst) ∧
      ∀ order, IsRangeOrder tmp order →
        (∀ n : Nat, 0 < n →
          ∃ fc, BuildLineStringCollection env longitude latitude idx (c0 :: c1 :: more) headers
              records n order = .ok fc ∧
            fc.features.length = min n (groupKeys env c0 c1 idx records).length ∧
            fc.features = (order.take n).map (lineStringFeature env tmp tmps) ∧
            fc.features.map Feature.geometry = (order.take n).map
              (fun k => Geometry.lineString (groupCoordinates env c0 c1 idx records k))) ∧
        ∃ fc, BuildLineStringCollection env longitude latitude idx (c0 :: c1 :: more) headers
            records 0 order = .ok fc ∧
          fc.features = order.map (lineStringFeature env tmp tmps) ∧
          fc.features.map Feature.geometry = order.map
            (fun k => Geometry.lineString (groupCoordinates env c0 c1 idx records k)) := by
  obtain ⟨tmp, tmps, hrun, hnd, hk, hperm, hc⟩ :=
    groupMap_readable env longitude latitude idx c0 c1 more headers records
      (fun record hr => groupReadable_of_inRow env c0 c1 idx record (hrows record hr))
  have hgeo : ∀ ks : List String,
      (ks.map (lineStringFeature env tmp tmps)).map Feature.geometry
        = ks.map (fun k => Geometry.lineString (groupCoordinates env c0 c1 idx records k)) := by
    intro ks
    rw [List.map_map]
    apply List.map_congr_left
    intro k _
    simp only [Function.comp, lineStringFeature_geometry, hc k]
  refine ⟨tmp, tmps, hrun, hnd, hk, ?_⟩
  intro order horder
  have hlen : order.length = (groupKeys env c0 c1 idx records).length :=
    List.Perm.length_eq (List.Perm.trans horder hperm)
  constructor
  · intro n hn
    have hloop := lineLoop_limit env tmp tmps n order 0 [] hn (by omega)
    simp only [Nat.cast_zero, Nat.sub_zero, List.nil_append] at hloop
    refine ⟨⟨(order.take n).map (lineStringFeature env tmp tmps)⟩, ?_, ?_, rfl, hgeo _⟩
    · simp only [BuildLineStringCollection, hrun, hloop]
    · simp only [List.length_map, List.length_take, hlen]
  · refine ⟨⟨order.map (lineStringFeature env tmp tmps)⟩, ?_, rfl, hgeo _⟩
    simp only [BuildLineStringCollection, hrun, lineLoop_no_limit, List.nil_append]

/-- C12 amended, on the rows `A, 1.0, 2.0`, `A, 1.1, 2.1` and `B, 5.0, 5.0`,
which have the two groups `A` and `B`: with limit 1 and the group `B`
visited first, the only feature is the one of `B`. -/
theorem BuildLineStringCollection_limit_witness :
    (∃ fc, BuildLineStringCollection sampleEnv "lon" "lat" 0 [1, 2] ["key", "lon", "lat"]
        rowsAB 1 ["B", "A"] = .ok fc ∧
      fc.features.map Feature.geometry = [.lineString [[Float64.five, Float64.five]]]) ∧
    groupKeys sampleEnv 1 2 0 rowsAB = ["A", "B"] ∧
    ∃ tmp tmps,
      groupRecords sampleEnv "lon" "lat" 0 [1, 2] ["key", "lon", "lat"] rowsAB [] []
        = .ok (tmp, tmps) ∧
      (GoMap.keys tmp).Nodup ∧
      (∀ k, k ∈ GoMap.keys tmp ↔ k ∈ (parsedRows sampleEnv 1 2 0 rowsAB).map Prod.fst) ∧
      ∀ order, IsRangeOrder tmp order →
        (∀ n : Nat, 0 < n →
          ∃ fc, BuildLineStringCollection sampleEnv "lon" "lat" 0 [1, 2] ["key", "lon", "lat"]
              rowsAB n order = .ok fc ∧
            fc.features.length = min n (groupKeys sampleEnv 1 2 0 rowsAB).length ∧
            fc.features = (order.take n).map (lineStringFeature sampleEnv tmp tmps) ∧
            fc.features.map Feature.geometry = (order.take n).map
              (fun k => Geometry.lineString (groupCoordinates sampleEnv 1 2 0 rowsAB k))) ∧
        ∃ fc, BuildLineStringCollection sampleEnv "lon" "lat" 0 [1, 2] ["key", "lon", "lat"]
            rowsAB 0 order = .ok fc ∧
          fc.features = order.map (lineStringFeature sampleEnv tmp tmps) ∧
          fc.features.map Feature.geometry = order.map
            (fun k => Geometry.lineString (groupCoordinates sampleEnv 1 2 0 rowsAB k)) :=
  ⟨⟨_, rfl, by decide⟩, by decide,
    BuildLineStringCollection_limit sampleEnv "lon" "lat" 0 1 2 [] ["key", "lon", "lat"] rowsAB
      (by decide)⟩

/-! ## The second loop of the polygon builder -/

/-- With limit 0 the second loop of the polygon builder, when `ParsePolygon`
panics on none of the groups, adds the feature of every group for which
`ParsePolygon` returns a polygon. -/
theorem polyLoop_no_limit (env : Env) (tmp : GoMap LineString)
    (tmps : GoMap PropertyCollections) (order : List String) (cnt : Int) (fc : List Feature)
    (hnp : ∀ id ∈ order, ∀ p, ParsePolygon [(GoMap.lookup tmp id).getD []] ≠ .error p) :
    BuildPolygonCollection.loop env tmp tmps 0 order cnt fc
      = .ok (fc ++ order.filterMap (polygonStep env tmp tmps)) := by
  induction order generalizing cnt fc with
  | nil => simp [BuildPolygonCollection.loop]
  | cons id rest ih =>
    have hrest : ∀ i ∈ rest, ∀ p, ParsePolygon [(GoMap.lookup tmp i).getD []] ≠ .error p :=
      fun i hi => hnp i (List.mem_cons_of_mem _ hi)
    rw [BuildPolygonCollection.loop]
    cases h : ParsePolygon [(GoMap.lookup tmp id).getD []] with
    | error p => exact absurd h (hnp id (List.mem_cons_self _ _) p)
    | ok res =>
      obtain ⟨polygon, err⟩ := res
      cases err with
      | some e =>
        simp only []
        rw [ih cnt fc hrest]
        simp [List.filterMap_cons, polygonStep, h]
      | none =>
        simp only [bne_self_eq_false, Bool.false_and]
        rw [if_neg (by simp), ih _ _ hrest]
        simp [List.filterMap_cons, polygonStep, h, polygonFeature]

/-- With a positive limit `n` and a counter `cnt ≤ n`, the second loop of the
polygon builder, when `ParsePolygon` panics on none of the groups, adds the
features of the next `n - cnt` groups for which `ParsePolygon` returns a
polygon, or of all of them when there are fewer. -/
theorem polyLoop_limit (env : Env) (tmp : GoMap LineString) (tmps : GoMap PropertyCollections)
    (n : Nat) (order : List String) (cnt : Nat) (fc : List Feature) (hn : 0 < n)
    (hcnt : cnt ≤ n)
    (hnp : ∀ id ∈ order, ∀ p, ParsePolygon [(GoMap.lookup tmp id).getD []] ≠ .error p) :
    BuildPolygonCollection.loop env tmp tmps n order cnt fc
      = .ok (fc ++ (order.filterMap (polygonStep env tmp tmps)).take (n - cnt)) := by
  induction order generalizing cnt fc with
  | nil => simp [BuildPolygonCollection.loop]
  | cons id rest ih =>
    have hrest : ∀ i ∈ rest, ∀ p, ParsePolygon [(GoMap.lookup tmp i).getD []] ≠ .error p :=
      fun i hi => hnp i (List.mem_cons_of_mem _ hi)
    rw [BuildPolygonCollection.loop]
    cases h : ParsePolygon [(GoMap.lookup tmp id).getD []] with
    | error p => exact absurd h (hnp id (List.mem_cons_self _ _) p)
    | ok res =>
      obtain ⟨polygon, err⟩ := res
      cases err with
      | some e =>
        simp only []
        rw [ih cnt fc hcnt hrest]
        simp [List.filterMap_cons, polygonStep, h]
      | none =>
        have hstep : polygonStep env tmp tmps id
            = some (polygonFeature env tmps id polygon) := by
          simp [polygonStep, h]
        by_cases hc : cnt = n
        · subst hc
          have hlim : ((cnt : Int) != 0 && (cnt : Int) == (cnt : Int)) = true := by
            have : (cnt : Int) ≠ 0 := by omega
            simp [this]
          simp only [hlim, if_true, Nat.sub_self, List.take_zero, List.append_nil]
        · have hlim : ((n : Int) != 0 && (n : Int) == (cnt : Int)) = false := by
            have : (n : Int) ≠ (cnt : Int) := by omega
            simp [this]
          simp only [hlim]
          have hcast : (cnt : Int) + 1 = ((cnt + 1 : Nat) : Int) := by push_cast; ring
          rw [hcast, if_neg (by simp), ih (cnt + 1) _ (by omega) hrest]
          have hsucc : n - cnt = (n - (cnt + 1)) + 1 := by omega
          rw [hsucc, List.filterMap_cons, hstep, List.take_succ_cons]
          simp [polygonFeature]

/-! ## The groups of the polygon builder -/

theorem parsedPoint_length (env : Env) (c0 c1 : Int) (record : List String) (p : Point)
    (h : parsedPoint env c0 c1 record = some p) : p.length = 2 := by
  unfold parsedPoint at h
  cases h0 : env.parseFloat (cellAt record c0) with
  | error e => simp [h0] at h
  | ok lon =>
    cases h1 : env.parseFloat (cellAt record c1) with
    | error e => simp [h0, h1] at h
    | ok lat =>
      simp [h0, h1] at h
      subst h
      rfl

theorem groupCoordinates_pairs (env : Env) (c0 c1 idx : Int) (records : List (List String))
    (k : String) : ∀ p ∈ groupCoordinates env c0 c1 idx records k, p.length = 2 := by
  intro p hp
  simp only [groupCoordinates, parsedRows, List.mem_map, List.mem_filter,
    List.mem_filterMap] at hp
  obtain ⟨kp, ⟨⟨record, _, hrec⟩, _⟩, rfl⟩ := hp
  cases hpp : parsedPoint env c0 c1 record with
  | none => simp [hpp] at hrec
  | some q =>
    simp [hpp] at hrec
    subst hrec
    exact parsedPoint_length env c0 c1 record q hpp

/-- On the coordinates of a group, which are pairs, `ParsePolygon` does not
panic: it returns the polygon of the one closed ring when there are at least
three pairs, and an error when there are fewer. -/
theorem polygonStep_pairs (env : Env) (tmp : GoMap LineString)
    (tmps : GoMap PropertyCollections) (id : String)
    (hpairs : ∀ p ∈ (GoMap.lookup tmp id).getD [], p.length = 2) :
    (∀ p, ParsePolygon [(GoMap.lookup tmp id).getD []] ≠ .error p) ∧
    polygonStep env tmp tmps id =
      if 3 ≤ ((GoMap.lookup tmp id).getD []).length then
        some (polygonFeature env tmps id [closeRing ((GoMap.lookup tmp id).getD [])])
      else none := by
  have hall : AllPairs [(GoMap.lookup tmp id).getD []] := by
    intro line hl
    simp only [List.mem_singleton] at hl
    subst hl
    exact hpairs
  by_cases hlen : 3 ≤ ((GoMap.lookup tmp id).getD []).length
  · have h := ParsePolygon_valid [(GoMap.lookup tmp id).getD []] (by simp)
      (by intro line hl; simp only [List.mem_singleton] at hl; subst hl; exact hlen) hall
    constructor
    · intro p hp
      rw [h] at hp
      cases hp
    · simp [polygonStep, h, hlen]
  · have h : ParsePolygon [(GoMap.lookup tmp id).getD []]
        = .ok ([], some (.new "Coordinates format is invalid for polygon")) := by
      have hn : ¬ [(GoMap.lookup tmp id).getD []].length > 2 := by simp
      simp only [ParsePolygon, hn, if_false]
      exact loop_short _ [] hall ⟨_, List.mem_singleton_self _, by omega⟩
    constructor
    · intro p hp
      rw [h] at hp
      cases hp
    · simp [polygonStep, h, hlen]

/-- The groups of the polygon builder on rows that all have the cells that
are read of them: the first loop returns the group map of `groupMap_readable`,
`ParsePolygon` panics on no group, the groups that give a feature are those
of at least three coordinates, and each of these is a key of the map. -/
theorem polygonGroups_readable (env : Env) (longitude latitude : String) (idx c0 c1 : Int)
    (more : List Int) (headers : List String) (records : List (List String))
    (hrows : ∀ record ∈ records, GroupReadable env c0 c1 idx record) :
    ∃ tmp tmps,
      groupRecords env longitude latitude idx (c0 :: c1 :: more) headers records [] []
        = .ok (tmp, tmps) ∧
      (GoMap.keys tmp).Nodup ∧
      (∀ k, k ∈ GoMap.keys tmp ↔ k ∈ (parsedRows env c0 c1 idx records).map Prod.fst) ∧
      (GoMap.keys tmp).Perm (groupKeys env c0 c1 idx records) ∧
      (∀ k, (GoMap.lookup tmp k).getD [] = groupCoordinates env c0 c1 idx records k) ∧
      (∀ id p, ParsePolygon [(GoMap.lookup tmp id).getD []] ≠ .error p) ∧
      (∀ order : List String, order.filterMap (polygonStep env tmp tmps)
        = (order.filter (validGroup env c0 c1 idx records)).map
            (fun k => polygonFeature env tmps k
              [closeRing (groupCoordinates env c0 c1 idx records k)])) ∧
      ∀ k, validGroup env c0 c1 idx records k = true → k ∈ GoMap.keys tmp := by
  obtain ⟨tmp, tmps, hrun, hnd, hk, hperm, hc⟩ :=
    groupMap_readable env longitude latitude idx c0 c1 more headers records hrows
  have hpairs : ∀ k, ∀ p ∈ (GoMap.lookup tmp k).getD [], p.length = 2 := by
    intro k
    rw [hc k]
    exact groupCoordinates_pairs env c0 c1 idx records k
  refine ⟨tmp, tmps, hrun, hnd, hk, hperm, hc,
    fun id => (polygonStep_pairs env tmp tmps id (hpairs id)).1, ?_, ?_⟩
  · intro order
    induction order with
    | nil => rfl
    | cons k rest ih =>
      have hstep := (polygonStep_pairs env tmp tmps k (hpairs k)).2
      rw [hc k] at hstep
      by_cases hv : 3 ≤ (groupCoordinates env c0 c1 idx records k).length
      · simp [List.filterMap_cons, hstep, hv, ih, List.filter_cons, validGroup]
      · simp [List.filterMap_cons, hstep, hv, ih, List.filter_cons, validGroup]
  · intro k hv
    rw [hk k]
    simp only [validGroup, decide_eq_true_eq] at hv
    obtain ⟨p, hp⟩ : ∃ p, p ∈ groupCoordinates env c0 c1 idx records k := by
      cases hg : groupCoordinates env c0 c1 idx records k with
      | nil => rw [hg] at hv; simp at hv
      | cons p _ => exact ⟨p, List.mem_cons_self _ _⟩
    simp only [groupCoordinates, List.mem_map, List.mem_filter, decide_eq_true_eq] at hp
    obtain ⟨kp, ⟨hmem, hkey⟩, _⟩ := hp
    exact List.mem_map.mpr ⟨kp, hmem, hkey⟩

/-- The groups of the polygon builder on rows that all hold the two column
positions and the grouping index: the first loop returns, `ParsePolygon`
panics on no group, and the groups that give a feature are those of at least
three coordinates. -/
theorem polygonGroups_spec (env : Env) (longitude latitude : String) (idx c0 c1 : Int)
    (more : List Int) (headers : List String) (records : List (List String))
    (hrows : ∀ record ∈ records, InRow record c0 ∧ InRow record c1 ∧ InRow record idx) :
    ∃ tmp tmps,
      groupRecords env longitude latitude idx (c0 :: c1 :: more) headers records [] []
        = .ok (tmp, tmps) ∧
      (∀ id p, ParsePolygon [(GoMap.lookup tmp id).getD []] ≠ .error p) ∧
      ∀ order : List String, order.filterMap (polygonStep env tmp tmps)
        = (order.filter (validGroup env c0 c1 idx records)).map
            (fun k => polygonFeature env tmps k
              [closeRing (groupCoordinates env c0 c1 idx records k)]) := by
  obtain ⟨tmp, tmps, hrun, -, -, -, -, hnp, hsteps, -⟩ :=
    polygonGroups_readable env longitude latitude idx c0 c1 more headers records
      (fun record hr => groupReadable_of_inRow env c0 c1 idx record (hrows record hr))
  exact ⟨tmp, tmps, hrun, hnp, hsteps⟩

/-! ## Claims on the polygon builder -/

/-- C13, as stated, fails: on records with a row that does not hold the
column positions `BuildPolygonCollection` emits no feature at all, it panics
in its first loop, also when another group is valid. -/
theorem BuildPolygonCollection_short_row :
    BuildPolygonCollection sampleEnv "lon" "lat" 0 [1, 2] ["key", "lon", "lat"]
      (rowsTriangleAndPair ++ [["C"]]) 0 ["A", "B"] = .error (.indexOutOfRange 1 1) := by
  decide

/-- C13, amended. On records whose rows all hold the two column positions
and the grouping index, with limit 0, the first loop of
`BuildPolygonCollection` returns a group map whose keys are, each once, the
grouping keys of the rows whose coordinate parses, and every group that
accumulated at least three coordinates that parse is among them; for every
order in which the second loop may visit the map the builder returns, in
that order, the features of exactly these groups, each with the one closed
ring of its coordinates, as many as the records have such groups; a group
with fewer coordinates gives no feature and does not stop the other
groups. -/
theorem BuildPolygonCollection_groups (env : Env) (longitude latitude : String)
    (idx c0 c1 : Int) (more : List Int) (headers : List String) (records : List (List String))
    (hrows : ∀ record ∈ records, InRow record c0 ∧ InRow record c1 ∧ InRow record idx) :
    ∃ tmp tmps,
      groupRecords env longitude latitude idx (c0 :: c1 :: more) headers records [] []
        = .ok (tmp, tmps) ∧
      (GoMap.keys tmp).Nodup ∧
      (∀ k, k ∈ GoMap.keys tmp ↔ k ∈ (parsedRows env c0 c1 idx records).map Prod.fst) ∧
      (∀ k, validGroup env c0 c1 idx records k = true → k ∈ GoMap.keys tmp) ∧
      ∀ order, IsRangeOrder tmp order →
        ∃ fc, BuildPolygonCollection env longitude latitude idx (c0 :: c1 :: more) headers
            records 0 order = .ok fc ∧
          fc.features = (order.filter (validGroup env c0 c1 idx records)).map
            (fun k => polygonFeature env tmps k
              [closeRing (groupCoordinates env c0 c1 idx records k)]) ∧
          fc.features.map Feature.geometry
            = (order.filter (validGroup env c0 c1 idx records)).map
              (fun k => Geometry.polygon [closeRing (groupCoordinates env c0 c1 idx records k)]) ∧
          fc.features.length = ((groupKeys env c0 c1 idx records).filter
            (validGroup env c0 c1 idx records)).length := by
  obtain ⟨tmp, tmps, hrun, hnd, hk, hperm, -, hnp, hsteps, hvalid⟩ :=
    polygonGroups_readable env longitude latitude idx c0 c1 more headers records
      (fun record hr => groupReadable_of_inRow env c0 c1 idx record (hrows record hr))
  refine ⟨tmp, tmps, hrun, hnd, hk, hvalid, ?_⟩
  intro order horder
  refine ⟨⟨(order.filter (validGroup env c0 c1 idx records)).map
    (fun k => polygonFeature env tmps k
      [closeRing (groupCoordinates env c0 c1 idx records k)])⟩, ?_, rfl, ?_, ?_⟩
  · simp only [BuildPolygonCollection, hrun]
    rw [polyLoop_no_limit env tmp tmps order 0 [] (fun id _ => hnp id), hsteps order]
    simp
  · simp only [List.map_map]
    apply List.map_congr_left
    intro k _
    simp [polygonFeature, setCollections_geometry, Feature.SetProperty, NewPolygonFeature]
  · simp only [List.length_map]
    exact List.Perm.length_eq (List.Perm.filter _ (List.Perm.trans horder hperm))

/-- C13 amended, on three rows of the group `A` and two rows of the group
`B`: with `B` visited first, `B` is skipped and `A` gives the only feature,
the ring of its three points closed by a fourth. -/
theorem BuildPolygonCollection_groups_witness :
    (∃ fc, BuildPolygonCollection sampleEnv "lon" "lat" 0 [1, 2] ["key", "lon", "lat"]
        rowsTriangleAndPair 0 ["B", "A"] = .ok fc ∧
      fc.features.map Feature.geometry
        = [.polygon [openRing ++ [[Float64.zero, Float64.zero]]]]) ∧
    (groupKeys sampleEnv 1 2 0 rowsTriangleAndPair).filter
      (validGroup sampleEnv 1 2 0 rowsTriangleAndPair) = ["A"] ∧
    ∃ tmp tmps,
      groupRecords sampleEnv "lon" "lat" 0 [1, 2] ["key", "lon", "lat"] rowsTriangleAndPair
        [] [] = .ok (tmp, tmps) ∧
      (GoMap.keys tmp).Nodup ∧
      (∀ k, k ∈ GoMap.keys tmp ↔
        k ∈ (parsedRows sampleEnv 1 2 0 rowsTriangleAndPair).map Prod.fst) ∧
      (∀ k, validGroup sampleEnv 1 2 0 rowsTriangleAndPair k = true → k ∈ GoMap.keys tmp) ∧
      ∀ order, IsRangeOrder tmp order →
        ∃ fc, BuildPolygonCollection sampleEnv "lon" "lat" 0 [1, 2] ["key", "lon", "lat"]
            rowsTriangleAndPair 0 order = .ok fc ∧
          fc.features = (order.filter (validGroup sampleEnv 1 2 0 rowsTriangleAndPair)).map
            (fun k => polygonFeature sampleEnv tmps k
              [closeRing (groupCoordinates sampleEnv 1 2 0 rowsTriangleAndPair k)]) ∧
          fc.features.map Feature.geometry
            = (order.filter (validGroup sampleEnv 1 2 0 rowsTriangleAndPair)).map
              (fun k => Geometry.polygon
                [closeRing (groupCoordinates sampleEnv 1 2 0 rowsTriangleAndPair k)]) ∧
          fc.features.length = ((groupKeys sampleEnv 1 2 0 rowsTriangleAndPair).filter
            (validGroup sampleEnv 1 2 0 rowsTriangleAndPair)).length :=
  ⟨⟨_, rfl, by decide⟩, by decide,
    BuildPolygonCollection_groups sampleEnv "lon" "lat" 0 1 2 [] ["key", "lon", "lat"]
      rowsTriangleAndPair (by decide)⟩

/-- C14, as stated, fails: on records with a row that does not hold the
column positions `BuildPolygonCollection` returns no collection, whatever
the limit; here with limit 1 and one valid group. -/
theorem BuildPolygonCollection_limit_short_row :
    BuildPolygonCollection sampleEnv "lon" "lat" 0 [1, 2] ["key", "lon", "lat"]
      (rowsTriangleAndPair ++ [["A", "1.0"]]) 1 ["A", "B"]
      = .error (.indexOutOfRange 2 2) := by
  decide

/-- C14, amended. On records whose rows all hold the two column positions
and the grouping index, the first loop of `BuildPolygonCollection` returns a
group map whose keys are, each once, the grouping keys of the rows whose
coordinate parses; for every order in which the second loop may visit it and
every limit `n > 0`, the builder returns exactly `min n (number of groups of
the records with at least three coordinates that parse)` features, those of
the first such groups of that order: the groups that are skipped do not
count, wherever they stand in the order. -/
theorem BuildPolygonCollection_limit (env : Env) (longitude latitude : String)
    (idx c0 c1 : Int) (more : List Int) (headers : List String) (records : List (List String))
    (hrows : ∀ record ∈ records, InRow record c0 ∧ InRow record c1 ∧ InRow record idx) :
    ∃ tmp tmps,
      groupRecords env longitude latitude idx (c0 :: c1 :: more) headers records [] []
        = .ok (tmp, tmps) ∧
      (GoMap.keys tmp).Nodup ∧
      (∀ k, k ∈ GoMap.keys tmp ↔ k ∈ (parsedRows env c0 c1 idx records).map Prod.fst) ∧
      (∀ k, validGroup env c0 c1 idx records k = true → k ∈ GoMap.keys tmp) ∧
      ∀ order, IsRangeOrder tmp order → ∀ n : Nat, 0 < n →
        ∃ fc, BuildPolygonCollection env longitude latitude idx (c0 :: c1 :: more) headers
            records n order = .ok fc ∧
          fc.features.length = min n ((groupKeys env c0 c1 idx records).filter
            (validGroup env c0 c1 idx records)).length ∧
          fc.features = ((order.filter (validGroup env c0 c1 idx records)).take n).map
            (fun k => polygonFeature env tmps k
              [closeRing (groupCoordinates env c0 c1 idx records k)]) := by
  obtain ⟨tmp, tmps, hrun, hnd, hk, hperm, -, hnp, hsteps, hvalid⟩ :=
    polygonGroups_readable env longitude latitude idx c0 c1 more headers records
      (fun record hr => groupReadable_of_inRow env c0 c1 idx record (hrows record hr))
  refine ⟨tmp, tmps, hrun, hnd, hk, hvalid, ?_⟩
  intro order horder n hn
  have hlen : (order.filter (validGroup env c0 c1 idx records)).length
      = ((groupKeys env c0 c1 idx records).filter (validGroup env c0 c1 idx records)).length :=
    List.Perm.length_eq (List.Perm.filter _ (List.Perm.trans horder hperm))
  refine ⟨⟨((order.filter (validGroup env c0 c1 idx records)).take n).map
    (fun k => polygonFeature env tmps k
      [closeRing (groupCoordinates env c0 c1 idx records k)])⟩, ?_, ?_, rfl⟩
  · simp only [BuildPolygonCollection, hrun]
    have h := polyLoop_limit env tmp tmps n order 0 [] hn (by omega) (fun id _ => hnp id)
    simp only [Nat.cast_zero, Nat.sub_zero, List.nil_append] at h
    rw [h, hsteps order, List.map_take]
  · simp only [List.length_map, List.length_take, hlen]

/-- C14 amended, on three rows of the group `A` and two rows of the group
`B`, with limit 1 and `B` visited first: `B` is skipped without counting and
`A`, the one group with three coordinates, gives the one feature. -/
theorem BuildPolygonCollection_limit_witness :
    (∃ fc, BuildPolygonCollection sampleEnv "lon" "lat" 0 [1, 2] ["key", "lon", "lat"]
        rowsTriangleAndPair 1 ["B", "A"] = .ok fc ∧
      fc.features.map Feature.geometry
        = [.polygon [openRing ++ [[Float64.zero, Float64.zero]]]]) ∧
    ∃ tmp tmps,
      groupRecords sampleEnv "lon" "lat" 0 [1, 2] ["key", "lon", "lat"] rowsTriangleAndPair
        [] [] = .ok (tmp, tmps) ∧
      (GoMap.keys tmp).Nodup ∧
      (∀ k, k ∈ GoMap.keys tmp ↔
        k ∈ (parsedRows sampleEnv 1 2 0 rowsTriangleAndPair).map Prod.fst) ∧
      (∀ k, validGroup sampleEnv 1 2 0 rowsTriangleAndPair k = true → k ∈ GoMap.keys tmp) ∧
      ∀ order, IsRangeOrder tmp order → ∀ n : Nat, 0 < n →
        ∃ fc, BuildPolygonCollection sampleEnv "lon" "lat" 0 [1, 2] ["key", "lon", "lat"]
            rowsTriangleAndPair n order = .ok fc ∧
          fc.features.length
            = min n ((groupKeys sampleEnv 1 2 0 rowsTriangleAndPair).filter
                (validGroup sampleEnv 1 2 0 rowsTriangleAndPair)).length ∧
          fc.features
            = ((order.filter (validGroup sampleEnv 1 2 0 rowsTriangleAndPair)).take n).map
              (fun k => polygonFeature sampleEnv tmps k
                [closeRing (groupCoordinates sampleEnv 1 2 0 rowsTriangleAndPair k)]) :=
  ⟨⟨_, rfl, by decide⟩,
    BuildPolygonCollection_limit sampleEnv "lon" "lat" 0 1 2 [] ["key", "lon", "lat"]
      rowsTriangleAndPair (by decide)⟩

/-! ## The builders return -/

/-- On rows that all have the cells that `ParseCoordinate` reads, the loop of
the point builder returns the features of the rows whose coordinate parses
among the first rows, up to some row; with limit 0, among all the rows. -/
theorem pointLoop_readable (env : Env) (longitude latitude : String) (c0 c1 : Int)
    (more : List Int) (headers : List String) (limit : Int) (records : List (List String))
    (i : Int) (fc : List Feature)
    (hrows : ∀ record ∈ records, PointReadable env c0 c1 record) :
    ∃ m, BuildPointCollection.loop env longitude latitude (c0 :: c1 :: more) headers limit
        records i fc
        = .ok (fc ++ (records.take m).filterMap
            (pointFeature env longitude latitude c0 c1 headers)) ∧
      (limit = 0 → records.take m = records) := by
  induction records generalizing i fc with
  | nil => exact ⟨0, by simp [BuildPointCollection.loop], fun _ => rfl⟩
  | cons record rest ih =>
    have hrest : ∀ r ∈ rest, PointReadable env c0 c1 r :=
      fun r hr => hrows r (List.mem_cons_of_mem _ hr)
    rw [BuildPointCollection.loop]
    rcases ParseCoordinate_readable env c0 c1 more record
        (hrows record (List.mem_cons_self _ _)) with ⟨p, hp, hpc⟩ | ⟨hp, e, hpc⟩
    · simp only [hpc]
      by_cases hlim : (limit != 0 && limit == i) = true
      · refine ⟨0, by simp only [hlim, if_true, List.take_zero, List.filterMap_nil,
          List.append_nil], ?_⟩
        intro h0
        simp [h0] at hlim
      · obtain ⟨m, hm, hall⟩ := ih (i + 1)
          (fc ++ [setProperties (NewPointFeature p)
            (env.ParseProperties headers record longitude latitude)]) hrest
        refine ⟨m + 1, ?_, fun h0 => by rw [List.take_succ_cons, hall h0]⟩
        simp only [hlim]
        rw [if_neg (by simp), hm]
        simp [List.take_succ_cons, List.filterMap_cons, pointFeature, hp]
    · simp only [hpc]
      obtain ⟨m, hm, hall⟩ := ih (i + 1) fc hrest
      refine ⟨m + 1, ?_, fun h0 => by rw [List.take_succ_cons, hall h0]⟩
      rw [hm]
      simp [List.take_succ_cons, List.filterMap_cons, pointFeature, hp]

/-- The second loop of the line-string builder adds the features of the
first keys it visits, up to some key. -/
theorem lineLoop_take (env : Env) (tmp : GoMap LineString) (tmps : GoMap PropertyCollections)
    (limit : Int) (order : List String) (cnt : Int) (fc : List Feature) :
    ∃ m, BuildLineStringCollection.loop env tmp tmps limit order cnt fc
      = fc ++ (order.take m).map (lineStringFeature env tmp tmps) := by
  induction order generalizing cnt fc with
  | nil => exact ⟨0, by simp [BuildLineStringCollection.loop]⟩
  | cons id rest ih =>
    rw [BuildLineStringCollection.loop]
    by_cases hlim : (limit != 0 && limit == cnt) = true
    · exact ⟨0, by simp only [hlim, if_true, List.take_zero, List.map_nil, List.append_nil]⟩
    · obtain ⟨m, hm⟩ := ih (cnt + 1) (fc ++ [lineStringFeature env tmp tmps id])
      refine ⟨m + 1, ?_⟩
      rw [if_neg hlim]
      refine hm.trans ?_
      simp [List.take_succ_cons]

/-- When `ParsePolygon` panics on none of the groups, the second loop of the
polygon builder adds the first features that it makes of the keys it visits,
up to some feature. -/
theorem polyLoop_take (env : Env) (tmp : GoMap LineString) (tmps : GoMap PropertyCollections)
    (limit : Int) (order : List String) (cnt : Int) (fc : List Feature)
    (hnp : ∀ id ∈ order, ∀ p, ParsePolygon [(GoMap.lookup tmp id).getD []] ≠ .error p) :
    ∃ m, BuildPolygonCollection.loop env tmp tmps limit order cnt fc
      = .ok (fc ++ (order.filterMap (polygonStep env tmp tmps)).take m) := by
  induction order generalizing cnt fc with
  | nil => exact ⟨0, by simp [BuildPolygonCollection.loop]⟩
  | cons id rest ih =>
    have hrest : ∀ i ∈ rest, ∀ p, ParsePolygon [(GoMap.lookup tmp i).getD []] ≠ .error p :=
      fun i hi => hnp i (List.mem_cons_of_mem _ hi)
    rw [BuildPolygonCollection.loop]
    cases h : ParsePolygon [(GoMap.lookup tmp id).getD []] with
    | error p => exact absurd h (hnp id (List.mem_cons_self _ _) p)
    | ok res =>
      obtain ⟨polygon, err⟩ := res
      cases err with
      | some e =>
        simp only []
        obtain ⟨m, hm⟩ := ih cnt fc hrest
        exact ⟨m, by rw [hm]; simp [List.filterMap_cons, polygonStep, h]⟩
      | none =>
        have hstep : polygonStep env tmp tmps id
            = some (polygonFeature env tmps id polygon) := by
          simp [polygonStep, h]
        simp only []
        by_cases hlim : (limit != 0 && limit == cnt) = true
        · exact ⟨0, by simp only [hlim, if_true, List.take_zero, List.append_nil]⟩
        · obtain ⟨m, hm⟩ := ih (cnt + 1) (fc ++ [polygonFeature env tmps id polygon]) hrest
          refine ⟨m + 1, ?_⟩
          rw [if_neg hlim]
          refine hm.trans ?_
          simp [List.filterMap_cons, hstep, List.take_succ_cons]

/-- C17, as stated, fails: on records with a row that has fewer cells than
the column positions, each of the three builders panics and returns no
collection. -/
theorem builders_panic_on_short_row :
    BuildPointCollection sampleEnv "lon" "lat" [1, 2] ["key", "lon", "lat"] rowsWithShortRow 0
      = .error (.indexOutOfRange 1 1) ∧
    BuildLineStringCollection sampleEnv "lon" "lat" 0 [1, 2] ["key", "lon", "lat"]
      rowsWithShortRow 0 ["A"] = .error (.indexOutOfRange 1 1) ∧
    BuildPolygonCollection sampleEnv "lon" "lat" 0 [1, 2] ["key", "lon", "lat"]
      rowsWithShortRow 0 ["A"] = .error (.indexOutOfRange 1 1) := by
  decide

/-- C17, amended. No build aborts because of a row whose cells do not parse,
nor because of a row that lacks a cell that is not read. On records whose
rows all hold the first column position, and the second one when the first
cell parses, `BuildPointCollection` returns a collection, for every limit;
when the rows moreover hold the grouping index as soon as both cells parse,
`BuildLineStringCollection` and `BuildPolygonCollection` return a collection,
for every limit and visiting order. With limit 0 the collection holds the
features of exactly the rows, or groups of rows, whose coordinate parses, the
other rows being skipped; with another limit it holds the first of these
features. -/
theorem builders_return (env : Env) (longitude latitude : String) (idx c0 c1 : Int)
    (more : List Int) (headers : List String) (records : List (List String)) (limit : Int)
    (order : List String) :
    ((∀ record ∈ records, PointReadable env c0 c1 record) →
      ∃ fc, BuildPointCollection env longitude latitude (c0 :: c1 :: more) headers records
          limit = .ok fc ∧
        fc.features <+: records.filterMap (pointFeature env longitude latitude c0 c1 headers) ∧
        (limit = 0 →
          fc.features = records.filterMap (pointFeature env longitude latitude c0 c1 headers))) ∧
    ((∀ record ∈ records, GroupReadable env c0 c1 idx record) →
      ∃ tmp tmps,
        groupRecords env longitude latitude idx (c0 :: c1 :: more) headers records [] []
          = .ok (tmp, tmps) ∧
        (GoMap.keys tmp).Nodup ∧
        (∀ k, k ∈ GoMap.keys tmp ↔ k ∈ (parsedRows env c0 c1 idx records).map Prod.fst) ∧
        (∀ k, (GoMap.lookup tmp k).getD [] = groupCoordinates env c0 c1 idx records k) ∧
        (∃ fc, BuildLineStringCollection env longitude latitude idx (c0 :: c1 :: more) headers
            records limit order = .ok fc ∧
          fc.features <+: order.map (lineStringFeature env tmp tmps) ∧
          (limit = 0 → fc.features = order.map (lineStringFeature env tmp tmps))) ∧
        ∃ fc, BuildPolygonCollection env longitude latitude idx (c0 :: c1 :: more) headers
            records limit order = .ok fc ∧
          fc.features <+: (order.filter (validGroup env c0 c1 idx records)).map
            (fun k => polygonFeature env tmps k
              [closeRing (groupCoordinates env c0 c1 idx records k)]) ∧
          (limit = 0 →
            fc.features = (order.filter (validGroup env c0 c1 idx records)).map
              (fun k => polygonFeature env tmps k
                [closeRing (groupCoordinates env c0 c1 idx records k)]))) := by
  constructor
  · intro hrows
    obtain ⟨m, hm, hall⟩ := pointLoop_readable env longitude latitude c0 c1 more headers limit
      records 0 [] hrows
    simp only [List.nil_append] at hm
    refine ⟨⟨(records.take m).filterMap (pointFeature env longitude latitude c0 c1 headers)⟩,
      by simp only [BuildPointCollection, hm], ?_, fun h0 => by rw [hall h0]⟩
    refine ⟨(records.drop m).filterMap (pointFeature env longitude latitude c0 c1 headers), ?_⟩
    rw [← List.filterMap_append, List.take_append_drop]
  · intro hrows
    obtain ⟨tmp, tmps, hrun, hnd, hk, -, hc, hnp, hsteps, -⟩ :=
      polygonGroups_readable env longitude latitude idx c0 c1 more headers records hrows
    refine ⟨tmp, tmps, hrun, hnd, hk, hc, ?_, ?_⟩
    · obtain ⟨m, hm⟩ := lineLoop_take env tmp tmps limit order 0 []
      simp only [List.nil_append] at hm
      refine ⟨⟨BuildLineStringCollection.loop env tmp tmps limit order 0 []⟩,
        by simp only [BuildLineStringCollection, hrun], ?_, ?_⟩
      · refine ⟨(order.drop m).map (lineStringFeature env tmp tmps), ?_⟩
        rw [hm, ← List.map_append, List.take_append_drop]
      · intro h0
        simp only [h0, lineLoop_no_limit, List.nil_append]
    · obtain ⟨m, hm⟩ := polyLoop_take env tmp tmps limit order 0 [] (fun id _ => hnp id)
      simp only [List.nil_append] at hm
      refine ⟨⟨(order.filterMap (polygonStep env tmp tmps)).take m⟩,
        by simp only [BuildPolygonCollection, hrun, hm], ?_, ?_⟩
      · refine ⟨(order.filterMap (polygonStep env tmp tmps)).drop m, ?_⟩
        rw [← hsteps order]
        exact List.take_append_drop _ _
      · intro h0
        have hall := polyLoop_no_limit env tmp tmps order 0 [] (fun id _ => hnp id)
        rw [h0] at hm
        rw [hall] at hm
        simp only [List.nil_append, Except.ok.injEq] at hm
        rw [← hm, hsteps order]

/-- C17 amended, on three rows the second of which has a single cell, which
does not parse and leaves the cell of the second column position unread: the
row is skipped and the first and the third row give their features. -/
theorem builders_return_witness :
    (∃ fc, BuildPointCollection sampleEnv "lon" "lat" [0, 1] ["lon", "lat"]
        rowsWithShortSecond 0 = .ok fc ∧
      fc.features.map Feature.geometry
        = [.point [Float64.one, Float64.two], .point [Float64.five, Float64.five]]) ∧
    ((∀ record ∈ rowsWithShortSecond, PointReadable sampleEnv 0 1 record) →
      ∃ fc, BuildPointCollection sampleEnv "lon" "lat" [0, 1] ["lon", "lat"]
          rowsWithShortSecond 0 = .ok fc ∧
        fc.features <+: rowsWithShortSecond.filterMap
          (pointFeature sampleEnv "lon" "lat" 0 1 ["lon", "lat"]) ∧
        ((0 : Int) = 0 →
          fc.features = rowsWithShortSecond.filterMap
            (pointFeature sampleEnv "lon" "lat" 0 1 ["lon", "lat"]))) ∧
    ((∀ record ∈ rowsWithShortSecond, GroupReadable sampleEnv 0 1 0 record) →
      ∃ tmp tmps,
        groupRecords sampleEnv "lon" "lat" 0 [0, 1] ["lon", "lat"] rowsWithShortSecond [] []
          = .ok (tmp, tmps) ∧
        (GoMap.keys tmp).Nodup ∧
        (∀ k, k ∈ GoMap.keys tmp ↔
          k ∈ (parsedRows sampleEnv 0 1 0 rowsWithShortSecond).map Prod.fst) ∧
        (∀ k, (GoMap.lookup tmp k).getD []
          = groupCoordinates sampleEnv 0 1 0 rowsWithShortSecond k) ∧
        (∃ fc, BuildLineStringCollection sampleEnv "lon" "lat" 0 [0, 1] ["lon", "lat"]
            rowsWithShortSecond 0 ["1.0", "5.0"] = .ok fc ∧
          fc.features <+: ["1.0", "5.0"].map (lineStringFeature sampleEnv tmp tmps) ∧
          ((0 : Int) = 0 →
            fc.features = ["1.0", "5.0"].map (lineStringFeature sampleEnv tmp tmps))) ∧
        ∃ fc, BuildPolygonCollection sampleEnv "lon" "lat" 0 [0, 1] ["lon", "lat"]
            rowsWithShortSecond 0 ["1.0", "5.0"] = .ok fc ∧
          fc.features <+: (["1.0", "5.0"].filter
              (validGroup sampleEnv 0 1 0 rowsWithShortSecond)).map
            (fun k => polygonFeature sampleEnv tmps k
              [closeRing (groupCoordinates sampleEnv 0 1 0 rowsWithShortSecond k)]) ∧
          ((0 : Int) = 0 →
            fc.features = (["1.0", "5.0"].filter
                (validGroup sampleEnv 0 1 0 rowsWithShortSecond)).map
              (fun k => polygonFeature sampleEnv tmps k
                [closeRing (groupCoordinates sampleEnv 0 1 0 rowsWithShortSecond k)]))) ∧
    (∀ record ∈ rowsWithShortSecond, GroupReadable sampleEnv 0 1 0 record) :=
  ⟨⟨_, rfl, by decide⟩,
    (builders_return sampleEnv "lon" "lat" 0 0 1 [] ["lon", "lat"] rowsWithShortSecond 0
      ["1.0", "5.0"]).1,
    (builders_return sampleEnv "lon" "lat" 0 0 1 [] ["lon", "lat"] rowsWithShortSecond 0
      ["1.0", "5.0"]).2,
    by decide⟩

/-! ## The polygon builder and the line-string builder -/

theorem setCollections_with_geometry (pcs : PropertyCollections) (feature : Feature)
    (g : Geometry) :
    { setCollections feature pcs with geometry := g }
      = setCollections { feature with geometry := g } pcs := by
  unfold setCollections
  induction pcs generalizing feature with
  | nil => rfl
  | cons kv rest ih =>
    rw [List.foldl_cons, List.foldl_cons, ih]
    rfl

/-- Ring closure applied to the line-string feature of a group is what the
polygon builder makes of the group. -/
theorem closeLineStringFeature_lineStringFeature (env : Env) (tmp : GoMap LineString)
    (tmps : GoMap PropertyCollections) (id : String) :
    closeLineStringFeature (lineStringFeature env tmp tmps id) = polygonStep env tmp tmps id := by
  unfold closeLineStringFeature polygonStep
  rw [lineStringFeature_geometry]
  simp only []
  cases h : ParsePolygon [(GoMap.lookup tmp id).getD []] with
  | error p => rfl
  | ok res =>
    obtain ⟨polygon, err⟩ := res
    cases err with
    | some e => rfl
    | none =>
      simp only [lineStringFeature, polygonFeature, setCollections_with_geometry]
      rfl

/-- When the second loop of the polygon builder returns with limit 0,
`ParsePolygon` panicked on none of the groups. -/
theorem polyLoop_ok_no_panic (env : Env) (tmp : GoMap LineString)
    (tmps : GoMap PropertyCollections) (order : List String) (cnt : Int) (fc res : List Feature)
    (h : BuildPolygonCollection.loop env tmp tmps 0 order cnt fc = .ok res) :
    ∀ id ∈ order, ∀ p, ParsePolygon [(GoMap.lookup tmp id).getD []] ≠ .error p := by
  induction order generalizing cnt fc with
  | nil => intro id hid; simp at hid
  | cons k rest ih =>
    rw [BuildPolygonCollection.loop] at h
    cases hk : ParsePolygon [(GoMap.lookup tmp k).getD []] with
    | error p =>
      simp only [hk] at h
      cases h
    | ok r =>
      obtain ⟨polygon, err⟩ := r
      have hrest : ∀ id ∈ rest, ∀ p,
          ParsePolygon [(GoMap.lookup tmp id).getD []] ≠ .error p := by
        cases err with
        | some e =>
          simp only [hk] at h
          exact ih _ _ h
        | none =>
          simp only [hk, bne_self_eq_false, Bool.false_and] at h
          rw [if_neg (by simp)] at h
          exact ih _ _ h
      intro id hid p
      rcases List.mem_cons.mp hid with rfl | hid
      · rw [hk]
        intro hp
        cases hp
      · exact hrest id hid p

theorem closeRing_cases (line : LineString) :
    closeRing line = line ∨
      ∃ first, line.head? = some first ∧ closeRing line = line ++ [first] := by
  unfold closeRing
  cases hf : line.head? with
  | none => exact Or.inl rfl
  | some first =>
    cases hl : line.getLast? with
    | none => exact Or.inl rfl
    | some last =>
      by_cases he : pairEq last first = true
      · exact Or.inl (by simp [he])
      · exact Or.inr ⟨first, rfl, by simp [he]⟩

/-- A polygon that `ParsePolygon` returns for a single ring is the ring as
`closeRing` gives it. -/
theorem ParsePolygon_single (coords : LineString) (polygon : Polygon)
    (h : ParsePolygon [coords] = .ok (polygon, none)) : polygon = [closeRing coords] := by
  have hn : ¬ [coords].length > 2 := by simp
  simp only [ParsePolygon, hn, if_false] at h
  have := (loop_ok_inv [coords] [] polygon h).1
  simpa using this

/-- C18. With limit 0, when `BuildPolygonCollection` returns,
`BuildLineStringCollection` returns on the same input and visiting order, and
the polygon features are the line-string features followed by ring closure,
group by group: the feature of a group is kept exactly when `ParsePolygon`
returns a polygon for its coordinates as a single ring, and this polygon is
its geometry. Every polygon emitted has exactly one ring, which is the ring
of coordinates of a line-string feature, unchanged or with a copy of its
first pair appended. -/
theorem BuildPolygonCollection_refines (env : Env) (longitude latitude : String) (idx : Int)
    (columns : List Int) (headers : List String) (records : List (List String))
    (order : List String) (pg : FeatureCollection)
    (h : BuildPolygonCollection env longitude latitude idx columns headers records 0 order
      = .ok pg) :
    ∃ ls, BuildLineStringCollection env longitude latitude idx columns headers records 0 order
        = .ok ls ∧
      pg.features = ls.features.filterMap closeLineStringFeature ∧
      ∀ f ∈ pg.features, ∃ coords ring,
        Geometry.lineString coords ∈ ls.features.map Feature.geometry ∧
        f.geometry = .polygon [ring] ∧
        ParsePolygon [coords] = .ok ([ring], none) ∧
        (ring = coords ∨ ∃ first, coords.head? = some first ∧ ring = coords ++ [first]) := by
  unfold BuildPolygonCollection at h
  cases hrun : groupRecords env longitude latitude idx columns headers records [] [] with
  | error p => simp [hrun] at h
  | ok maps =>
    obtain ⟨tmp, tmps⟩ := maps
    simp only [hrun] at h
    cases hloop : BuildPolygonCollection.loop env tmp tmps 0 order 0 [] with
    | error p => simp [hloop] at h
    | ok res =>
      simp only [hloop, Except.ok.injEq] at h
      subst h
      have hnp := polyLoop_ok_no_panic env tmp tmps order 0 [] res hloop
      rw [polyLoop_no_limit env tmp tmps order 0 [] hnp] at hloop
      simp only [List.nil_append, Except.ok.injEq] at hloop
      subst hloop
      refine ⟨⟨order.map (lineStringFeature env tmp tmps)⟩, ?_, ?_, ?_⟩
      · simp [BuildLineStringCollection, hrun, lineLoop_no_limit]
      · simp only [List.filterMap_map]
        apply List.filterMap_congr
        intro id _
        exact (closeLineStringFeature_lineStringFeature env tmp tmps id).symm
      · intro f hf
        simp only [List.mem_filterMap] at hf
        obtain ⟨id, hid, hstep⟩ := hf
        unfold polygonStep at hstep
        cases hpp : ParsePolygon [(GoMap.lookup tmp id).getD []] with
        | error p => simp [hpp] at hstep
        | ok r =>
          obtain ⟨polygon, err⟩ := r
          cases err with
          | some e => simp [hpp] at hstep
          | none =>
            simp only [hpp, Option.some.injEq] at hstep
            subst hstep
            have hpoly := ParsePolygon_single _ _ hpp
            subst hpoly
            refine ⟨(GoMap.lookup tmp id).getD [], closeRing ((GoMap.lookup tmp id).getD []),
              ?_, ?_, hpp, closeRing_cases _⟩
            · simp only [List.map_map, List.mem_map]
              exact ⟨id, hid, by simp [lineStringFeature_geometry]⟩
            · simp [polygonFeature, setCollections_geometry, Feature.SetProperty,
                NewPolygonFeature]

/-- C18, on three rows of the group `A` and two rows of the group `B`: the
line-string builder gives a feature for `B` and one for `A`, the polygon
builder the one of `A` with its ring closed. -/
theorem BuildPolygonCollection_refines_witness :
    BuildPolygonCollection sampleEnv "lon" "lat" 0 [1, 2] ["key", "lon", "lat"]
      rowsTriangleAndPair 0 ["B", "A"]
      = .ok ⟨[polygonFeature sampleEnv [("A", [("key", [.str "A", .str "A", .str "A"])])] "A"
          [openRing ++ [[Float64.zero, Float64.zero]]]]⟩ ∧
    ∃ ls, BuildLineStringCollection sampleEnv "lon" "lat" 0 [1, 2] ["key", "lon", "lat"]
        rowsTriangleAndPair 0 ["B", "A"] = .ok ls ∧
      [polygonFeature sampleEnv [("A", [("key", [.str "A", .str "A", .str "A"])])] "A"
          [openRing ++ [[Float64.zero, Float64.zero]]]]
        = ls.features.filterMap closeLineStringFeature ∧
      ∀ f ∈ [polygonFeature sampleEnv [("A", [("key", [.str "A", .str "A", .str "A"])])] "A"
          [openRing ++ [[Float64.zero, Float64.zero]]]], ∃ coords ring,
        Geometry.lineString coords ∈ ls.features.map Feature.geometry ∧
        f.geometry = .polygon [ring] ∧
        ParsePolygon [coords] = .ok ([ring], none) ∧
        (ring = coords ∨ ∃ first, coords.head? = some first ∧ ring = coords ++ [first]) :=
  ⟨by decide,
    BuildPolygonCollection_refines sampleEnv "lon" "lat" 0 [1, 2] ["key", "lon", "lat"]
      rowsTriangleAndPair ["B", "A"] _ (by decide)⟩

/-! ## The property `hash_` -/

theorem AppendProperties_keys (properties : GoMap Scalar) (pc : PropertyCollections)
    (x : String) :
    x ∈ GoMap.keys (PropertyCollections.AppendProperties pc properties) ↔
      x ∈ GoMap.keys pc ∨ x ∈ GoMap.keys properties := by
  unfold PropertyCollections.AppendProperties
  induction properties generalizing pc with
  | nil => simp [GoMap.keys]
  | cons kv rest ih =>
    rw [List.foldl_cons, ih, GoMap.mem_keys_insert]
    simp only [GoMap.keys, List.map_cons, List.mem_cons]
    tauto

/-- Setting the collections of a group on a feature leaves a property alone
whose name is not among them. -/
theorem setCollections_lookup (pcs : PropertyCollections) (feature : Feature) (name : String)
    (h : name ∉ GoMap.keys pcs) :
    GoMap.lookup (setCollections feature pcs).properties name
      = GoMap.lookup feature.properties name := by
  unfold setCollections
  induction pcs generalizing feature with
  | nil => rfl
  | cons kv rest ih =>
    simp only [GoMap.keys, List.map_cons, List.mem_cons, not_or] at h
    rw [List.foldl_cons, ih _ (by simpa [GoMap.keys] using h.2)]
    simp only [Feature.SetProperty, GoMap.lookup_insert]
    rw [if_neg (fun e => h.1 e.symm)]

/-- The grouping loop, when it returns: a name that is no property of any
row and no name of the collections it started from is no name of the
collections it returns. -/
theorem groupRecords_names (env : Env) (longitude latitude : String) (idx : Int)
    (columns : List Int) (headers : List String) (name : String)
    (records : List (List String)) (tmp : GoMap LineString) (tmps : GoMap PropertyCollections)
    (tmp1 : GoMap LineString) (tmps1 : GoMap PropertyCollections)
    (h : groupRecords env longitude latitude idx columns headers records tmp tmps
      = .ok (tmp1, tmps1))
    (hrows : ∀ record ∈ records,
      name ∉ GoMap.keys (env.ParseProperties headers record longitude latitude))
    (hinv : ∀ id, name ∉ GoMap.keys ((GoMap.lookup tmps id).getD [])) :
    ∀ id, name ∉ GoMap.keys ((GoMap.lookup tmps1 id).getD []) := by
  induction records generalizing tmp tmps with
  | nil =>
    simp only [groupRecords, Except.ok.injEq, Prod.mk.injEq] at h
    rw [← h.2]
    exact hinv
  | cons record rest ih =>
    have hrest : ∀ r ∈ rest,
        name ∉ GoMap.keys (env.ParseProperties headers r longitude latitude) :=
      fun r hr => hrows r (List.mem_cons_of_mem _ hr)
    rw [groupRecords] at h
    cases hpc : ParseCoordinate env columns record with
    | error p => simp [hpc] at h
    | ok r =>
      obtain ⟨coord, err⟩ := r
      cases err with
      | some e =>
        simp only [hpc] at h
        exact ih tmp tmps h hrest hinv
      | none =>
        simp only [hpc] at h
        cases hkey : index record idx with
        | error p => simp [hkey] at h
        | ok key =>
          simp only [hkey] at h
          refine ih _ _ h hrest ?_
          intro id
          have hstart : ∀ id, name ∉ GoMap.keys ((GoMap.lookup
              (if (GoMap.lookup tmps key).isSome then tmps else GoMap.insert tmps key [])
              id).getD []) := by
            intro id
            by_cases hs : (GoMap.lookup tmps key).isSome
            · rw [if_pos hs]
              exact hinv id
            · rw [if_neg hs, GoMap.lookup_insert]
              by_cases hk : key = id
              · simp [hk, GoMap.keys]
              · simp only [hk, if_false]
                exact hinv id
          rw [GoMap.lookup_insert]
          by_cases hk : key = id
          · simp only [hk, if_true, Option.getD_some]
            rw [AppendProperties_keys]
            rintro (h1 | h1)
            · exact hstart id (by rw [← hk]; exact hk ▸ h1)
            · exact hrows record (List.mem_cons_self _ _) h1
          · simp only [hk, if_false]
            exact hstart id

/-- The features that the second loop of the line-string builder adds are
those of some of the keys it visits, in the order of the visit. -/
theorem lineLoop_shape (env : Env) (tmp : GoMap LineString) (tmps : GoMap PropertyCollections)
    (limit : Int) (order : List String) (cnt : Int) (fc : List Feature) :
    ∃ ks : List String, ks.Sublist order ∧
      BuildLineStringCollection.loop env tmp tmps limit order cnt fc
        = fc ++ ks.map (lineStringFeature env tmp tmps) := by
  induction order generalizing cnt fc with
  | nil => exact ⟨[], List.Sublist.slnil, by simp [BuildLineStringCollection.loop]⟩
  | cons id rest ih =>
    rw [BuildLineStringCollection.loop]
    by_cases hlim : (limit != 0 && limit == cnt) = true
    · exact ⟨[], List.nil_sublist _, by simp only [hlim, if_true, List.map_nil,
        List.append_nil]⟩
    · obtain ⟨ks, hks, hloop⟩ := ih (cnt + 1)
        (fc ++ [lineStringFeature env tmp tmps id])
      refine ⟨id :: ks, List.Sublist.cons₂ _ hks, ?_⟩
      rw [if_neg hlim]
      refine hloop.trans ?_
      simp

/-- The features that the second loop of the polygon builder adds, when it
returns, are those that it makes of some of the keys it visits, in the order
of the visit. -/
theorem polyLoop_shape (env : Env) (tmp : GoMap LineString) (tmps : GoMap PropertyCollections)
    (limit : Int) (order : List String) (cnt : Int) (fc res : List Feature)
    (h : BuildPolygonCollection.loop env tmp tmps limit order cnt fc = .ok res) :
    ∃ (ks : List String) (fs : List Feature), ks.Sublist order ∧ res = fc ++ fs ∧
      List.Forall₂ (fun k f => polygonStep env tmp tmps k = some f) ks fs := by
  induction order generalizing cnt fc with
  | nil =>
    simp only [BuildPolygonCollection.loop, Except.ok.injEq] at h
    exact ⟨[], [], List.Sublist.slnil, by simp [h], List.Forall₂.nil⟩
  | cons id rest ih =>
    rw [BuildPolygonCollection.loop] at h
    cases hk : ParsePolygon [(GoMap.lookup tmp id).getD []] with
    | error p => simp [hk] at h
    | ok r =>
      obtain ⟨polygon, err⟩ := r
      cases err with
      | some e =>
        simp only [hk] at h
        obtain ⟨ks, fs, hks, hres, hall⟩ := ih _ _ h
        exact ⟨ks, fs, List.Sublist.cons _ hks, hres, hall⟩
      | none =>
        simp only [hk] at h
        by_cases hlim : (limit != 0 && limit == cnt) = true
        · simp only [hlim, if_true, Except.ok.injEq] at h
          exact ⟨[], [], List.nil_sublist _, by simp [h], List.Forall₂.nil⟩
        · simp only [hlim] at h
          obtain ⟨ks, fs, hks, hres, hall⟩ := ih _ _ h
          refine ⟨id :: ks, polygonFeature env tmps id polygon :: fs,
            List.Sublist.cons₂ _ hks, ?_, List.Forall₂.cons ?_ hall⟩
          · rw [hres]
            simp [polygonFeature]
          · simp [polygonStep, hk]

theorem lineStringFeature_hash (env : Env) (tmp : GoMap LineString)
    (tmps : GoMap PropertyCollections) (id : String)
    (h : "hash_" ∉ GoMap.keys ((GoMap.lookup tmps id).getD [])) :
    GoMap.lookup (lineStringFeature env tmp tmps id).properties "hash_"
      = some (.bytes (ParseHash env id)) := by
  unfold lineStringFeature
  rw [setCollections_lookup _ _ _ h]
  simp [Feature.SetProperty, GoMap.lookup_insert]

theorem polygonFeature_hash (env : Env) (tmps : GoMap PropertyCollections) (id : String)
    (polygon : Polygon) (h : "hash_" ∉ GoMap.keys ((GoMap.lookup tmps id).getD [])) :
    GoMap.lookup (polygonFeature env tmps id polygon).properties "hash_"
      = some (.bytes (ParseHash env id)) := by
  unfold polygonFeature
  rw [setCollections_lookup _ _ _ h]
  simp [Feature.SetProperty, GoMap.lookup_insert]

/-- C15, as stated, fails: when the rows have a property named `hash_` (here
the grouping column itself bears that header), the properties of the group
are set on the feature after the digest and replace it; the property `hash_`
of the feature is then the collection of the values of that column, not the
digest of the key. -/
theorem hash_overwritten :
    ∃ fc, BuildLineStringCollection sampleEnv "lon" "lat" 0 [1, 2] ["hash_", "lon", "lat"]
        [["A", "1.0", "2.0"]] 0 ["A"] = .ok fc ∧
      fc.features.map (fun f => GoMap.lookup f.properties "hash_")
        = [some (.collection [.str "A"])] ∧
      fc.features.map (fun f => GoMap.lookup f.properties "hash_")
        ≠ [some (.bytes (ParseHash sampleEnv "A"))] :=
  ⟨_, rfl, by decide, by decide⟩

/-- C15, amended. When no row has a property named `hash_`, every feature
that `BuildLineStringCollection` or `BuildPolygonCollection` returns, for
every limit and visiting order, is the feature of a group that the second
loop visited, and its property `hash_` is `ParseHash` of the key of that
group, the properties of the group having been set on it. -/
theorem hash_property (env : Env) (longitude latitude : String) (idx : Int)
    (columns : List Int) (headers : List String) (records : List (List String)) (limit : Int)
    (order : List String) (tmp : GoMap LineString) (tmps : GoMap PropertyCollections)
    (hgroups : groupRecords env longitude latitude idx columns headers records [] []
      = .ok (tmp, tmps))
    (hnames : ∀ record ∈ records,
      "hash_" ∉ GoMap.keys (env.ParseProperties headers record longitude latitude)) :
    (∀ fc, BuildLineStringCollection env longitude latitude idx columns headers records limit
        order = .ok fc →
      ∃ ks : List String, ks.Sublist order ∧
        List.Forall₂ (fun k f => f = lineStringFeature env tmp tmps k ∧
          GoMap.lookup f.properties "hash_" = some (.bytes (ParseHash env k))) ks fc.features) ∧
    (∀ fc, BuildPolygonCollection env longitude latitude idx columns headers records limit
        order = .ok fc →
      ∃ ks : List String, ks.Sublist order ∧
        List.Forall₂ (fun k f => polygonStep env tmp tmps k = some f ∧
          GoMap.lookup f.properties "hash_" = some (.bytes (ParseHash env k))) ks fc.features) := by
  have hfree := groupRecords_names env longitude latitude idx columns headers "hash_" records
    [] [] tmp tmps hgroups hnames (by intro id; simp [GoMap.lookup, GoMap.keys])
  constructor
  · intro fc hfc
    simp only [BuildLineStringCollection, hgroups, Except.ok.injEq] at hfc
    subst hfc
    obtain ⟨ks, hks, hloop⟩ := lineLoop_shape env tmp tmps limit order 0 []
    refine ⟨ks, hks, ?_⟩
    simp only [hloop, List.nil_append]
    rw [List.forall₂_map_right_iff, List.forall₂_same]
    intro k _
    exact ⟨rfl, lineStringFeature_hash env tmp tmps k (hfree k)⟩
  · intro fc hfc
    simp only [BuildPolygonCollection, hgroups] at hfc
    cases hloop : BuildPolygonCollection.loop env tmp tmps limit order 0 [] with
    | error p => simp [hloop] at hfc
    | ok res =>
      simp only [hloop, Except.ok.injEq] at hfc
      subst hfc
      obtain ⟨ks, fs, hks, hres, hall⟩ := polyLoop_shape env tmp tmps limit order 0 [] res hloop
      simp only [List.nil_append] at hres
      subst hres
      refine ⟨ks, hks, ?_⟩
      refine List.Forall₂.imp ?_ hall
      intro k f hstep
      refine ⟨hstep, ?_⟩
      unfold polygonStep at hstep
      cases hpp : ParsePolygon [(GoMap.lookup tmp k).getD []] with
      | error p => simp [hpp] at hstep
      | ok r =>
        obtain ⟨polygon, err⟩ := r
        cases err with
        | some e => simp [hpp] at hstep
        | none =>
          simp only [hpp, Option.some.injEq] at hstep
          subst hstep
          exact polygonFeature_hash env tmps k polygon (hfree k)

/-- C15 amended, on three rows of the group `A` and two rows of the group
`B`, whose only property is named `key`. -/
theorem hash_property_witness :
    (∃ fc, BuildPolygonCollection sampleEnv "lon" "lat" 0 [1, 2] ["key", "lon", "lat"]
        rowsTriangleAndPair 0 ["B", "A"] = .ok fc ∧
      fc.features.map (fun f => GoMap.lookup f.properties "hash_")
        = [some (.bytes (ParseHash sampleEnv "A"))]) ∧
    ∃ tmp tmps,
      groupRecords sampleEnv "lon" "lat" 0 [1, 2] ["key", "lon", "lat"] rowsTriangleAndPair
        [] [] = .ok (tmp, tmps) ∧
      (∀ fc, BuildLineStringCollection sampleEnv "lon" "lat" 0 [1, 2] ["key", "lon", "lat"]
          rowsTriangleAndPair 0 ["B", "A"] = .ok fc →
        ∃ ks : List String, ks.Sublist ["B", "A"] ∧
          List.Forall₂ (fun k f => f = lineStringFeature sampleEnv tmp tmps k ∧
            GoMap.lookup f.properties "hash_" = some (.bytes (ParseHash sampleEnv k)))
            ks fc.features) ∧
      (∀ fc, BuildPolygonCollection sampleEnv "lon" "lat" 0 [1, 2] ["key", "lon", "lat"]
          rowsTriangleAndPair 0 ["B", "A"] = .ok fc →
        ∃ ks : List String, ks.Sublist ["B", "A"] ∧
          List.Forall₂ (fun k f => polygonStep sampleEnv tmp tmps k = some f ∧
            GoMap.lookup f.properties "hash_" = some (.bytes (ParseHash sampleEnv k)))
            ks fc.features) :=
  ⟨⟨_, rfl, by decide⟩, _, _, rfl,
    hash_property sampleEnv "lon" "lat" 0 [1, 2] ["key", "lon", "lat"] rowsTriangleAndPair 0
      ["B", "A"] _ _ rfl (by decide)⟩

/-! ## `ParseHash` -/

theorem SHA1.sum_length (msg : List Nat) : (SHA1.sum msg).length = 20 := by
  unfold SHA1.sum
  split
  simp [SHA1.be32]

set_option maxRecDepth 1000000 in
/-- The digests of the empty string and of `abc`, as FIPS 180 gives them. -/
theorem SHA1.sum_known :
    SHA1.sum (utf8 "") = [0xda, 0x39, 0xa3, 0xee, 0x5e, 0x6b, 0x4b, 0x0d, 0x32, 0x55,
      0xbf, 0xef, 0x95, 0x60, 0x18, 0x90, 0xaf, 0xd8, 0x07, 0x09] ∧
    SHA1.sum (utf8 "abc") = [0xa9, 0x99, 0x3e, 0x36, 0x47, 0x06, 0x81, 0x6a, 0xba, 0x3e,
      0x25, 0x71, 0x78, 0x50, 0xc2, 0x6c, 0x9c, 0xd0, 0xd8, 0x9d] := by
  decide

/-- C16. `ParseHash` is deterministic and of fixed size: equal keys have
equal digests, and with SHA-1 as the digest function of the library the
digest of every key, the empty one included, is the SHA-1 of the bytes of the
key and has exactly 20 bytes. -/
theorem ParseHash_digest (env : Env) (hsha : env.HasSHA1) :
    (∀ k1 k2 : String, k1 = k2 → ParseHash env k1 = ParseHash env k2) ∧
    (∀ key : String, ParseHash env key = SHA1.sum (utf8 key) ∧
      (ParseHash env key).length = 20) ∧
    (ParseHash env "").length = 20 := by
  refine ⟨fun k1 k2 h => by rw [h], fun key => ?_, ?_⟩
  · have h : ParseHash env key = SHA1.sum (utf8 key) := hsha key
    exact ⟨h, by rw [h]; exact SHA1.sum_length _⟩
  · have h : ParseHash env "" = SHA1.sum (utf8 "") := hsha ""
    rw [h]
    exact SHA1.sum_length _

/-- C16, with SHA-1 as the digest function: the digest of the empty key is
`da39a3ee 5e6b4b0d 3255bfef 95601890 afd80709`. -/
theorem ParseHash_digest_witness :
    ParseHash sha1Env "" = [0xda, 0x39, 0xa3, 0xee, 0x5e, 0x6b, 0x4b, 0x0d, 0x32, 0x55,
      0xbf, 0xef, 0x95, 0x60, 0x18, 0x90, 0xaf, 0xd8, 0x07, 0x09] ∧
    ((∀ k1 k2 : String, k1 = k2 → ParseHash sha1Env k1 = ParseHash sha1Env k2) ∧
      (∀ key : String, ParseHash sha1Env key = SHA1.sum (utf8 key) ∧
        (ParseHash sha1Env key).length = 20) ∧
      (ParseHash sha1Env "").length = 20) :=
  ⟨SHA1.sum_known.1, ParseHash_digest sha1Env (fun _ => rfl)⟩

end Geo
